import Mathlib

/-!
# Transit scheme cache (`map/transit/transit_reader.cpp`)

A shallow embedding of `TransitReadManager` and `ReadTransitTask`; the
embeddings of `GpsTrackCollection` (`map/gps_track_collection.cpp`) and of
`GeometryBatcher::addTexturedStripStrided` (`yg/geometry_batcher.cpp`) follow
it, in the namespaces `GpsTrack` and `GeometryBatcher`.

* `std::map<K, V>` is a list of pairs kept in strictly increasing key order
  (`mapFind`, `mapSet`, `mapInsert`, `mapErase`); `std::set<K>` is a strictly
  increasing list of keys; `std::multimap<K, V>` is a list ordered by key in
  which an equal key is placed after the ones already there.
* `size_t` and `uint64_t` values are natural numbers, every arithmetic
  operation of the source is reduced modulo `2 ^ 64`.
* `MwmSet::MwmId` is an ordered identifier, `time_point<steady_clock>` a
  natural number of ticks.
* The collaborators (spatial index, region store, clock, zoom computation,
  section reader) are the fields of `World`, one snapshot per call.
* The worker pool has one thread (`kThreadsCount = 1`): inside
  `GetTransitDisplayInfo` the pushed tasks are run in the order they were
  pushed, each followed by `OnTaskCompleted`. The other interleavings of the
  rendezvous are those of `GroupWait`, which starts from the group that
  `GetTransitDisplayInfo` registers and uses its push, its wait predicate and
  its completion callback; the method is the interleaving `sequentialActions`.
-/

namespace TransitReader

/-! ## Machine integers -/

/-- Number of values of a `size_t` / `uint64_t`. -/
def sizeMod : Nat := 18446744073709551616

/-- Addition `a + b` of two `size_t`. -/
def sizeAdd (a b : Nat) : Nat := (a + b) % sizeMod

/-- Subtraction `a - b` of two `size_t`. -/
def sizeSub (a b : Nat) : Nat := (a + (sizeMod - b % sizeMod)) % sizeMod

/-- Multiplication `a * b` of two `size_t`. -/
def sizeMul (a b : Nat) : Nat := (a * b) % sizeMod

/-! ## Ordered containers -/

/-- Lookup `m.find(k)` in a `std::map`: the value stored under `k`, if any. -/
def mapFind {β : Type} (k : Nat) : List (Nat × β) → Option β
  | [] => none
  | (k1, v) :: rest => if k1 = k then some v else mapFind k rest

/-- Assignment `m[k] = v` in a `std::map`: overwrite the value under `k`, or
add the pair at its place in key order. -/
def mapSet {β : Type} (k : Nat) (v : β) : List (Nat × β) → List (Nat × β)
  | [] => [(k, v)]
  | (k1, v1) :: rest =>
    if k < k1 then (k, v) :: (k1, v1) :: rest
    else if k = k1 then (k, v) :: rest
    else (k1, v1) :: mapSet k v rest

/-- Insertion `m.insert(make_pair(k, v))` in a `std::map`: nothing happens when
the key is already there. -/
def mapInsert {β : Type} (k : Nat) (v : β) (m : List (Nat × β)) : List (Nat × β) :=
  match mapFind k m with
  | some _ => m
  | none => mapSet k v m

/-- Removal `m.erase(m.find(k))` of the element found under `k`. -/
def mapErase {β : Type} (k : Nat) : List (Nat × β) → List (Nat × β)
  | [] => []
  | (k1, v) :: rest => if k1 = k then rest else (k1, v) :: mapErase k rest

/-- Keys of a `std::map`, in iteration order. -/
def mapKeys {β : Type} (m : List (Nat × β)) : List Nat := m.map Prod.fst

/-- Representation invariant of a `std::map`: strictly increasing keys. -/
def MapOrdered {β : Type} (m : List (Nat × β)) : Prop :=
  (mapKeys m).Pairwise (fun a b => a < b)

instance instDecidableMapOrdered {β : Type} (m : List (Nat × β)) : Decidable (MapOrdered m) := by
  unfold MapOrdered
  infer_instance

/-- The order of a `std::multimap`: keys never decrease along the iteration. -/
def TimeOrdered {β : Type} (l : List (Nat × β)) : Prop :=
  l.Pairwise (fun a b => a.1 ≤ b.1)

/-- Insertion `s.insert(k)` in a `std::set`. -/
def setInsert (k : Nat) : List Nat → List Nat
  | [] => [k]
  | k1 :: rest =>
    if k < k1 then k :: k1 :: rest
    else if k = k1 then k1 :: rest
    else k1 :: setInsert k rest

/-- Insertion in a `std::multimap`: after every element whose key is not
greater than the new key. -/
def multimapInsert {β : Type} (t : Nat) (v : β) : List (Nat × β) → List (Nat × β)
  | [] => [(t, v)]
  | (t1, v1) :: rest =>
    if t < t1 then (t, v) :: (t1, v1) :: rest
    else (t1, v1) :: multimapInsert t v rest

/-! ## Data model -/

/-- Identifier of a region (`MwmSet::MwmId`). -/
abbrev MwmId := Nat

/-- A `time_point<steady_clock>`. -/
abbrev TimePoint := Nat

/-- The part of `TransitDisplayInfo` that the cache accounting reads: the
shapes, each with the points of its polyline. -/
structure TransitDisplayInfo where
  m_shapes : List (Nat × List (Int × Int)) := []
  deriving DecidableEq, Repr

/-- The map `TransitDisplayInfos`; `none` is a null `unique_ptr`. -/
abbrev TransitDisplayInfos := List (MwmId × Option TransitDisplayInfo)

/-- Modelled from the spec: the struct `CacheEntry` is declared in
`transit_reader.hpp`; an entry built from an activity time is not loaded and
has size 0. -/
structure CacheEntry where
  m_isLoaded : Bool := false
  m_dataSize : Nat := 0
  m_lastActiveTime : TimePoint
  deriving DecidableEq, Repr

/-- What `UpdateViewport` reads off a `ScreenBase`: `GetScale()` and
`ClipRect()`, as codes handed to the collaborators. -/
structure ScreenBase where
  m_scale : Nat := 0
  m_clipRect : Nat := 0
  deriving DecidableEq, Repr

/-- Modelled from the spec: the rendering sink. `DrapeEngine` and the wrapper
`m_drapeEngine.SafeCall` are not in the source; a `SafeCall` is a fire-and-forget
notification, recorded here with its arguments. -/
inductive DrapeCall where
  | UpdateTransitScheme (infos : TransitDisplayInfos) (mwms : List MwmId)
  | ClearTransitSchemeCache (mwmId : MwmId)
  deriving DecidableEq, Repr

/-- The collaborators, as seen during one call. -/
structure World where
  /-- The zoom `df::GetZoomLevel(scale)`. -/
  GetZoomLevel : Nat → Int
  /-- The spatial index `m_getMwmsByRectFn(rect)`. -/
  getMwmsByRectFn : Nat → List MwmId
  /-- The test `mwmId.IsAlive()` made by `UpdateViewport`. -/
  IsAlive : MwmId → Bool
  /-- The value of `steady_clock::now()`. -/
  steadyClockNow : TimePoint
  /-- Whether `m_index.GetMwmHandleById(mwmId)` is alive when the task runs. -/
  handleIsAlive : MwmId → Bool
  /-- The test `m_cont.IsExist(TRANSIT_FILE_TAG)` on the region. -/
  transitSectionExists : MwmId → Bool
  /-- The effect on the dataset of deserializing the section, filling the
  maps and reading the features (region, `m_loadSubset`, dataset before). -/
  readSection : MwmId → Bool → TransitDisplayInfo → TransitDisplayInfo

/-- The ways a call does not return: a `CHECK` fails, a null `unique_ptr` is
dereferenced, a wait is never woken. -/
inductive Fault where
  | checkFailed
  | nullDereference
  | waitsForever
  deriving DecidableEq, Repr

/-! ## Constants and cost -/

def kMinSchemeZoomLevel : Int := 10

def kMaxTransitCacheSizeBytes : Nat := 5 * 1024 * 1024

def kSegmentSize : Nat := 72

/-- The function `CalculateCacheSize`: the loop over `m_shapes`. -/
def CalculateCacheSize (transitInfo : TransitDisplayInfo) : Nat :=
  transitInfo.m_shapes.foldl
    (fun cacheSize shape => sizeAdd cacheSize (sizeMul shape.2.length kSegmentSize)) 0

/-! ## ReadTransitTask -/

structure ReadTransitTask where
  m_id : Nat := 0
  m_mwmId : MwmId := 0
  m_loadSubset : Bool := false
  m_transitInfo : Option TransitDisplayInfo := none
  m_success : Bool := false
  deriving DecidableEq, Repr

namespace ReadTransitTask

/-- The method `ReadTransitTask::Init`. -/
def Init (task : ReadTransitTask) (id : Nat) (mwmId : MwmId)
    (transitInfo : Option TransitDisplayInfo) : ReadTransitTask :=
  match transitInfo with
  | none =>
    { task with m_id := id, m_mwmId := mwmId, m_loadSubset := false,
                m_transitInfo := some {}, m_success := false }
  | some info =>
    { task with m_id := id, m_mwmId := mwmId, m_loadSubset := true,
                m_transitInfo := some info, m_success := false }

/-- The method `ReadTransitTask::Do`. The second `CHECK` (a non-null reader of
a section that exists) holds by construction of the container. Filling the
dataset dereferences `m_transitInfo`: on a task that has none (a task that
was not initialised) the call does not return. -/
def Do (w : World) (task : ReadTransitTask) : Except Fault ReadTransitTask :=
  if !w.handleIsAlive task.m_mwmId then
    .ok { task with m_success := false }
  else if !task.m_loadSubset && !w.transitSectionExists task.m_mwmId then
    .ok { task with m_success := true }
  else if !w.transitSectionExists task.m_mwmId then
    .error Fault.checkFailed
  else
    match task.m_transitInfo with
    | none => .error Fault.nullDereference
    | some transitInfo =>
      .ok { task with
              m_transitInfo := some (w.readSection task.m_mwmId task.m_loadSubset transitInfo),
              m_success := true }

def GetSuccess (task : ReadTransitTask) : Bool := task.m_success

def GetId (task : ReadTransitTask) : Nat := task.m_id

def GetTransitInfo (task : ReadTransitTask) : Option TransitDisplayInfo := task.m_transitInfo

end ReadTransitTask

/-! ## TransitReadManager -/

/-- The members of `TransitReadManager` and, as `m_drapeCalls`, `m_pushedTasks`
and `m_notifyCount`, the record of the calls made on the drape engine, of the
tasks pushed to the thread pool and of the `notify_all` calls. -/
structure TransitReadManager where
  m_isSchemeMode : Bool := false
  m_currentModelView : ScreenBase × Bool := ({}, false)
  m_lastVisibleMwms : List MwmId := []
  m_lastActiveMwms : List MwmId := []
  m_mwmCache : List (MwmId × CacheEntry) := []
  m_cacheSize : Nat := 0
  m_nextTasksGroupId : Nat := 0
  m_tasksGroups : List (Nat × Nat) := []
  m_drapeCalls : List DrapeCall := []
  m_pushedTasks : List (Nat × MwmId) := []
  m_notifyCount : Nat := 0
  deriving DecidableEq, Repr

namespace TransitReadManager

/-- The method `TransitReadManager::ClearCache`. -/
def ClearCache (mwmId : MwmId) (s : TransitReadManager) : TransitReadManager :=
  match mapFind mwmId s.m_mwmCache with
  | none => s
  | some entry =>
    { s with
        m_cacheSize := sizeSub s.m_cacheSize entry.m_dataSize,
        m_mwmCache := mapErase mwmId s.m_mwmCache,
        m_drapeCalls := s.m_drapeCalls ++ [DrapeCall.ClearTransitSchemeCache mwmId] }

/-- The method `TransitReadManager::OnMwmDeregistered`. -/
def OnMwmDeregistered (mwmId : MwmId) (s : TransitReadManager) : TransitReadManager :=
  ClearCache mwmId s

/-- The first loop of `ShrinkCacheToAllowableSize`: the loaded entries whose
region is not in `m_lastActiveMwms`, ordered by activity time. -/
def collectSeenTimings (active : List MwmId) (cache : List (MwmId × CacheEntry)) :
    List (TimePoint × MwmId) :=
  cache.foldl
    (fun seenTimings entry =>
      if entry.2.m_isLoaded && decide (entry.1 ∉ active) then
        multimapInsert entry.2.m_lastActiveTime entry.1 seenTimings
      else seenTimings)
    []

/-- The `while` loop of `ShrinkCacheToAllowableSize`. -/
def shrinkLoop : List (TimePoint × MwmId) → TransitReadManager → TransitReadManager
  | [], s => s
  | timing :: seenTimings, s =>
    if s.m_cacheSize > kMaxTransitCacheSizeBytes then
      shrinkLoop seenTimings (ClearCache timing.2 s)
    else s

/-- The method `TransitReadManager::ShrinkCacheToAllowableSize`. -/
def ShrinkCacheToAllowableSize (s : TransitReadManager) : TransitReadManager :=
  if s.m_cacheSize > kMaxTransitCacheSizeBytes then
    shrinkLoop (collectSeenTimings s.m_lastActiveMwms s.m_mwmCache) s
  else s

/-- The method `TransitReadManager::OnTaskCompleted`. -/
def OnTaskCompleted (task : ReadTransitTask) (s : TransitReadManager) : TransitReadManager :=
  let counter := sizeSub ((mapFind task.GetId s.m_tasksGroups).getD 0) 1
  { s with
      m_tasksGroups := mapSet task.GetId counter s.m_tasksGroups,
      m_notifyCount := if counter = 0 then s.m_notifyCount + 1 else s.m_notifyCount }

/-- Modelled from the spec: the thread pool is not in the source. Its worker
runs every pushed task once, in the order of the pushes, and calls the
completion callback `OnTaskCompleted` with the finished task. -/
def runTasks (w : World) :
    List (MwmId × ReadTransitTask) → TransitReadManager →
      Except Fault (List (MwmId × ReadTransitTask) × TransitReadManager)
  | [], s => .ok ([], s)
  | (mwmId, task) :: rest, s =>
    match task.Do w with
    | .error f => .error f
    | .ok done =>
      match runTasks w rest (OnTaskCompleted done s) with
      | .error f => .error f
      | .ok (doneRest, s1) => .ok ((mwmId, done) :: doneRest, s1)

/-- The last loop of `GetTransitDisplayInfo`: the datasets of the successful
tasks are stored, `result` records whether a task failed. -/
def collectResults :
    List (MwmId × ReadTransitTask) → TransitDisplayInfos × Bool → TransitDisplayInfos × Bool
  | [], acc => acc
  | (mwmId, task) :: rest, (infos, result) =>
    if !task.GetSuccess then collectResults rest (infos, false)
    else collectResults rest (mapSet mwmId task.GetTransitInfo infos, result)

/-- The group of tasks of one call of `GetTransitDisplayInfo`, at the moment it
is registered: the value of the local `groupId`, the map `transitTasks`, and
the manager after `m_tasksGroups[groupId] = transitTasks.size()`. -/
structure TasksGroup where
  groupId : Nat
  transitTasks : List (MwmId × ReadTransitTask)
  registered : TransitReadManager
  deriving DecidableEq, Repr

/-- The beginning of `GetTransitDisplayInfo`, up to the registration of the
group: the counter is incremented and its new value is the group id, one task
is built and initialised per requested region, and the number of tasks is
stored under the group id. -/
def registerGroup (transitDisplayInfos : TransitDisplayInfos) (s : TransitReadManager) :
    TasksGroup :=
  let groupId := (s.m_nextTasksGroupId + 1) % sizeMod
  let s1 := { s with m_nextTasksGroupId := groupId }
  let transitTasks : List (MwmId × ReadTransitTask) :=
    transitDisplayInfos.foldl
      (fun tasks mwmTransitPair =>
        mapSet mwmTransitPair.1
          (ReadTransitTask.Init {} groupId mwmTransitPair.1 mwmTransitPair.2) tasks)
      []
  { groupId := groupId,
    transitTasks := transitTasks,
    registered := { s1 with m_tasksGroups := mapSet groupId transitTasks.length s1.m_tasksGroups } }

/-- Modelled from the spec: the thread pool is not in the source. The call
`m_threadsPool->PushBack(task)` hands the task to the pool; the push is
recorded with the id and the region that the task carries. -/
def PushBack (task : ReadTransitTask) (s : TransitReadManager) : TransitReadManager :=
  { s with m_pushedTasks := s.m_pushedTasks ++ [(task.GetId, task.m_mwmId)] }

/-- The predicate of `m_event.wait`: `m_tasksGroups[groupId] == 0`. -/
def groupIsDone (groupId : Nat) (s : TransitReadManager) : Bool :=
  decide ((mapFind groupId s.m_tasksGroups).getD 0 = 0)

/-- The statement `m_tasksGroups.erase(groupId)`. -/
def eraseGroup (groupId : Nat) (s : TransitReadManager) : TransitReadManager :=
  { s with m_tasksGroups := mapErase groupId s.m_tasksGroups }

/-- The method `TransitReadManager::GetTransitDisplayInfo`. -/
def GetTransitDisplayInfo (w : World) (transitDisplayInfos : TransitDisplayInfos)
    (s : TransitReadManager) : Except Fault (TransitDisplayInfos × Bool × TransitReadManager) :=
  let group := registerGroup transitDisplayInfos s
  -- the datasets were moved into the tasks
  let moved : TransitDisplayInfos := transitDisplayInfos.map (fun p => (p.1, none))
  let s3 := group.transitTasks.foldl (fun acc task => PushBack task.2 acc) group.registered
  match runTasks w group.transitTasks s3 with
  | .error f => .error f
  | .ok (doneTasks, s4) =>
    if groupIsDone group.groupId s4 then
      let s5 := eraseGroup group.groupId s4
      let out := collectResults doneTasks (moved, true)
      .ok (out.1, out.2, s5)
    else .error Fault.waitsForever

/-- The first loop of `UpdateViewport`, one region of the visible set. -/
def markVisible (w : World) (currentTime : TimePoint)
    (acc : TransitDisplayInfos × TransitReadManager) (mwmId : MwmId) :
    TransitDisplayInfos × TransitReadManager :=
  if !w.IsAlive mwmId then acc
  else
    let s := { acc.2 with m_lastActiveMwms := setInsert mwmId acc.2.m_lastActiveMwms }
    match mapFind mwmId s.m_mwmCache with
    | none =>
      (mapSet mwmId none acc.1,
       { s with m_mwmCache := mapInsert mwmId { m_lastActiveTime := currentTime } s.m_mwmCache })
    | some entry =>
      (acc.1,
       { s with
           m_mwmCache := mapSet mwmId { entry with m_lastActiveTime := currentTime } s.m_mwmCache })

/-- The second loop of `UpdateViewport`, one element of `displayInfos`. A key
without cache entry does not occur (the entry was inserted by the first loop);
the state is then left as it is. -/
def recordLoaded (s : TransitReadManager) (transitInfo : MwmId × Option TransitDisplayInfo) :
    TransitReadManager :=
  match transitInfo.2 with
  | none => s
  | some info =>
    match mapFind transitInfo.1 s.m_mwmCache with
    | none => s
    | some entry =>
      let dataSize := CalculateCacheSize info
      { s with
          m_mwmCache :=
            mapSet transitInfo.1 { entry with m_isLoaded := true, m_dataSize := dataSize }
              s.m_mwmCache,
          m_cacheSize := sizeAdd s.m_cacheSize dataSize }

/-- The method `TransitReadManager::UpdateViewport`. -/
def UpdateViewport (w : World) (screen : ScreenBase) (s : TransitReadManager) :
    Except Fault TransitReadManager :=
  let s0 := { s with m_currentModelView := (screen, true) }
  if !s0.m_isSchemeMode then .ok s0
  else if w.GetZoomLevel screen.m_scale < kMinSchemeZoomLevel then .ok s0
  else
    let mwms := w.getMwmsByRectFn screen.m_clipRect
    if s0.m_lastVisibleMwms = mwms then .ok s0
    else
      let s1 := { s0 with m_lastVisibleMwms := mwms, m_lastActiveMwms := [] }
      let currentTime := w.steadyClockNow
      let marked := mwms.foldl (markVisible w currentTime) ([], s1)
      match GetTransitDisplayInfo w marked.1 marked.2 with
      | .error f => .error f
      | .ok (displayInfos, _, s2) =>
        if displayInfos ≠ [] then
          let s3 := displayInfos.foldl recordLoaded s2
          let s4 := ShrinkCacheToAllowableSize s3
          .ok { s4 with
                  m_drapeCalls :=
                    s4.m_drapeCalls ++ [DrapeCall.UpdateTransitScheme displayInfos mwms] }
        else .ok s2

/-- The method `TransitReadManager::Invalidate`. -/
def Invalidate (w : World) (s : TransitReadManager) : Except Fault TransitReadManager :=
  if !s.m_isSchemeMode then .ok s
  else
    let s1 := { s with m_lastVisibleMwms := [] }
    if s1.m_currentModelView.2 then UpdateViewport w s1.m_currentModelView.1 s1
    else .ok s1

/-- The method `TransitReadManager::EnableTransitSchemeMode`. -/
def EnableTransitSchemeMode (w : World) (enable : Bool) (s : TransitReadManager) :
    Except Fault TransitReadManager :=
  if s.m_isSchemeMode = enable then .ok s
  else
    let s1 := { s with m_isSchemeMode := enable }
    if !s1.m_isSchemeMode then
      .ok { s1 with m_lastVisibleMwms := [], m_lastActiveMwms := [], m_mwmCache := [],
                    m_cacheSize := 0 }
    else Invalidate w s1

end TransitReadManager

/-! ## Accounting and reachable states -/

/-- What an entry contributes to the accounted total: its `m_dataSize` when
`m_isLoaded`, nothing otherwise. -/
def entryCost (entry : CacheEntry) : Nat :=
  if entry.m_isLoaded then entry.m_dataSize else 0

/-- Sum of `m_dataSize` over the entries of the cache whose `m_isLoaded` is
true. -/
def loadedSum : List (MwmId × CacheEntry) → Nat
  | [] => 0
  | entry :: rest => entryCost entry.2 + loadedSum rest

/-- The consistency of a manager's cache: the map is a `std::map`, an entry
that is not loaded has size 0, and `m_cacheSize` is the `size_t` value of the
sum of the loaded sizes. -/
def CacheInv (s : TransitReadManager) : Prop :=
  MapOrdered s.m_mwmCache ∧
  (∀ k e, mapFind k s.m_mwmCache = some e → e.m_isLoaded = false → e.m_dataSize = 0) ∧
  s.m_cacheSize = loadedSum s.m_mwmCache % sizeMod

/-- Modelled from the spec: the member initialisers are in
`transit_reader.hpp`, which is not in the source. After construction the scheme
mode is off, no viewport is known, the cache is empty and the total is 0. -/
def constructed : TransitReadManager := {}

/-- The states a manager goes through: the state after construction, then any
sequence of calls of the public methods that return. -/
inductive Reachable : TransitReadManager → Prop where
  | init : Reachable constructed
  | updateViewport (w : World) (screen : ScreenBase) (s s1 : TransitReadManager) :
      Reachable s → TransitReadManager.UpdateViewport w screen s = .ok s1 → Reachable s1
  | clearCache (mwmId : MwmId) (s : TransitReadManager) :
      Reachable s → Reachable (TransitReadManager.ClearCache mwmId s)
  | onMwmDeregistered (mwmId : MwmId) (s : TransitReadManager) :
      Reachable s → Reachable (TransitReadManager.OnMwmDeregistered mwmId s)
  | enableTransitSchemeMode (w : World) (enable : Bool) (s s1 : TransitReadManager) :
      Reachable s → TransitReadManager.EnableTransitSchemeMode w enable s = .ok s1 →
        Reachable s1
  | invalidate (w : World) (s s1 : TransitReadManager) :
      Reachable s → TransitReadManager.Invalidate w s = .ok s1 → Reachable s1

/-- What holds of the pair built by the first loop of `UpdateViewport`: the
cache is consistent, the requests form a `std::map` of null datasets, and each
requested region has a cache entry that is not loaded. -/
def MarkInv (acc : TransitDisplayInfos × TransitReadManager) : Prop :=
  CacheInv acc.2 ∧ MapOrdered acc.1 ∧ (∀ p ∈ acc.1, p.2 = none) ∧
  (∀ k ∈ mapKeys acc.1, ∃ e, mapFind k acc.2.m_mwmCache = some e ∧ e.m_isLoaded = false)

/-- The state of a task once the worker has run it: the result of `Do` when
`Do` returns. -/
def doneTask (w : World) (task : ReadTransitTask) : ReadTransitTask :=
  match task.Do w with
  | .ok done => done
  | .error _ => task

/-- The pending counter `m_tasksGroups[groupId]` as `operator[]` reads it. -/
def pendingCount (s : TransitReadManager) (groupId : Nat) : Nat :=
  (mapFind groupId s.m_tasksGroups).getD 0

/-- What the caller of `GetTransitDisplayInfo` gets for one requested region:
the dataset of its task when the task succeeded, a null pointer otherwise. -/
def taskOutcome (w : World) (groupId : Nat) (mwmId : MwmId)
    (transitInfo : Option TransitDisplayInfo) : Option TransitDisplayInfo :=
  let done := doneTask w (ReadTransitTask.Init {} groupId mwmId transitInfo)
  if done.GetSuccess then done.GetTransitInfo else none

/-- The state of `UpdateViewport` after its first loop, for a call that passes
the three early returns: the requests `displayInfos` and the manager. -/
def markedRequests (w : World) (screen : ScreenBase) (s : TransitReadManager) :
    TransitDisplayInfos × TransitReadManager :=
  (w.getMwmsByRectFn screen.m_clipRect).foldl (TransitReadManager.markVisible w w.steadyClockNow)
    ([], { s with
             m_currentModelView := (screen, true),
             m_lastVisibleMwms := w.getMwmsByRectFn screen.m_clipRect,
             m_lastActiveMwms := [] })

/-- The end of `UpdateViewport`, from the return of `GetTransitDisplayInfo`
on. -/
def finishUpdate (mwms : List MwmId) (displayInfos : TransitDisplayInfos)
    (s2 : TransitReadManager) : TransitReadManager :=
  if displayInfos ≠ [] then
    let s4 := TransitReadManager.ShrinkCacheToAllowableSize
      (displayInfos.foldl TransitReadManager.recordLoaded s2)
    { s4 with
        m_drapeCalls := s4.m_drapeCalls ++ [DrapeCall.UpdateTransitScheme displayInfos mwms] }
  else s2

/-- The total after the second loop of `UpdateViewport`, from the total before
it: the cost of the dataset of each requested region whose task succeeded is
added, in the order of the requests; a failed task adds nothing. -/
def totalAfterLoads (w : World) (groupId : Nat) (requested : List MwmId) (total : Nat) : Nat :=
  requested.foldl
    (fun acc k =>
      match taskOutcome w groupId k none with
      | none => acc
      | some info => sizeAdd acc (CalculateCacheSize info))
    total

/-- The evictions of `shrinkLoop`, without the budget test: `ClearCache` on
each listed region in turn. -/
def clearAll (timings : List (TimePoint × MwmId)) (s : TransitReadManager) :
    TransitReadManager :=
  timings.foldl (fun acc timing => TransitReadManager.ClearCache timing.2 acc) s

/-! ## The rendezvous of `GetTransitDisplayInfo` and `OnTaskCompleted`

The caller thread and the workers of the pool, one atomic action at a time.
The mutex makes the registration of the group, each `OnTaskCompleted` and each
evaluation of the wait predicate atomic. -/

namespace GroupWait

/-- Where the caller of `GetTransitDisplayInfo` stands, from the registration
of the group on. -/
inductive Phase where
  | pushing
  | waiting
  | returned
  deriving DecidableEq, Repr

/-- The manager, the tasks of the group by place (not yet pushed, in the queue
of the pool, taken by a worker), the number of `OnTaskCompleted` calls made for
the group, and the phase of the caller. -/
structure Config where
  mgr : TransitReadManager
  toPush : List ReadTransitTask
  queue : List ReadTransitTask
  running : List ReadTransitTask
  completed : Nat
  phase : Phase
  deriving DecidableEq, Repr

/-- One atomic action: the caller pushes its next task, the caller starts to
wait, a worker takes a task of the queue, a worker ends a task and calls
`OnTaskCompleted`, the caller sees the wait predicate true and returns. -/
inductive Action where
  | push
  | beginWait
  | take (i : Nat)
  | complete (i : Nat)
  | wake
  deriving DecidableEq, Repr

/-- The configuration of a call of `GetTransitDisplayInfo` right after the
registration of its group, no task pushed yet. -/
def start (group : TransitReadManager.TasksGroup) : Config :=
  { mgr := group.registered,
    toPush := group.transitTasks.map Prod.snd,
    queue := [], running := [], completed := 0, phase := Phase.pushing }

/-- Modelled from the spec: the thread pool is not in the source; a pushed task
is taken once by some worker, which runs it and then calls the completion
callback once. The effect of an action, `none` when the action is not
possible. -/
def step (w : World) (groupId : Nat) : Action → Config → Option Config
  | Action.push, c =>
    if c.phase = Phase.pushing then
      match c.toPush with
      | [] => none
      | task :: rest =>
        some { c with
                 toPush := rest,
                 queue := c.queue ++ [task],
                 mgr := TransitReadManager.PushBack task c.mgr }
    else none
  | Action.beginWait, c =>
    if c.phase = Phase.pushing ∧ c.toPush = [] then some { c with phase := Phase.waiting }
    else none
  | Action.take i, c =>
    match c.queue[i]? with
    | none => none
    | some task => some { c with queue := c.queue.eraseIdx i, running := task :: c.running }
  | Action.complete i, c =>
    match c.running[i]? with
    | none => none
    | some task =>
      match task.Do w with
      | .error _ => none
      | .ok done =>
        some { c with
                 running := c.running.eraseIdx i,
                 mgr := TransitReadManager.OnTaskCompleted done c.mgr,
                 completed := c.completed + 1 }
  | Action.wake, c =>
    if c.phase = Phase.waiting ∧ TransitReadManager.groupIsDone groupId c.mgr = true then
      some { c with
               phase := Phase.returned,
               mgr := TransitReadManager.eraseGroup groupId c.mgr }
    else none

/-- An interleaving: the actions in turn. -/
def run (w : World) (groupId : Nat) : List Action → Config → Option Config
  | [], c => some c
  | a :: rest, c =>
    match step w groupId a c with
    | none => none
    | some c1 => run w groupId rest c1

/-- The interleaving of a pool with one worker that runs the pushed tasks in
the order of the pushes: `n` pushes, the caller starts to wait, each task is
taken and completed in turn, the caller is woken. -/
def sequentialActions (n : Nat) : List Action :=
  List.replicate n Action.push ++ [Action.beginWait] ++
    (List.replicate n [Action.take 0, Action.complete 0]).flatten ++ [Action.wake]

/-- What every configuration of a group of `n` tasks satisfies. -/
def Inv (groupId n : Nat) (c : Config) : Prop :=
  (∀ t ∈ c.toPush ++ c.queue ++ c.running, t.m_id = groupId) ∧
  c.completed + c.running.length + c.queue.length + c.toPush.length = n ∧
  (c.phase ≠ Phase.returned → pendingCount c.mgr groupId = n - c.completed) ∧
  (c.phase = Phase.returned → c.completed = n)

end GroupWait

/-- The group ids used on a manager from the state `first` on, the latest
first: a call of `GetTransitDisplayInfo` uses the id of the group it
registers; any other step leaves `m_nextTasksGroupId` as it is. -/
inductive GroupHistory (first : TransitReadManager) : TransitReadManager → List Nat → Prop where
  | start : GroupHistory first first []
  | call (w : World) (infos out : TransitDisplayInfos) (r : Bool) (s s1 : TransitReadManager)
      (ids : List Nat) :
      GroupHistory first s ids →
      TransitReadManager.GetTransitDisplayInfo w infos s = .ok (out, r, s1) →
      GroupHistory first s1 ((TransitReadManager.registerGroup infos s).groupId :: ids)
  | other (s s1 : TransitReadManager) (ids : List Nat) :
      GroupHistory first s ids → s1.m_nextTasksGroupId = s.m_nextTasksGroupId →
      GroupHistory first s1 ids

/-! ## Examples -/

/-- Collaborators for the examples: zoom 12 everywhere, the given visible set,
every region alive for `IsAlive`, the handles of the regions in `gone` not
alive when their task runs, a section with one shape of two points. -/
def exampleWorld (visible gone : List MwmId) (time : TimePoint) : World where
  GetZoomLevel := fun _ => 12
  getMwmsByRectFn := fun _ => visible
  IsAlive := fun _ => true
  steadyClockNow := time
  handleIsAlive := fun k => decide (k ∉ gone)
  transitSectionExists := fun _ => true
  readSection := fun k _ _ => { m_shapes := [(k, [(0, 0), (1, 1)])] }

/-- The manager after construction and `EnableTransitSchemeMode(true)`. -/
def enabledManager : TransitReadManager := { m_isSchemeMode := true }

/-- The manager `enabledManager` after a first `UpdateViewport` that shows
regions 1 and 2, the load of region 2 failing. -/
def afterFirstUpdate : TransitReadManager :=
  { m_isSchemeMode := true,
    m_currentModelView := ({}, true),
    m_lastVisibleMwms := [1, 2],
    m_lastActiveMwms := [1, 2],
    m_mwmCache :=
      [(1, { m_isLoaded := true, m_dataSize := 144, m_lastActiveTime := 5 }),
       (2, { m_isLoaded := false, m_dataSize := 0, m_lastActiveTime := 5 })],
    m_cacheSize := 144,
    m_nextTasksGroupId := 1,
    m_drapeCalls :=
      [DrapeCall.UpdateTransitScheme
        [(1, some { m_shapes := [(1, [(0, 0), (1, 1)])] }), (2, none)] [1, 2]],
    m_pushedTasks := [(1, 1), (1, 2)],
    m_notifyCount := 1 }

/-- The manager `afterFirstUpdate` after a second `UpdateViewport` at time 9
that shows regions 2 and 3, every handle alive. -/
def afterSecondUpdate : TransitReadManager :=
  { m_isSchemeMode := true,
    m_currentModelView := ({ m_clipRect := 1 }, true),
    m_lastVisibleMwms := [2, 3],
    m_lastActiveMwms := [2, 3],
    m_mwmCache :=
      [(1, { m_isLoaded := true, m_dataSize := 144, m_lastActiveTime := 5 }),
       (2, { m_isLoaded := false, m_dataSize := 0, m_lastActiveTime := 9 }),
       (3, { m_isLoaded := true, m_dataSize := 144, m_lastActiveTime := 9 })],
    m_cacheSize := 288,
    m_nextTasksGroupId := 2,
    m_drapeCalls :=
      [DrapeCall.UpdateTransitScheme
        [(1, some { m_shapes := [(1, [(0, 0), (1, 1)])] }), (2, none)] [1, 2],
       DrapeCall.UpdateTransitScheme [(3, some { m_shapes := [(3, [(0, 0), (1, 1)])] })] [2, 3]],
    m_pushedTasks := [(1, 1), (1, 2), (2, 3)],
    m_notifyCount := 2 }

/-- The manager `enabledManager` after an `UpdateViewport` that shows region 1
only, the load of region 1 failing. -/
def afterFailedUpdate : TransitReadManager :=
  { m_isSchemeMode := true,
    m_currentModelView := ({}, true),
    m_lastVisibleMwms := [1],
    m_lastActiveMwms := [1],
    m_mwmCache := [(1, { m_isLoaded := false, m_dataSize := 0, m_lastActiveTime := 5 })],
    m_cacheSize := 0,
    m_nextTasksGroupId := 1,
    m_drapeCalls := [DrapeCall.UpdateTransitScheme [(1, none)] [1]],
    m_pushedTasks := [(1, 1)],
    m_notifyCount := 1 }

/-- A cache above the budget: region 1 is active and has the given size,
regions 2, 4 and 5 are loaded and inactive, region 3 is not loaded. -/
def shrinkExample (size1 : Nat) : TransitReadManager :=
  { m_isSchemeMode := true,
    m_lastActiveMwms := [1],
    m_mwmCache :=
      [(1, { m_isLoaded := true, m_dataSize := size1, m_lastActiveTime := 9 }),
       (2, { m_isLoaded := true, m_dataSize := 200000, m_lastActiveTime := 7 }),
       (3, { m_isLoaded := false, m_dataSize := 0, m_lastActiveTime := 1 }),
       (4, { m_isLoaded := true, m_dataSize := 100000, m_lastActiveTime := 3 }),
       (5, { m_isLoaded := true, m_dataSize := 50000, m_lastActiveTime := 8 })],
    m_cacheSize := size1 + 350000 }

/-- The collaborators of `exampleWorld`, seen at zoom level 9. -/
def lowZoomWorld (visible gone : List MwmId) (time : TimePoint) : World :=
  { exampleWorld visible gone time with GetZoomLevel := fun _ => 9 }

/-- A manager that has used six group ids, and a request for the regions 1
and 2: the group of the next call has the id 7. -/
def exampleRequest : TransitDisplayInfos × TransitReadManager :=
  ([(1, none), (2, none)], { m_isSchemeMode := true, m_nextTasksGroupId := 6 })

/-- The manager `afterFirstUpdate` after `EnableTransitSchemeMode(false)`. -/
def afterDisable : TransitReadManager :=
  { afterFirstUpdate with
      m_isSchemeMode := false, m_lastVisibleMwms := [], m_lastActiveMwms := [],
      m_mwmCache := [], m_cacheSize := 0 }

/-- The collaborators of `exampleWorld`, no region having a transit section. -/
def noSectionWorld (visible gone : List MwmId) (time : TimePoint) : World :=
  { exampleWorld visible gone time with transitSectionExists := fun _ => false }

/-- The collaborators of `exampleWorld`, region 3 not being alive for
`IsAlive`. -/
def deadRegionWorld (visible gone : List MwmId) (time : TimePoint) : World :=
  { exampleWorld visible gone time with IsAlive := fun k => decide (k ≠ 3) }

/-- The manager `enabledManager` after an `UpdateViewport` that shows regions
1, 2 and 3, region 3 not alive, the load of region 2 failing. -/
def afterDeadRegionUpdate : TransitReadManager :=
  { afterFirstUpdate with
      m_lastVisibleMwms := [1, 2, 3],
      m_drapeCalls :=
        [DrapeCall.UpdateTransitScheme
          [(1, some { m_shapes := [(1, [(0, 0), (1, 1)])] }), (2, none)] [1, 2, 3]] }

end TransitReader

/-! # GPS track collection (`map/gps_track_collection.cpp`)

The `deque` of items is a list, front first; `m_lastId` and the returned ids
are `size_t` values. -/

namespace GpsTrack

open TransitReader (sizeMod sizeAdd sizeSub)

/-- A `double`: `none` is a NaN, `some x` a value in the order of the numbers
(the infinities are its ends). -/
abbrev Timestamp := Option Int

/-- The comparison `a > b` of two `double`: false as soon as one is a NaN. -/
def Timestamp.gt (a b : Timestamp) : Bool :=
  match a, b with
  | some x, some y => decide (y < x)
  | _, _ => false

/-- The comparison `a <= b` of two `double`: false as soon as one is a NaN. -/
def Timestamp.le (a b : Timestamp) : Bool :=
  match a, b with
  | some x, some y => decide (x ≤ y)
  | _, _ => false

/-- An item `TItem` (`location::GpsTrackInfo`, declared outside the source):
its `m_timestamp`, and the rest of the record as a code. -/
structure TItem where
  m_timestamp : Timestamp
  m_info : Nat := 0
  deriving DecidableEq, Repr

structure GpsTrackCollection where
  m_items : List TItem := []
  m_lastId : Nat := 0
  deriving DecidableEq, Repr

namespace GpsTrackCollection

/-- The constant `kInvalidId`, `numeric_limits<size_t>::max()`. -/
def kInvalidId : Nat := sizeMod - 1

/-- The constructor `GpsTrackCollection::GpsTrackCollection`. -/
def create : GpsTrackCollection := { m_items := [], m_lastId := 0 }

/-- The test `!m_items.empty() && m_items.back().m_timestamp > item.m_timestamp`. -/
def backIsLater (c : GpsTrackCollection) (item : TItem) : Bool :=
  match c.m_items.getLast? with
  | none => false
  | some back => back.m_timestamp.gt item.m_timestamp

/-- The method `GpsTrackCollection::Add(TItem const &)`: the returned id and
the collection after the call. -/
def Add (item : TItem) (c : GpsTrackCollection) : Nat × GpsTrackCollection :=
  if c.backIsLater item then (kInvalidId, c)
  else
    let c1 := { c with m_items := c.m_items ++ [item], m_lastId := sizeAdd c.m_lastId 1 }
    (sizeSub c1.m_lastId 1, c1)

/-- Successive calls of `Add(TItem const &)`, one per item: the returned ids in
the order of the calls and the collection after the last call. -/
def addEach : List TItem → GpsTrackCollection → List Nat × GpsTrackCollection
  | [], c => ([], c)
  | item :: rest, c =>
    let first := Add item c
    let others := addEach rest first.2
    (first.1 :: others.1, others.2)

/-- The loop of `Add(vector<TItem> const &)`, on the collection and the local
counter `added`: an item is skipped on the test that makes `Add(TItem const &)`
return `kInvalidId`, and appended otherwise. -/
def addLoop : List TItem → GpsTrackCollection × Nat → GpsTrackCollection × Nat
  | [], acc => acc
  | item :: rest, acc =>
    if acc.1.backIsLater item then addLoop rest acc
    else addLoop rest ({ acc.1 with m_items := acc.1.m_items ++ [item] }, sizeAdd acc.2 1)

/-- The method `GpsTrackCollection::Add(vector<TItem> const &)`: the returned
pair of ids and the collection after the call. No exception is raised in the
loop, so the `Rollbacker` is reset before it removes anything. -/
def AddItems (items : List TItem) (c : GpsTrackCollection) : (Nat × Nat) × GpsTrackCollection :=
  let startId := c.m_lastId
  let loop := addLoop items (c, 0)
  if loop.2 = 0 then ((kInvalidId, kInvalidId), loop.1)
  else
    ((startId, sizeSub (sizeAdd startId loop.2) 1),
      { loop.1 with m_lastId := sizeAdd loop.1.m_lastId loop.2 })

/-- The method `GpsTrackCollection::GetSize`; a `deque` holds fewer than
`2 ^ 64` items. -/
def GetSize (c : GpsTrackCollection) : Nat := c.m_items.length

/-- The method `GpsTrackCollection::IsEmpty`. -/
def IsEmpty (c : GpsTrackCollection) : Bool := c.m_items.isEmpty

/-- The method `GpsTrackCollection::Clear`: the returned pair of ids and the
collection after the call. -/
def Clear (resetIds : Bool) (c : GpsTrackCollection) : (Nat × Nat) × GpsTrackCollection :=
  if c.m_items.isEmpty then
    ((kInvalidId, kInvalidId), if resetIds then { c with m_lastId := 0 } else c)
  else
    let res := (sizeSub c.m_lastId c.m_items.length, sizeSub c.m_lastId 1)
    let c1 := { c with m_items := [] }
    (res, if resetIds then { c1 with m_lastId := 0 } else c1)

/-- The condition of `ASSERT_LESS_OR_EQUAL(m_items.front().m_timestamp,
m_items.back().m_timestamp, ())`, which a debug build checks in
`GetTimestampRange` on a collection that is not empty. -/
def timestampRangeAssertion (c : GpsTrackCollection) : Bool :=
  match c.m_items.head?, c.m_items.getLast? with
  | some front, some back => front.m_timestamp.le back.m_timestamp
  | _, _ => true

/-- The method `GpsTrackCollection::GetTimestampRange`. -/
def GetTimestampRange (c : GpsTrackCollection) : Timestamp × Timestamp :=
  match c.m_items.head?, c.m_items.getLast? with
  | some front, some back => (front.m_timestamp, back.m_timestamp)
  | _, _ => (some 0, some 0)

/-- The method `GpsTrackCollection::RemoveUntil`; `i` is the position of the
iterator, `distance(m_items.begin(), i)`. -/
def RemoveUntil (i : Nat) (c : GpsTrackCollection) : (Nat × Nat) × GpsTrackCollection :=
  let res := (sizeSub c.m_lastId c.m_items.length,
    sizeSub (sizeAdd (sizeSub c.m_lastId c.m_items.length) i) 1)
  (res, { c with m_items := c.m_items.drop i })

/-- The ids of a range returned by `Add`, in order: `count` ids from `first`
on, as `size_t` values. -/
def idRange (first count : Nat) : List Nat := (List.range count).map (fun j => sizeAdd first j)

/-- The number of items a call appended, from the collection before and after
it. -/
def appended (before after : GpsTrackCollection) : Nat :=
  after.m_items.length - before.m_items.length

/-- The states a collection goes through: the state after construction, then
any sequence of calls of `Add(TItem const &)`, `Add(vector<TItem> const &)`,
`Clear` and `RemoveUntil` (with an iterator of the deque). Each state comes
with the id that `Add` returned for each stored item, front first, and with the
number of ids handed out since the id counter was 0. -/
inductive History : GpsTrackCollection → List Nat → Nat → Prop where
  | create : History create [] 0
  | add (item : TItem) (c : GpsTrackCollection) (ids : List Nat) (n : Nat) :
      History c ids n →
      History (Add item c).2 (ids ++ idRange (Add item c).1 (appended c (Add item c).2))
        (n + appended c (Add item c).2)
  | addItems (items : List TItem) (c : GpsTrackCollection) (ids : List Nat) (n : Nat) :
      History c ids n → items.length < sizeMod →
      History (AddItems items c).2
        (ids ++ idRange (AddItems items c).1.1 (appended c (AddItems items c).2))
        (n + appended c (AddItems items c).2)
  | clear (resetIds : Bool) (c : GpsTrackCollection) (ids : List Nat) (n : Nat) :
      History c ids n → History (Clear resetIds c).2 [] (if resetIds then 0 else n)
  | removeUntil (i : Nat) (c : GpsTrackCollection) (ids : List Nat) (n : Nat) :
      History c ids n → i ≤ c.m_items.length →
      History (RemoveUntil i c).2 (ids.drop i) n

/-- The timestamps of the stored items, front first. -/
def timestamps (c : GpsTrackCollection) : List Timestamp := c.m_items.map (fun x => x.m_timestamp)

/-- The collection after `Add` of items with the timestamps 5, NaN and 3 on a
fresh collection. -/
def afterNanItem : GpsTrackCollection :=
  { m_items := [{ m_timestamp := some 5 }, { m_timestamp := none }, { m_timestamp := some 3 }],
    m_lastId := 3 }

/-- A collection whose items were all removed after one id was handed out. -/
def emptiedCollection : GpsTrackCollection := { m_items := [], m_lastId := 1 }

/-- A collection holding the two items with the ids 1 and 2. -/
def exampleCollection : GpsTrackCollection :=
  { m_items := [{ m_timestamp := some 2 }, { m_timestamp := some 4 }], m_lastId := 3 }

end GpsTrackCollection

end GpsTrack

/-! # Geometry batcher (`yg/geometry_batcher.cpp`)

One pipeline of `GeometryBatcher::m_pipelines`, the one a call names by
`pipelineID`. The buffers behind the pointers `m_vertices` and `m_indices` are
functions from the position to the element stored there; the index buffer
holds `unsigned short` values. -/

namespace GeometryBatcher

open TransitReader (sizeMod sizeAdd sizeSub sizeMul)

namespace GeometryPipeline

end GeometryPipeline

end GeometryBatcher

namespace TransitReader

/-! ## Facts about the containers -/

theorem mapFind_mapSet_self {β : Type} (k : Nat) (v : β) (m : List (Nat × β)) :
    mapFind k (mapSet k v m) = some v := by
  induction m with
  | nil => simp [mapSet, mapFind]
  | cons p rest ih =>
    obtain ⟨k1, v1⟩ := p
    unfold mapSet
    by_cases h1 : k < k1
    · simp [h1, mapFind]
    · by_cases h2 : k = k1
      · simp [h2, mapFind]
      · have h3 : ¬ k1 = k := fun h => h2 h.symm
        simp [h1, h2, mapFind, h3, ih]

theorem mapFind_mapSet_ne {β : Type} (j k : Nat) (v : β) (m : List (Nat × β)) (h : j ≠ k) :
    mapFind j (mapSet k v m) = mapFind j m := by
  have hkj : ¬ k = j := fun e => h e.symm
  induction m with
  | nil => simp [mapSet, mapFind, hkj]
  | cons p rest ih =>
    obtain ⟨k1, v1⟩ := p
    unfold mapSet
    by_cases h1 : k < k1
    · simp [h1, mapFind, hkj]
    · by_cases h2 : k = k1
      · subst h2
        simp [mapFind, hkj]
      · simp only [h1, h2, if_false, mapFind, ih]

theorem mapFind_mapErase_ne {β : Type} (j k : Nat) (m : List (Nat × β)) (h : j ≠ k) :
    mapFind j (mapErase k m) = mapFind j m := by
  induction m with
  | nil => rfl
  | cons p rest ih =>
    obtain ⟨k1, v1⟩ := p
    unfold mapErase
    by_cases h1 : k1 = k
    · have h2 : ¬ k1 = j := fun e => h (e.symm.trans h1)
      simp only [h1, if_true, mapFind]
      have h3 : ¬ k = j := fun e => h e.symm
      simp only [h3, if_false]
    · simp only [h1, if_false, mapFind, ih]

theorem mapFind_none_of_lt {β : Type} (k : Nat) (m : List (Nat × β))
    (h : ∀ j ∈ mapKeys m, k < j) : mapFind k m = none := by
  induction m with
  | nil => rfl
  | cons p rest ih =>
    obtain ⟨k1, v1⟩ := p
    have h1 : k < k1 := h k1 (by simp [mapKeys])
    have h2 : ¬ k1 = k := by omega
    simp only [mapFind, h2, if_false]
    exact ih (fun j hj => h j (by simp [mapKeys] at hj ⊢; exact Or.inr hj))

theorem mapFind_mapErase_self {β : Type} (k : Nat) (m : List (Nat × β)) (hm : MapOrdered m) :
    mapFind k (mapErase k m) = none := by
  induction m with
  | nil => rfl
  | cons p rest ih =>
    obtain ⟨k1, v1⟩ := p
    have hm2 : (∀ j ∈ mapKeys rest, k1 < j) ∧ MapOrdered rest := by
      simpa [MapOrdered, mapKeys] using hm
    unfold mapErase
    by_cases h1 : k1 = k
    · subst h1
      simp only [if_true]
      exact mapFind_none_of_lt k1 rest hm2.1
    · simp only [h1, if_false, mapFind]
      exact ih hm2.2

theorem mem_of_mapFind {β : Type} (k : Nat) (v : β) (m : List (Nat × β))
    (h : mapFind k m = some v) : (k, v) ∈ m := by
  induction m with
  | nil => simp [mapFind] at h
  | cons p rest ih =>
    obtain ⟨k1, v1⟩ := p
    by_cases h1 : k1 = k
    · simp [mapFind, h1] at h
      simp [h1, h]
    · simp only [mapFind, h1, if_false] at h
      exact List.mem_cons_of_mem _ (ih h)

theorem mapFind_of_mem {β : Type} (k : Nat) (v : β) (m : List (Nat × β)) (hm : MapOrdered m)
    (h : (k, v) ∈ m) : mapFind k m = some v := by
  induction m with
  | nil => simp at h
  | cons p rest ih =>
    obtain ⟨k1, v1⟩ := p
    have hm2 : (∀ j ∈ mapKeys rest, k1 < j) ∧ MapOrdered rest := by
      simpa [MapOrdered, mapKeys] using hm
    rcases List.mem_cons.mp h with h1 | h1
    · have h2 : k = k1 ∧ v = v1 := by simpa using h1
      simp [mapFind, h2.1, h2.2]
    · have h2 : k1 < k := hm2.1 k (by simp only [mapKeys, List.mem_map]; exact ⟨(k, v), h1, rfl⟩)
      have h3 : ¬ k1 = k := by omega
      simp only [mapFind, h3, if_false]
      exact ih hm2.2 h1

theorem mem_mapKeys_mapSet {β : Type} (j k : Nat) (v : β) (m : List (Nat × β)) :
    j ∈ mapKeys (mapSet k v m) ↔ j = k ∨ j ∈ mapKeys m := by
  induction m with
  | nil => simp [mapSet, mapKeys]
  | cons p rest ih =>
    obtain ⟨k1, v1⟩ := p
    unfold mapSet
    by_cases h1 : k < k1
    · simp [h1, mapKeys]
    · by_cases h2 : k = k1
      · subst h2
        simp [mapKeys]
      · simp only [h1, h2, if_false]
        have ih2 : j ∈ mapKeys (mapSet k v rest) ↔ j = k ∨ j ∈ mapKeys rest := ih
        simp only [mapKeys, List.map_cons, List.mem_cons] at ih2 ⊢
        rw [ih2]
        tauto

theorem mem_mapKeys_mapErase {β : Type} (j k : Nat) (m : List (Nat × β))
    (h : j ∈ mapKeys (mapErase k m)) : j ∈ mapKeys m := by
  induction m with
  | nil => simpa [mapErase] using h
  | cons p rest ih =>
    obtain ⟨k1, v1⟩ := p
    unfold mapErase at h
    by_cases h1 : k1 = k
    · simp only [h1, if_true] at h
      simp only [mapKeys, List.map_cons, List.mem_cons]
      exact Or.inr h
    · simp only [h1, if_false, mapKeys, List.map_cons, List.mem_cons] at h
      simp only [mapKeys, List.map_cons, List.mem_cons]
      rcases h with h | h
      · exact Or.inl h
      · exact Or.inr (ih h)

theorem mapOrdered_mapSet {β : Type} (k : Nat) (v : β) (m : List (Nat × β)) (hm : MapOrdered m) :
    MapOrdered (mapSet k v m) := by
  induction m with
  | nil => simp [mapSet, MapOrdered, mapKeys]
  | cons p rest ih =>
    obtain ⟨k1, v1⟩ := p
    have hm2 : (∀ j ∈ mapKeys rest, k1 < j) ∧ MapOrdered rest := by
      simpa [MapOrdered, mapKeys] using hm
    unfold mapSet
    by_cases h1 : k < k1
    · simp only [h1, if_true]
      have : (∀ j ∈ mapKeys ((k1, v1) :: rest), k < j) := by
        intro j hj
        simp only [mapKeys, List.map_cons, List.mem_cons] at hj
        rcases hj with hj | hj
        · omega
        · have := hm2.1 j hj
          omega
      simp only [MapOrdered, mapKeys, List.map_cons, List.pairwise_cons]
      exact ⟨this, by simpa [MapOrdered, mapKeys] using hm⟩
    · by_cases h2 : k = k1
      · subst h2
        simp only [lt_irrefl, if_false, if_true]
        simpa [MapOrdered, mapKeys] using hm
      · simp only [h1, h2, if_false]
        simp only [MapOrdered, mapKeys, List.map_cons, List.pairwise_cons]
        refine ⟨?_, ih hm2.2⟩
        intro j hj
        rcases (mem_mapKeys_mapSet j k v rest).mp hj with hj | hj
        · omega
        · exact hm2.1 j hj

theorem mapOrdered_mapErase {β : Type} (k : Nat) (m : List (Nat × β)) (hm : MapOrdered m) :
    MapOrdered (mapErase k m) := by
  induction m with
  | nil => simpa [mapErase] using hm
  | cons p rest ih =>
    obtain ⟨k1, v1⟩ := p
    have hm2 : (∀ j ∈ mapKeys rest, k1 < j) ∧ MapOrdered rest := by
      simpa [MapOrdered, mapKeys] using hm
    unfold mapErase
    by_cases h1 : k1 = k
    · simp only [h1, if_true]
      exact hm2.2
    · simp only [h1, if_false]
      simp only [MapOrdered, mapKeys, List.map_cons, List.pairwise_cons]
      exact ⟨fun j hj => hm2.1 j (mem_mapKeys_mapErase j k rest hj), ih hm2.2⟩

theorem mapOrdered_mapInsert {β : Type} (k : Nat) (v : β) (m : List (Nat × β))
    (hm : MapOrdered m) : MapOrdered (mapInsert k v m) := by
  unfold mapInsert
  cases mapFind k m with
  | none => exact mapOrdered_mapSet k v m hm
  | some _ => exact hm

theorem mem_mapKeys_of_mapFind {β : Type} (k : Nat) (v : β) (m : List (Nat × β))
    (h : mapFind k m = some v) : k ∈ mapKeys m := by
  have := mem_of_mapFind k v m h
  simp only [mapKeys, List.mem_map]
  exact ⟨(k, v), this, rfl⟩

theorem mapFind_isSome_of_mem_mapKeys {β : Type} (k : Nat) (m : List (Nat × β))
    (h : k ∈ mapKeys m) : ∃ v, mapFind k m = some v := by
  induction m with
  | nil => simp [mapKeys] at h
  | cons p rest ih =>
    obtain ⟨k1, v1⟩ := p
    by_cases h1 : k1 = k
    · exact ⟨v1, by simp [mapFind, h1]⟩
    · simp only [mapKeys, List.map_cons, List.mem_cons] at h
      rcases h with h | h
      · exact absurd h.symm h1
      · obtain ⟨v, hv⟩ := ih h
        exact ⟨v, by simp only [mapFind, h1, if_false]; exact hv⟩

end TransitReader

namespace TransitReader

open TransitReadManager

/-! ## The accounted total -/

theorem loadedSum_mapErase (k : Nat) (e : CacheEntry) (m : List (MwmId × CacheEntry))
    (h : mapFind k m = some e) : loadedSum (mapErase k m) + entryCost e = loadedSum m := by
  induction m with
  | nil => simp [mapFind] at h
  | cons p rest ih =>
    obtain ⟨k1, v1⟩ := p
    unfold mapErase
    by_cases h1 : k1 = k
    · simp only [mapFind, h1, if_true, Option.some.injEq] at h
      simp only [h1, if_true, loadedSum, h]
      omega
    · simp only [mapFind, h1, if_false] at h
      simp only [h1, if_false, loadedSum]
      have := ih h
      omega

theorem loadedSum_mapSet_absent (k : Nat) (e : CacheEntry) (m : List (MwmId × CacheEntry))
    (h : mapFind k m = none) : loadedSum (mapSet k e m) = loadedSum m + entryCost e := by
  induction m with
  | nil => simp [mapSet, loadedSum]
  | cons p rest ih =>
    obtain ⟨k1, v1⟩ := p
    by_cases h0 : k1 = k
    · simp [mapFind, h0] at h
    · simp only [mapFind, h0, if_false] at h
      unfold mapSet
      by_cases h1 : k < k1
      · simp only [h1, if_true, loadedSum]
        omega
      · have h2 : ¬ k = k1 := fun e => h0 e.symm
        simp only [h1, h2, if_false, loadedSum, ih h]
        omega

theorem loadedSum_mapSet_present (k : Nat) (e e1 : CacheEntry) (m : List (MwmId × CacheEntry))
    (hm : MapOrdered m) (h : mapFind k m = some e) :
    loadedSum (mapSet k e1 m) + entryCost e = loadedSum m + entryCost e1 := by
  induction m with
  | nil => simp [mapFind] at h
  | cons p rest ih =>
    obtain ⟨k1, v1⟩ := p
    have hm2 : (∀ j ∈ mapKeys rest, k1 < j) ∧ MapOrdered rest := by
      simpa [MapOrdered, mapKeys] using hm
    unfold mapSet
    by_cases h0 : k1 = k
    · subst h0
      simp only [mapFind, if_true, Option.some.injEq] at h
      simp only [lt_irrefl, if_false, if_true, loadedSum, h]
      omega
    · simp only [mapFind, h0, if_false] at h
      have hk : k1 < k := hm2.1 k (mem_mapKeys_of_mapFind k e rest h)
      have h1 : ¬ k < k1 := Nat.lt_asymm hk
      have h2 : ¬ k = k1 := fun e => h0 e.symm
      simp only [h1, h2, if_false, loadedSum]
      have := ih hm2.2 h
      omega

theorem sizeSub_loadedSum (a c : Nat) :
    sizeSub ((a + c) % sizeMod) c = a % sizeMod := by
  simp only [sizeSub, sizeMod]
  omega

theorem sizeSub_zero (a : Nat) : sizeSub (a % sizeMod) 0 = a % sizeMod := by
  simp only [sizeSub, sizeMod]
  omega

theorem sizeAdd_loadedSum (a c : Nat) : sizeAdd (a % sizeMod) c = (a + c) % sizeMod := by
  simp only [sizeAdd, sizeMod]
  omega

/-! ## `ClearCache` -/

theorem ClearCache_of_none (k : MwmId) (s : TransitReadManager)
    (h : mapFind k s.m_mwmCache = none) : ClearCache k s = s := by
  simp [ClearCache, h]

theorem ClearCache_cache (k : MwmId) (s : TransitReadManager) :
    (ClearCache k s).m_mwmCache = mapErase k s.m_mwmCache := by
  unfold ClearCache
  cases h : mapFind k s.m_mwmCache with
  | some e => rfl
  | none =>
    simp only
    generalize s.m_mwmCache = m at h ⊢
    induction m with
    | nil => rfl
    | cons p rest ih =>
      obtain ⟨k1, v1⟩ := p
      by_cases h1 : k1 = k
      · simp [mapFind, h1] at h
      · simp only [mapFind, h1, if_false] at h
        simp only [mapErase, h1, if_false]
        rw [← ih h]

theorem ClearCache_active (k : MwmId) (s : TransitReadManager) :
    (ClearCache k s).m_lastActiveMwms = s.m_lastActiveMwms := by
  unfold ClearCache
  cases mapFind k s.m_mwmCache <;> rfl

theorem ClearCache_inv (k : MwmId) (s : TransitReadManager) (h : CacheInv s) :
    CacheInv (ClearCache k s) := by
  obtain ⟨hord, hzero, hsum⟩ := h
  unfold ClearCache
  cases hf : mapFind k s.m_mwmCache with
  | none => exact ⟨hord, hzero, hsum⟩
  | some e =>
    refine ⟨mapOrdered_mapErase k _ hord, ?_, ?_⟩
    · intro j e1 hj hl
      by_cases hjk : j = k
      · subst hjk
        simp only [mapFind_mapErase_self j _ hord] at hj
        exact absurd hj (by simp)
      · simp only [mapFind_mapErase_ne j k _ hjk] at hj
        exact hzero j e1 hj hl
    · have hs := loadedSum_mapErase k e _ hf
      simp only
      rw [hsum, ← hs]
      cases hl : e.m_isLoaded with
      | true =>
        have : entryCost e = e.m_dataSize := by simp [entryCost, hl]
        rw [this]
        exact sizeSub_loadedSum _ _
      | false =>
        have h0 : e.m_dataSize = 0 := hzero k e hf hl
        have : entryCost e = 0 := by simp [entryCost, hl]
        rw [this, h0, Nat.add_zero]
        exact sizeSub_zero _

end TransitReader

namespace TransitReader

open TransitReadManager

/-! ## `ShrinkCacheToAllowableSize` -/

theorem mem_multimapInsert {β : Type} (x : Nat × β) (t : Nat) (v : β) (l : List (Nat × β)) :
    x ∈ multimapInsert t v l ↔ x = (t, v) ∨ x ∈ l := by
  induction l with
  | nil => simp [multimapInsert]
  | cons p rest ih =>
    obtain ⟨t1, v1⟩ := p
    unfold multimapInsert
    by_cases h1 : t < t1
    · simp [h1]
    · simp only [h1, if_false, List.mem_cons, ih]
      tauto

theorem timeOrdered_multimapInsert {β : Type} (t : Nat) (v : β) (l : List (Nat × β))
    (hl : TimeOrdered l) : TimeOrdered (multimapInsert t v l) := by
  induction l with
  | nil => simp [multimapInsert, TimeOrdered]
  | cons p rest ih =>
    obtain ⟨t1, v1⟩ := p
    have hl2 : (∀ x ∈ rest, t1 ≤ x.1) ∧ TimeOrdered rest := by
      simpa [TimeOrdered] using hl
    unfold multimapInsert
    by_cases h1 : t < t1
    · simp only [h1, if_true, TimeOrdered, List.pairwise_cons]
      refine ⟨?_, ?_, hl2.2⟩
      · intro x hx
        rcases List.mem_cons.mp hx with hx | hx
        · subst hx
          exact Nat.le_of_lt h1
        · exact Nat.le_trans (Nat.le_of_lt h1) (hl2.1 x hx)
      · intro x hx
        exact hl2.1 x hx
    · simp only [h1, if_false, TimeOrdered, List.pairwise_cons]
      refine ⟨?_, ih hl2.2⟩
      intro x hx
      rcases (mem_multimapInsert x t v rest).mp hx with hx | hx
      · subst hx
        exact Nat.le_of_not_lt h1
      · exact hl2.1 x hx

theorem collect_foldl_mem (active : List MwmId) (cache : List (MwmId × CacheEntry))
    (acc : List (TimePoint × MwmId)) (x : TimePoint × MwmId) :
    x ∈ cache.foldl
        (fun seenTimings entry =>
          if entry.2.m_isLoaded && decide (entry.1 ∉ active) then
            multimapInsert entry.2.m_lastActiveTime entry.1 seenTimings
          else seenTimings) acc ↔
      x ∈ acc ∨ ∃ e, (x.2, e) ∈ cache ∧ e.m_isLoaded = true ∧ x.2 ∉ active ∧
        x.1 = e.m_lastActiveTime := by
  induction cache generalizing acc with
  | nil => simp
  | cons p rest ih =>
    obtain ⟨k1, e1⟩ := p
    simp only [List.foldl_cons]
    rw [ih]
    by_cases hc : (e1.m_isLoaded && decide (k1 ∉ active)) = true
    · simp only [hc, if_true, mem_multimapInsert]
      have hc2 : e1.m_isLoaded = true ∧ k1 ∉ active := by simpa using hc
      constructor
      · rintro ((h | h) | ⟨e, he, h2⟩)
        · right
          refine ⟨e1, ?_, hc2.1, ?_, ?_⟩
          · rw [h]
            exact List.mem_cons_self _ _
          · rw [h]
            exact hc2.2
          · rw [h]
        · exact Or.inl h
        · exact Or.inr ⟨e, List.mem_cons_of_mem _ he, h2⟩
      · rintro (h | ⟨e, he, h2, h3, h4⟩)
        · exact Or.inl (Or.inr h)
        · rcases List.mem_cons.mp he with he | he
          · have hk : x.2 = k1 ∧ e = e1 := by simpa using he
            left
            left
            obtain ⟨x1, x2⟩ := x
            simp only at hk h4 ⊢
            rw [h4, hk.1, hk.2]
          · exact Or.inr ⟨e, he, h2, h3, h4⟩
    · simp only [hc, if_false]
      have hc2 : ¬ (e1.m_isLoaded = true ∧ k1 ∉ active) := by simpa using hc
      constructor
      · rintro (h | ⟨e, he, h2⟩)
        · exact Or.inl h
        · exact Or.inr ⟨e, List.mem_cons_of_mem _ he, h2⟩
      · rintro (h | ⟨e, he, h2, h3, h4⟩)
        · exact Or.inl h
        · rcases List.mem_cons.mp he with he | he
          · have hk : x.2 = k1 ∧ e = e1 := by simpa using he
            exfalso
            apply hc2
            rw [← hk.1, ← hk.2]
            exact ⟨h2, h3⟩
          · exact Or.inr ⟨e, he, h2, h3, h4⟩

theorem collect_foldl_ordered (active : List MwmId) (cache : List (MwmId × CacheEntry))
    (acc : List (TimePoint × MwmId)) (hacc : TimeOrdered acc) :
    TimeOrdered (cache.foldl
        (fun seenTimings entry =>
          if entry.2.m_isLoaded && decide (entry.1 ∉ active) then
            multimapInsert entry.2.m_lastActiveTime entry.1 seenTimings
          else seenTimings) acc) := by
  induction cache generalizing acc with
  | nil => simpa using hacc
  | cons p rest ih =>
    simp only [List.foldl_cons]
    apply ih
    by_cases hc : (p.2.m_isLoaded && decide (p.1 ∉ active)) = true
    · simp only [hc, if_true]
      exact timeOrdered_multimapInsert _ _ _ hacc
    · simp only [hc, if_false]
      exact hacc

theorem mem_collectSeenTimings (active : List MwmId) (cache : List (MwmId × CacheEntry))
    (x : TimePoint × MwmId) :
    x ∈ collectSeenTimings active cache ↔
      ∃ e, (x.2, e) ∈ cache ∧ e.m_isLoaded = true ∧ x.2 ∉ active ∧
        x.1 = e.m_lastActiveTime := by
  unfold collectSeenTimings
  rw [collect_foldl_mem]
  simp

theorem timeOrdered_collectSeenTimings (active : List MwmId)
    (cache : List (MwmId × CacheEntry)) : TimeOrdered (collectSeenTimings active cache) := by
  unfold collectSeenTimings
  exact collect_foldl_ordered active cache [] (by simp [TimeOrdered])

theorem clearAll_cons (t : TimePoint × MwmId) (l : List (TimePoint × MwmId))
    (s : TransitReadManager) : clearAll (t :: l) s = clearAll l (ClearCache t.2 s) := rfl

theorem shrinkLoop_eq_clearAll (l : List (TimePoint × MwmId)) (s : TransitReadManager) :
    ∃ done rest, l = done ++ rest ∧ shrinkLoop l s = clearAll done s ∧
      (rest = [] ∨ (clearAll done s).m_cacheSize ≤ kMaxTransitCacheSizeBytes) := by
  induction l generalizing s with
  | nil => exact ⟨[], [], rfl, rfl, Or.inl rfl⟩
  | cons t l ih =>
    by_cases h : s.m_cacheSize > kMaxTransitCacheSizeBytes
    · obtain ⟨done, rest, h1, h2, h3⟩ := ih (ClearCache t.2 s)
      refine ⟨t :: done, rest, by rw [h1]; rfl, ?_, ?_⟩
      · simp only [shrinkLoop, h, if_true, clearAll_cons]
        exact h2
      · simpa only [clearAll_cons] using h3
    · refine ⟨[], t :: l, rfl, ?_, Or.inr ?_⟩
      · simp only [shrinkLoop, h, if_false]
        rfl
      · exact Nat.le_of_not_lt h

theorem clearAll_active (l : List (TimePoint × MwmId)) (s : TransitReadManager) :
    (clearAll l s).m_lastActiveMwms = s.m_lastActiveMwms := by
  induction l generalizing s with
  | nil => rfl
  | cons t l ih => rw [clearAll_cons, ih, ClearCache_active]

theorem clearAll_inv (l : List (TimePoint × MwmId)) (s : TransitReadManager)
    (h : CacheInv s) : CacheInv (clearAll l s) := by
  induction l generalizing s with
  | nil => exact h
  | cons t l ih =>
    rw [clearAll_cons]
    exact ih _ (ClearCache_inv t.2 s h)

theorem clearAll_ordered (l : List (TimePoint × MwmId)) (s : TransitReadManager)
    (h : MapOrdered s.m_mwmCache) : MapOrdered (clearAll l s).m_mwmCache := by
  induction l generalizing s with
  | nil => exact h
  | cons t l ih =>
    rw [clearAll_cons]
    apply ih
    rw [ClearCache_cache]
    exact mapOrdered_mapErase _ _ h

theorem clearAll_find_of_not_mem (l : List (TimePoint × MwmId)) (s : TransitReadManager)
    (k : MwmId) (hk : ∀ t, (t, k) ∉ l) :
    mapFind k (clearAll l s).m_mwmCache = mapFind k s.m_mwmCache := by
  induction l generalizing s with
  | nil => rfl
  | cons t l ih =>
    rw [clearAll_cons, ih]
    · rw [ClearCache_cache]
      apply mapFind_mapErase_ne
      intro h
      apply hk t.1
      rw [h]
      exact List.mem_cons_self _ _
    · intro t1 h
      exact hk t1 (List.mem_cons_of_mem _ h)

theorem clearAll_find_of_mem (l : List (TimePoint × MwmId)) (s : TransitReadManager)
    (hs : MapOrdered s.m_mwmCache) (k : MwmId) (hk : ∃ t, (t, k) ∈ l) :
    mapFind k (clearAll l s).m_mwmCache = none := by
  induction l generalizing s with
  | nil => simp at hk
  | cons t1 l ih =>
    rw [clearAll_cons]
    have hs1 : MapOrdered (ClearCache t1.2 s).m_mwmCache := by
      rw [ClearCache_cache]
      exact mapOrdered_mapErase _ _ hs
    by_cases hin : ∃ t2, (t2, k) ∈ l
    · exact ih _ hs1 hin
    · have hnot : ∀ t2, (t2, k) ∉ l := fun t2 h2 => hin ⟨t2, h2⟩
      rw [clearAll_find_of_not_mem l _ k hnot, ClearCache_cache]
      obtain ⟨t, hk⟩ := hk
      rcases List.mem_cons.mp hk with h | h
      · have : t1.2 = k := by rw [← h]
        rw [this]
        exact mapFind_mapErase_self k _ hs
      · exact absurd h (hnot t)

end TransitReader

namespace TransitReader

open TransitReadManager

theorem seenTimings_key_entry (s : TransitReadManager) (hs : MapOrdered s.m_mwmCache)
    (k : MwmId) (e : CacheEntry) (hfind : mapFind k s.m_mwmCache = some e) (t : TimePoint)
    (h : (t, k) ∈ collectSeenTimings s.m_lastActiveMwms s.m_mwmCache) :
    e.m_isLoaded = true ∧ k ∉ s.m_lastActiveMwms ∧ t = e.m_lastActiveTime := by
  obtain ⟨e0, he0, h1, h2, h3⟩ := (mem_collectSeenTimings _ _ _).mp h
  have : mapFind k s.m_mwmCache = some e0 := mapFind_of_mem k e0 _ hs he0
  rw [hfind] at this
  have he : e = e0 := by simpa using this
  subst he
  exact ⟨h1, h2, h3⟩

/-- C2: `ShrinkCacheToAllowableSize` keeps every entry whose region is in
`m_lastActiveMwms` and every entry that is not loaded: such an entry, present
before the call, is found unchanged after it, whatever the total is. -/
theorem ShrinkCacheToAllowableSize_keeps_protected (s : TransitReadManager)
    (hs : MapOrdered s.m_mwmCache) (k : MwmId) (e : CacheEntry)
    (hfind : mapFind k s.m_mwmCache = some e)
    (hprot : k ∈ s.m_lastActiveMwms ∨ e.m_isLoaded = false) :
    mapFind k (ShrinkCacheToAllowableSize s).m_mwmCache = some e := by
  unfold ShrinkCacheToAllowableSize
  by_cases hb : s.m_cacheSize > kMaxTransitCacheSizeBytes
  · simp only [hb, if_true]
    obtain ⟨done, rest, h1, h2, -⟩ :=
      shrinkLoop_eq_clearAll (collectSeenTimings s.m_lastActiveMwms s.m_mwmCache) s
    rw [h2, clearAll_find_of_not_mem done s k, hfind]
    intro t ht
    have hmem : (t, k) ∈ collectSeenTimings s.m_lastActiveMwms s.m_mwmCache := by
      rw [h1]
      exact List.mem_append_left _ ht
    obtain ⟨hl, ha, -⟩ := seenTimings_key_entry s hs k e hfind t hmem
    rcases hprot with hp | hp
    · exact ha hp
    · rw [hl] at hp
      exact absurd hp (by simp)
  · simp only [hb, if_false]
    exact hfind

theorem ShrinkCacheToAllowableSize_keeps_protected_witness :
    MapOrdered (shrinkExample 6000000).m_mwmCache ∧
    mapFind 1 (shrinkExample 6000000).m_mwmCache =
      some { m_isLoaded := true, m_dataSize := 6000000, m_lastActiveTime := 9 } ∧
    (ShrinkCacheToAllowableSize (shrinkExample 6000000)).m_cacheSize >
      kMaxTransitCacheSizeBytes ∧
    mapFind 1 (ShrinkCacheToAllowableSize (shrinkExample 6000000)).m_mwmCache =
      some { m_isLoaded := true, m_dataSize := 6000000, m_lastActiveTime := 9 } :=
  ⟨by decide, by decide, by decide,
    ShrinkCacheToAllowableSize_keeps_protected (shrinkExample 6000000) (by decide) 1 _
      (by decide) (Or.inl (by decide))⟩

end TransitReader

namespace TransitReader

open TransitReadManager

/-- C3: `ShrinkCacheToAllowableSize` returns (it is a total function), and in
the state it returns either the total is at most `kMaxTransitCacheSizeBytes` or
every entry left in the cache is active or not loaded. -/
theorem ShrinkCacheToAllowableSize_result (s : TransitReadManager)
    (hs : MapOrdered s.m_mwmCache) :
    (ShrinkCacheToAllowableSize s).m_cacheSize ≤ kMaxTransitCacheSizeBytes ∨
    ∀ k e, mapFind k (ShrinkCacheToAllowableSize s).m_mwmCache = some e →
      k ∈ (ShrinkCacheToAllowableSize s).m_lastActiveMwms ∨ e.m_isLoaded = false := by
  unfold ShrinkCacheToAllowableSize
  by_cases hb : s.m_cacheSize > kMaxTransitCacheSizeBytes
  · simp only [hb, if_true]
    obtain ⟨done, rest, h1, h2, h3⟩ :=
      shrinkLoop_eq_clearAll (collectSeenTimings s.m_lastActiveMwms s.m_mwmCache) s
    rw [h2]
    rcases h3 with h3 | h3
    · right
      subst h3
      rw [List.append_nil] at h1
      intro k e hk
      rw [clearAll_active]
      by_cases hin : ∃ t, (t, k) ∈ done
      · rw [clearAll_find_of_mem done s hs k hin] at hk
        exact absurd hk (by simp)
      · have hnot : ∀ t, (t, k) ∉ done := fun t ht => hin ⟨t, ht⟩
        rw [clearAll_find_of_not_mem done s k hnot] at hk
        by_cases ha : k ∈ s.m_lastActiveMwms
        · exact Or.inl ha
        · right
          cases hl : e.m_isLoaded with
          | false => rfl
          | true =>
            exfalso
            apply hnot e.m_lastActiveTime
            rw [← h1, mem_collectSeenTimings]
            exact ⟨e, mem_of_mapFind k e _ hk, hl, ha, rfl⟩
    · exact Or.inl h3
  · simp only [hb, if_false]
    exact Or.inl (Nat.le_of_not_lt hb)

theorem ShrinkCacheToAllowableSize_result_witness :
    MapOrdered (shrinkExample 6000000).m_mwmCache ∧
    ((ShrinkCacheToAllowableSize (shrinkExample 6000000)).m_cacheSize ≤
        kMaxTransitCacheSizeBytes ∨
      ∀ k e, mapFind k (ShrinkCacheToAllowableSize (shrinkExample 6000000)).m_mwmCache = some e →
        k ∈ (ShrinkCacheToAllowableSize (shrinkExample 6000000)).m_lastActiveMwms ∨
          e.m_isLoaded = false) :=
  ⟨by decide, ShrinkCacheToAllowableSize_result (shrinkExample 6000000) (by decide)⟩

/-- C4: `ShrinkCacheToAllowableSize` evicts oldest first: an entry that is in
the cache before the call and not after it has a `m_lastActiveTime` that is at
most the one of every loaded entry of an inactive region left in the cache. -/
theorem ShrinkCacheToAllowableSize_oldest_first (s : TransitReadManager)
    (hs : MapOrdered s.m_mwmCache) (k : MwmId) (e : CacheEntry)
    (hbefore : mapFind k s.m_mwmCache = some e)
    (hafter : mapFind k (ShrinkCacheToAllowableSize s).m_mwmCache = none)
    (k1 : MwmId) (e1 : CacheEntry)
    (hleft : mapFind k1 (ShrinkCacheToAllowableSize s).m_mwmCache = some e1)
    (hloaded : e1.m_isLoaded = true) (hinactive : k1 ∉ s.m_lastActiveMwms) :
    e.m_lastActiveTime ≤ e1.m_lastActiveTime := by
  unfold ShrinkCacheToAllowableSize at hafter hleft
  by_cases hb : s.m_cacheSize > kMaxTransitCacheSizeBytes
  · simp only [hb, if_true] at hafter hleft
    obtain ⟨done, rest, h1, h2, -⟩ :=
      shrinkLoop_eq_clearAll (collectSeenTimings s.m_lastActiveMwms s.m_mwmCache) s
    rw [h2] at hafter hleft
    have hord := timeOrdered_collectSeenTimings s.m_lastActiveMwms s.m_mwmCache
    rw [h1] at hord
    have hcross : ∀ a ∈ done, ∀ b ∈ rest, a.1 ≤ b.1 :=
      (List.pairwise_append.mp hord).2.2
    -- the evicted region is one of the regions cleared by the loop
    have hkin : ∃ t, (t, k) ∈ done := by
      by_contra hcon
      have hnot : ∀ t, (t, k) ∉ done := fun t ht => hcon ⟨t, ht⟩
      rw [clearAll_find_of_not_mem done s k hnot, hbefore] at hafter
      exact absurd hafter (by simp)
    obtain ⟨t, ht⟩ := hkin
    have htmem : (t, k) ∈ collectSeenTimings s.m_lastActiveMwms s.m_mwmCache := by
      rw [h1]
      exact List.mem_append_left _ ht
    obtain ⟨-, -, hte⟩ := seenTimings_key_entry s hs k e hbefore t htmem
    -- the region left was not cleared, so it is in the rest of the multimap
    have hk1not : ∀ t1, (t1, k1) ∉ done := by
      intro t1 ht1
      rw [clearAll_find_of_mem done s hs k1 ⟨t1, ht1⟩] at hleft
      exact absurd hleft (by simp)
    rw [clearAll_find_of_not_mem done s k1 hk1not] at hleft
    have hk1mem : (e1.m_lastActiveTime, k1) ∈
        collectSeenTimings s.m_lastActiveMwms s.m_mwmCache := by
      rw [mem_collectSeenTimings]
      exact ⟨e1, mem_of_mapFind k1 e1 _ hleft, hloaded, hinactive, rfl⟩
    rw [h1] at hk1mem
    rcases List.mem_append.mp hk1mem with h | h
    · exact absurd h (hk1not _)
    · have := hcross (t, k) ht (e1.m_lastActiveTime, k1) h
      rw [hte] at this
      exact this
  · simp only [hb, if_false] at hafter
    rw [hbefore] at hafter
    exact absurd hafter (by simp)

theorem ShrinkCacheToAllowableSize_oldest_first_witness :
    MapOrdered (shrinkExample 5000000).m_mwmCache ∧
    mapFind 2 (shrinkExample 5000000).m_mwmCache =
      some { m_isLoaded := true, m_dataSize := 200000, m_lastActiveTime := 7 } ∧
    mapFind 2 (ShrinkCacheToAllowableSize (shrinkExample 5000000)).m_mwmCache = none ∧
    mapFind 5 (ShrinkCacheToAllowableSize (shrinkExample 5000000)).m_mwmCache =
      some { m_isLoaded := true, m_dataSize := 50000, m_lastActiveTime := 8 } ∧
    (7 : Nat) ≤ 8 :=
  ⟨by decide, by decide, by decide, by decide,
    ShrinkCacheToAllowableSize_oldest_first (shrinkExample 5000000) (by decide) 2
      { m_isLoaded := true, m_dataSize := 200000, m_lastActiveTime := 7 } (by decide)
      (by decide) 5 { m_isLoaded := true, m_dataSize := 50000, m_lastActiveTime := 8 }
      (by decide) rfl (by decide)⟩

end TransitReader

namespace TransitReader

open TransitReadManager

/-! ## The loops of `UpdateViewport` -/

theorem recordLoaded_find_ne (s : TransitReadManager) (p : MwmId × Option TransitDisplayInfo)
    (j : MwmId) (h : j ≠ p.1) :
    mapFind j (recordLoaded s p).m_mwmCache = mapFind j s.m_mwmCache := by
  unfold recordLoaded
  cases p.2 with
  | none => rfl
  | some info =>
    simp only
    cases mapFind p.1 s.m_mwmCache with
    | none => rfl
    | some e => exact mapFind_mapSet_ne j p.1 _ _ h

theorem recordLoaded_find_self (s : TransitReadManager) (k : MwmId) (info : TransitDisplayInfo)
    (e : CacheEntry) (h : mapFind k s.m_mwmCache = some e) :
    mapFind k (recordLoaded s (k, some info)).m_mwmCache =
      some { e with m_isLoaded := true, m_dataSize := CalculateCacheSize info } := by
  simp only [recordLoaded, h]
  exact mapFind_mapSet_self k _ _

theorem recordLoaded_null (s : TransitReadManager) (k : MwmId) :
    recordLoaded s (k, none) = s := rfl

theorem recordLoaded_inv (s : TransitReadManager) (p : MwmId × Option TransitDisplayInfo)
    (h : CacheInv s)
    (hp : p.2 ≠ none → ∃ e, mapFind p.1 s.m_mwmCache = some e ∧ e.m_isLoaded = false) :
    CacheInv (recordLoaded s p) := by
  obtain ⟨k, v⟩ := p
  cases v with
  | none => exact h
  | some info =>
    obtain ⟨e, hfind, hl⟩ := hp (by simp)
    obtain ⟨hord, hzero, hsum⟩ := h
    simp only at hfind
    simp only [recordLoaded, hfind]
    refine ⟨mapOrdered_mapSet k _ _ hord, ?_, ?_⟩
    · intro j e1 hj hl1
      simp only at hj
      by_cases hjk : j = k
      · subst hjk
        rw [mapFind_mapSet_self] at hj
        have : e1.m_isLoaded = true := by
          have he := Option.some.inj hj
          rw [← he]
        rw [this] at hl1
        exact absurd hl1 (by simp)
      · rw [mapFind_mapSet_ne j k _ _ hjk] at hj
        exact hzero j e1 hj hl1
    · simp only
      have hs := loadedSum_mapSet_present k e
        { e with m_isLoaded := true, m_dataSize := CalculateCacheSize info } _ hord hfind
      have h0 : entryCost e = 0 := by simp [entryCost, hl]
      have h1 : entryCost { e with m_isLoaded := true, m_dataSize := CalculateCacheSize info } =
          CalculateCacheSize info := by simp [entryCost]
      rw [h0, h1, Nat.add_zero] at hs
      rw [hs, hsum]
      exact sizeAdd_loadedSum _ _

theorem mapOrdered_tail {β : Type} (p : Nat × β) (rest : List (Nat × β))
    (h : MapOrdered (p :: rest)) : (∀ q ∈ rest, p.1 < q.1) ∧ MapOrdered rest := by
  have h2 : (∀ j ∈ mapKeys rest, p.1 < j) ∧ MapOrdered rest := by
    simpa [MapOrdered, mapKeys] using h
  refine ⟨?_, h2.2⟩
  intro q hq
  exact h2.1 q.1 (by simp only [mapKeys, List.mem_map]; exact ⟨q, hq, rfl⟩)

theorem foldl_recordLoaded_inv (l : TransitDisplayInfos) (s : TransitReadManager)
    (hl : MapOrdered l) (h : CacheInv s)
    (hp : ∀ p ∈ l, p.2 ≠ none → ∃ e, mapFind p.1 s.m_mwmCache = some e ∧ e.m_isLoaded = false) :
    CacheInv (l.foldl recordLoaded s) := by
  induction l generalizing s with
  | nil => exact h
  | cons p rest ih =>
    obtain ⟨hlt, hrest⟩ := mapOrdered_tail p rest hl
    simp only [List.foldl_cons]
    apply ih _ hrest (recordLoaded_inv s p h (hp p (List.mem_cons_self _ _)))
    intro q hq hq2
    have hne : q.1 ≠ p.1 := Nat.ne_of_gt (hlt q hq)
    rw [recordLoaded_find_ne s p q.1 hne]
    exact hp q (List.mem_cons_of_mem _ hq) hq2

/-- The entry of a region after the second loop of `UpdateViewport`. -/
theorem foldl_recordLoaded_find (l : TransitDisplayInfos) (s : TransitReadManager)
    (hl : MapOrdered l) (k : MwmId) :
    mapFind k (l.foldl recordLoaded s).m_mwmCache =
      match mapFind k l with
      | some (some info) =>
        (mapFind k s.m_mwmCache).map
          (fun e => { e with m_isLoaded := true, m_dataSize := CalculateCacheSize info })
      | _ => mapFind k s.m_mwmCache := by
  induction l generalizing s with
  | nil => rfl
  | cons p rest ih =>
    obtain ⟨hlt, hrest⟩ := mapOrdered_tail p rest hl
    obtain ⟨k1, v1⟩ := p
    simp only [List.foldl_cons]
    rw [ih _ hrest]
    by_cases hk : k1 = k
    · subst hk
      have hnone : mapFind k1 rest = none :=
        mapFind_none_of_lt k1 rest (fun j hj => by
          simp only [mapKeys, List.mem_map] at hj
          obtain ⟨q, hq, rfl⟩ := hj
          exact hlt q hq)
      simp only [hnone, mapFind, if_true]
      cases v1 with
      | none => rfl
      | some info =>
        cases hf : mapFind k1 s.m_mwmCache with
        | none => simp [recordLoaded, hf]
        | some e => simp [recordLoaded_find_self s k1 info e hf]
    · have hne : k ≠ k1 := fun e => hk e.symm
      simp only [mapFind, hk, if_false]
      rw [recordLoaded_find_ne s (k1, v1) k hne]

theorem recordLoaded_frame (s : TransitReadManager) (p : MwmId × Option TransitDisplayInfo) :
    (recordLoaded s p).m_isSchemeMode = s.m_isSchemeMode ∧
    (recordLoaded s p).m_currentModelView = s.m_currentModelView ∧
    (recordLoaded s p).m_lastVisibleMwms = s.m_lastVisibleMwms ∧
    (recordLoaded s p).m_lastActiveMwms = s.m_lastActiveMwms ∧
    (recordLoaded s p).m_drapeCalls = s.m_drapeCalls ∧
    (recordLoaded s p).m_pushedTasks = s.m_pushedTasks ∧
    (recordLoaded s p).m_nextTasksGroupId = s.m_nextTasksGroupId ∧
    (recordLoaded s p).m_tasksGroups = s.m_tasksGroups := by
  unfold recordLoaded
  cases p.2 with
  | none => simp
  | some info =>
    simp only
    cases mapFind p.1 s.m_mwmCache <;> simp

theorem foldl_recordLoaded_frame (l : TransitDisplayInfos) (s : TransitReadManager) :
    (l.foldl recordLoaded s).m_isSchemeMode = s.m_isSchemeMode ∧
    (l.foldl recordLoaded s).m_currentModelView = s.m_currentModelView ∧
    (l.foldl recordLoaded s).m_lastVisibleMwms = s.m_lastVisibleMwms ∧
    (l.foldl recordLoaded s).m_lastActiveMwms = s.m_lastActiveMwms ∧
    (l.foldl recordLoaded s).m_drapeCalls = s.m_drapeCalls ∧
    (l.foldl recordLoaded s).m_pushedTasks = s.m_pushedTasks ∧
    (l.foldl recordLoaded s).m_nextTasksGroupId = s.m_nextTasksGroupId ∧
    (l.foldl recordLoaded s).m_tasksGroups = s.m_tasksGroups := by
  induction l generalizing s with
  | nil => simp
  | cons p rest ih =>
    simp only [List.foldl_cons]
    obtain ⟨a1, a2, a3, a4, a5, a6, a7, a8⟩ := ih (recordLoaded s p)
    obtain ⟨b1, b2, b3, b4, b5, b6, b7, b8⟩ := recordLoaded_frame s p
    exact ⟨a1.trans b1, a2.trans b2, a3.trans b3, a4.trans b4, a5.trans b5, a6.trans b6,
      a7.trans b7, a8.trans b8⟩

end TransitReader

namespace TransitReader

open TransitReadManager

theorem mem_mapSet {β : Type} (p : Nat × β) (k : Nat) (v : β) (m : List (Nat × β))
    (h : p ∈ mapSet k v m) : p = (k, v) ∨ p ∈ m := by
  induction m with
  | nil => simpa [mapSet] using h
  | cons q rest ih =>
    obtain ⟨k1, v1⟩ := q
    unfold mapSet at h
    by_cases h1 : k < k1
    · simp only [h1, if_true, List.mem_cons] at h
      simp only [List.mem_cons]
      tauto
    · by_cases h2 : k = k1
      · subst h2
        simp only [lt_irrefl, if_false, if_true, List.mem_cons] at h
        simp only [List.mem_cons]
        tauto
      · simp only [h1, h2, if_false, List.mem_cons] at h
        simp only [List.mem_cons]
        rcases h with h | h
        · exact Or.inr (Or.inl h)
        · rcases ih h with h | h
          · exact Or.inl h
          · exact Or.inr (Or.inr h)

theorem markVisible_dead (w : World) (t : TimePoint)
    (acc : TransitDisplayInfos × TransitReadManager) (k : MwmId) (h : w.IsAlive k = false) :
    markVisible w t acc k = acc := by
  simp [markVisible, h]

theorem markVisible_new (w : World) (t : TimePoint)
    (acc : TransitDisplayInfos × TransitReadManager) (k : MwmId) (h : w.IsAlive k = true)
    (hf : mapFind k acc.2.m_mwmCache = none) :
    markVisible w t acc k =
      (mapSet k none acc.1,
       { acc.2 with
           m_lastActiveMwms := setInsert k acc.2.m_lastActiveMwms,
           m_mwmCache := mapSet k { m_lastActiveTime := t } acc.2.m_mwmCache }) := by
  simp [markVisible, h, hf, mapInsert]

theorem markVisible_old (w : World) (t : TimePoint)
    (acc : TransitDisplayInfos × TransitReadManager) (k : MwmId) (h : w.IsAlive k = true)
    (e : CacheEntry) (hf : mapFind k acc.2.m_mwmCache = some e) :
    markVisible w t acc k =
      (acc.1,
       { acc.2 with
           m_lastActiveMwms := setInsert k acc.2.m_lastActiveMwms,
           m_mwmCache := mapSet k { e with m_lastActiveTime := t } acc.2.m_mwmCache }) := by
  simp [markVisible, h, hf]

theorem markVisible_inv (w : World) (t : TimePoint)
    (acc : TransitDisplayInfos × TransitReadManager) (k : MwmId) (h : MarkInv acc) :
    MarkInv (markVisible w t acc k) := by
  obtain ⟨⟨hord, hzero, hsum⟩, hinfos, hnull, hreq⟩ := h
  cases ha : w.IsAlive k with
  | false =>
    rw [markVisible_dead w t acc k ha]
    exact ⟨⟨hord, hzero, hsum⟩, hinfos, hnull, hreq⟩
  | true =>
    cases hf : mapFind k acc.2.m_mwmCache with
    | none =>
      rw [markVisible_new w t acc k ha hf]
      refine ⟨⟨mapOrdered_mapSet k _ _ hord, ?_, ?_⟩, mapOrdered_mapSet k _ _ hinfos, ?_, ?_⟩
      · intro j e1 hj hl1
        simp only at hj
        by_cases hjk : j = k
        · subst hjk
          rw [mapFind_mapSet_self] at hj
          rw [← Option.some.inj hj]
        · rw [mapFind_mapSet_ne j k _ _ hjk] at hj
          exact hzero j e1 hj hl1
      · simp only
        rw [loadedSum_mapSet_absent k _ _ hf, hsum]
        simp [entryCost]
      · intro p hp
        rcases mem_mapSet p k none acc.1 hp with h1 | h1
        · rw [h1]
        · exact hnull p h1
      · intro j hj
        simp only
        by_cases hjk : j = k
        · subst hjk
          exact ⟨_, mapFind_mapSet_self j _ _, rfl⟩
        · rw [mapFind_mapSet_ne j k _ _ hjk]
          rcases (mem_mapKeys_mapSet j k _ _).mp hj with h1 | h1
          · exact absurd h1 hjk
          · exact hreq j h1
    | some e =>
      rw [markVisible_old w t acc k ha e hf]
      refine ⟨⟨mapOrdered_mapSet k _ _ hord, ?_, ?_⟩, hinfos, hnull, ?_⟩
      · intro j e1 hj hl1
        simp only at hj
        by_cases hjk : j = k
        · subst hjk
          rw [mapFind_mapSet_self] at hj
          have he := Option.some.inj hj
          rw [← he] at hl1 ⊢
          exact hzero j e hf hl1
        · rw [mapFind_mapSet_ne j k _ _ hjk] at hj
          exact hzero j e1 hj hl1
      · simp only
        have hs := loadedSum_mapSet_present k e { e with m_lastActiveTime := t } _ hord hf
        have hc : entryCost { e with m_lastActiveTime := t } = entryCost e := rfl
        rw [hc] at hs
        have : loadedSum (mapSet k { e with m_lastActiveTime := t } acc.2.m_mwmCache) =
            loadedSum acc.2.m_mwmCache := Nat.add_right_cancel hs
        rw [this]
        exact hsum
      · intro j hj
        simp only
        by_cases hjk : j = k
        · subst hjk
          obtain ⟨e0, he0, hl0⟩ := hreq j hj
          rw [hf] at he0
          have he := Option.some.inj he0
          refine ⟨_, mapFind_mapSet_self j _ _, ?_⟩
          simp only
          rw [he]
          exact hl0
        · rw [mapFind_mapSet_ne j k _ _ hjk]
          exact hreq j hj

theorem foldl_markVisible_inv (w : World) (t : TimePoint) (mwms : List MwmId)
    (acc : TransitDisplayInfos × TransitReadManager) (h : MarkInv acc) :
    MarkInv (mwms.foldl (markVisible w t) acc) := by
  induction mwms generalizing acc with
  | nil => exact h
  | cons k rest ih =>
    simp only [List.foldl_cons]
    exact ih _ (markVisible_inv w t acc k h)

/-- The regions requested by the first loop of `UpdateViewport`: the alive
regions of the visible set that had no cache entry. -/
theorem foldl_markVisible_keys (w : World) (t : TimePoint) (mwms : List MwmId)
    (acc : TransitDisplayInfos × TransitReadManager) (k : MwmId) :
    k ∈ mapKeys (mwms.foldl (markVisible w t) acc).1 ↔
      k ∈ mapKeys acc.1 ∨
        (k ∈ mwms ∧ w.IsAlive k = true ∧ mapFind k acc.2.m_mwmCache = none) := by
  induction mwms generalizing acc with
  | nil => simp
  | cons r rest ih =>
    simp only [List.foldl_cons]
    rw [ih]
    cases ha : w.IsAlive r with
    | false =>
      rw [markVisible_dead w t acc r ha]
      constructor
      · rintro (h | ⟨h1, h2, h3⟩)
        · exact Or.inl h
        · exact Or.inr ⟨List.mem_cons_of_mem _ h1, h2, h3⟩
      · rintro (h | ⟨h1, h2, h3⟩)
        · exact Or.inl h
        · rcases List.mem_cons.mp h1 with h1 | h1
          · rw [h1, ha] at h2
            exact absurd h2 (by simp)
          · exact Or.inr ⟨h1, h2, h3⟩
    | true =>
      cases hf : mapFind r acc.2.m_mwmCache with
      | none =>
        rw [markVisible_new w t acc r ha hf]
        simp only [mem_mapKeys_mapSet]
        constructor
        · rintro ((h | h) | ⟨h1, h2, h3⟩)
          · right
            rw [h]
            exact ⟨List.mem_cons_self _ _, ha, hf⟩
          · exact Or.inl h
          · right
            refine ⟨List.mem_cons_of_mem _ h1, h2, ?_⟩
            by_cases hkr : k = r
            · rw [hkr]
              exact hf
            · rw [mapFind_mapSet_ne k r _ _ hkr] at h3
              exact h3
        · rintro (h | ⟨h1, h2, h3⟩)
          · exact Or.inl (Or.inr h)
          · by_cases hkr : k = r
            · exact Or.inl (Or.inl hkr)
            · right
              rcases List.mem_cons.mp h1 with h1 | h1
              · exact absurd h1 hkr
              · refine ⟨h1, h2, ?_⟩
                rw [mapFind_mapSet_ne k r _ _ hkr]
                exact h3
      | some e =>
        rw [markVisible_old w t acc r ha e hf]
        simp only
        constructor
        · rintro (h | ⟨h1, h2, h3⟩)
          · exact Or.inl h
          · right
            refine ⟨List.mem_cons_of_mem _ h1, h2, ?_⟩
            by_cases hkr : k = r
            · rw [hkr, mapFind_mapSet_self] at h3
              exact absurd h3 (by simp)
            · rw [mapFind_mapSet_ne k r _ _ hkr] at h3
              exact h3
        · rintro (h | ⟨h1, h2, h3⟩)
          · exact Or.inl h
          · have hkr : k ≠ r := by
              intro hkr
              rw [hkr, hf] at h3
              exact absurd h3 (by simp)
            right
            rcases List.mem_cons.mp h1 with h1 | h1
            · exact absurd h1 hkr
            · refine ⟨h1, h2, ?_⟩
              rw [mapFind_mapSet_ne k r _ _ hkr]
              exact h3

theorem markVisible_frame (w : World) (t : TimePoint)
    (acc : TransitDisplayInfos × TransitReadManager) (k : MwmId) :
    (markVisible w t acc k).2.m_isSchemeMode = acc.2.m_isSchemeMode ∧
    (markVisible w t acc k).2.m_currentModelView = acc.2.m_currentModelView ∧
    (markVisible w t acc k).2.m_lastVisibleMwms = acc.2.m_lastVisibleMwms ∧
    (markVisible w t acc k).2.m_cacheSize = acc.2.m_cacheSize ∧
    (markVisible w t acc k).2.m_drapeCalls = acc.2.m_drapeCalls ∧
    (markVisible w t acc k).2.m_pushedTasks = acc.2.m_pushedTasks ∧
    (markVisible w t acc k).2.m_nextTasksGroupId = acc.2.m_nextTasksGroupId ∧
    (markVisible w t acc k).2.m_tasksGroups = acc.2.m_tasksGroups := by
  cases ha : w.IsAlive k with
  | false => rw [markVisible_dead w t acc k ha]; simp
  | true =>
    cases hf : mapFind k acc.2.m_mwmCache with
    | none => rw [markVisible_new w t acc k ha hf]; simp
    | some e => rw [markVisible_old w t acc k ha e hf]; simp

theorem foldl_markVisible_frame (w : World) (t : TimePoint) (mwms : List MwmId)
    (acc : TransitDisplayInfos × TransitReadManager) :
    (mwms.foldl (markVisible w t) acc).2.m_isSchemeMode = acc.2.m_isSchemeMode ∧
    (mwms.foldl (markVisible w t) acc).2.m_currentModelView = acc.2.m_currentModelView ∧
    (mwms.foldl (markVisible w t) acc).2.m_lastVisibleMwms = acc.2.m_lastVisibleMwms ∧
    (mwms.foldl (markVisible w t) acc).2.m_cacheSize = acc.2.m_cacheSize ∧
    (mwms.foldl (markVisible w t) acc).2.m_drapeCalls = acc.2.m_drapeCalls ∧
    (mwms.foldl (markVisible w t) acc).2.m_pushedTasks = acc.2.m_pushedTasks ∧
    (mwms.foldl (markVisible w t) acc).2.m_nextTasksGroupId = acc.2.m_nextTasksGroupId ∧
    (mwms.foldl (markVisible w t) acc).2.m_tasksGroups = acc.2.m_tasksGroups := by
  induction mwms generalizing acc with
  | nil => simp
  | cons k rest ih =>
    simp only [List.foldl_cons]
    obtain ⟨a1, a2, a3, a4, a5, a6, a7, a8⟩ := ih (markVisible w t acc k)
    obtain ⟨b1, b2, b3, b4, b5, b6, b7, b8⟩ := markVisible_frame w t acc k
    exact ⟨a1.trans b1, a2.trans b2, a3.trans b3, a4.trans b4, a5.trans b5, a6.trans b6,
      a7.trans b7, a8.trans b8⟩

end TransitReader

namespace TransitReader

open TransitReadManager

/-! ## `GetTransitDisplayInfo` -/

theorem mapSet_of_lt {β : Type} (k : Nat) (v : β) (m : List (Nat × β))
    (h : ∀ j ∈ mapKeys m, j < k) : mapSet k v m = m ++ [(k, v)] := by
  induction m with
  | nil => rfl
  | cons p rest ih =>
    obtain ⟨k1, v1⟩ := p
    have h1 : k1 < k := h k1 (by simp [mapKeys])
    have h2 : ¬ k < k1 := Nat.lt_asymm h1
    have h3 : ¬ k = k1 := Nat.ne_of_gt h1
    simp only [mapSet, h2, h3, if_false, List.cons_append]
    rw [ih]
    intro j hj
    exact h j (by simp only [mapKeys, List.map_cons, List.mem_cons] at hj ⊢; exact Or.inr hj)

theorem foldl_mapSet_ordered {α β : Type} (f : Nat × α → β) (l : List (Nat × α))
    (acc : List (Nat × β)) (hl : MapOrdered l)
    (hacc : ∀ j ∈ mapKeys acc, ∀ q ∈ l, j < q.1) :
    l.foldl (fun tasks p => mapSet p.1 (f p) tasks) acc = acc ++ l.map (fun p => (p.1, f p)) := by
  induction l generalizing acc with
  | nil => simp
  | cons p rest ih =>
    obtain ⟨hlt, hrest⟩ := mapOrdered_tail p rest hl
    simp only [List.foldl_cons, List.map_cons]
    rw [mapSet_of_lt p.1 (f p) acc (fun j hj => hacc j hj p (List.mem_cons_self _ _))]
    rw [ih _ hrest]
    · simp
    · intro j hj q hq
      simp only [mapKeys, List.map_append, List.map_cons, List.map_nil, List.mem_append,
        List.mem_singleton] at hj
      rcases hj with hj | hj
      · exact hacc j (by simpa [mapKeys] using hj) q (List.mem_cons_of_mem _ hq)
      · rw [hj]
        exact hlt q hq

theorem Do_fields (w : World) (t done : ReadTransitTask) (h : t.Do w = .ok done) :
    done.m_id = t.m_id ∧ done.m_mwmId = t.m_mwmId := by
  unfold ReadTransitTask.Do at h
  split at h
  · cases h; exact ⟨rfl, rfl⟩
  · split at h
    · cases h; exact ⟨rfl, rfl⟩
    · split at h
      · cases h
      · split at h
        · cases h
        · cases h; exact ⟨rfl, rfl⟩

theorem Do_not_alive (w : World) (t : ReadTransitTask)
    (ha : w.handleIsAlive t.m_mwmId = false) :
    t.Do w = .ok { t with m_success := false } := by
  simp [ReadTransitTask.Do, ha]

theorem Do_fullLoad_no_section (w : World) (t : ReadTransitTask)
    (ha : w.handleIsAlive t.m_mwmId = true) (hl : t.m_loadSubset = false)
    (he : w.transitSectionExists t.m_mwmId = false) :
    t.Do w = .ok { t with m_success := true } := by
  simp [ReadTransitTask.Do, ha, hl, he]

theorem Do_section (w : World) (t : ReadTransitTask) (info : TransitDisplayInfo)
    (ha : w.handleIsAlive t.m_mwmId = true) (he : w.transitSectionExists t.m_mwmId = true)
    (hi : t.m_transitInfo = some info) :
    t.Do w = .ok { t with
                    m_transitInfo := some (w.readSection t.m_mwmId t.m_loadSubset info),
                    m_success := true } := by
  simp [ReadTransitTask.Do, ha, he, hi]

theorem Do_null_dataset (w : World) (t : ReadTransitTask)
    (ha : w.handleIsAlive t.m_mwmId = true) (he : w.transitSectionExists t.m_mwmId = true)
    (hi : t.m_transitInfo = none) : t.Do w = .error Fault.nullDereference := by
  simp [ReadTransitTask.Do, ha, he, hi]

theorem Do_fullLoad (w : World) (t : ReadTransitTask) (h : t.m_loadSubset = false)
    (hi : ∃ info, t.m_transitInfo = some info) : t.Do w = .ok (doneTask w t) := by
  have hex : ∃ done, t.Do w = .ok done := by
    obtain ⟨info, hi⟩ := hi
    cases ha : w.handleIsAlive t.m_mwmId with
    | false => exact ⟨_, Do_not_alive w t ha⟩
    | true =>
      cases he : w.transitSectionExists t.m_mwmId with
      | false => exact ⟨_, Do_fullLoad_no_section w t ha h he⟩
      | true => exact ⟨_, Do_section w t info ha he hi⟩
  obtain ⟨done, hd⟩ := hex
  simp [doneTask, hd]

theorem doneTask_of_ok (w : World) (t done : ReadTransitTask) (h : t.Do w = .ok done) :
    doneTask w t = done := by
  simp [doneTask, h]

theorem OnTaskCompleted_frame (t : ReadTransitTask) (s : TransitReadManager) :
    (OnTaskCompleted t s).m_isSchemeMode = s.m_isSchemeMode ∧
    (OnTaskCompleted t s).m_currentModelView = s.m_currentModelView ∧
    (OnTaskCompleted t s).m_lastVisibleMwms = s.m_lastVisibleMwms ∧
    (OnTaskCompleted t s).m_lastActiveMwms = s.m_lastActiveMwms ∧
    (OnTaskCompleted t s).m_mwmCache = s.m_mwmCache ∧
    (OnTaskCompleted t s).m_cacheSize = s.m_cacheSize ∧
    (OnTaskCompleted t s).m_drapeCalls = s.m_drapeCalls ∧
    (OnTaskCompleted t s).m_pushedTasks = s.m_pushedTasks ∧
    (OnTaskCompleted t s).m_nextTasksGroupId = s.m_nextTasksGroupId :=
  ⟨rfl, rfl, rfl, rfl, rfl, rfl, rfl, rfl, rfl⟩

theorem getD_mapFind_mapSet (k c : Nat) (m : List (Nat × Nat)) :
    (mapFind k (mapSet k c m)).getD 0 = c := by
  rw [mapFind_mapSet_self]
  exact Option.getD_some

theorem OnTaskCompleted_pendingCount (t : ReadTransitTask) (s : TransitReadManager) :
    pendingCount (OnTaskCompleted t s) t.m_id = sizeSub (pendingCount s t.m_id) 1 :=
  getD_mapFind_mapSet t.m_id _ s.m_tasksGroups

/-- What `runTasks` returns: every task in its state after `Do`, the members of
the manager other than the group counters untouched. -/
theorem runTasks_spec (w : World) (tasks done : List (MwmId × ReadTransitTask))
    (s s1 : TransitReadManager) (h : runTasks w tasks s = .ok (done, s1)) :
    done = tasks.map (fun p => (p.1, doneTask w p.2)) ∧
    s1.m_isSchemeMode = s.m_isSchemeMode ∧
    s1.m_currentModelView = s.m_currentModelView ∧
    s1.m_lastVisibleMwms = s.m_lastVisibleMwms ∧
    s1.m_lastActiveMwms = s.m_lastActiveMwms ∧
    s1.m_mwmCache = s.m_mwmCache ∧
    s1.m_cacheSize = s.m_cacheSize ∧
    s1.m_drapeCalls = s.m_drapeCalls ∧
    s1.m_pushedTasks = s.m_pushedTasks ∧
    s1.m_nextTasksGroupId = s.m_nextTasksGroupId := by
  induction tasks generalizing s done with
  | nil =>
    simp only [runTasks, Except.ok.injEq, Prod.mk.injEq] at h
    obtain ⟨h1, h2⟩ := h
    subst h1 h2
    simp
  | cons p rest ih =>
    obtain ⟨k, t⟩ := p
    simp only [runTasks] at h
    cases hd : t.Do w with
    | error f => simp [hd] at h
    | ok t1 =>
      simp only [hd] at h
      cases hr : runTasks w rest (OnTaskCompleted t1 s) with
      | error f => simp [hr] at h
      | ok res =>
        obtain ⟨doneRest, s2⟩ := res
        simp only [hr, Except.ok.injEq, Prod.mk.injEq] at h
        obtain ⟨h1, h2⟩ := h
        subst h1 h2
        obtain ⟨a0, a1, a2, a3, a4, a5, a6, a7, a8, a9⟩ := ih _ _ hr
        refine ⟨?_, a1, a2, a3, a4, a5, a6, a7, a8, a9⟩
        simp only [List.map_cons, doneTask_of_ok w t t1 hd, a0]

theorem runTasks_fullLoad (w : World) (tasks : List (MwmId × ReadTransitTask))
    (s : TransitReadManager)
    (h : ∀ p ∈ tasks, p.2.m_loadSubset = false ∧ ∃ info, p.2.m_transitInfo = some info) :
    ∃ done s1, runTasks w tasks s = .ok (done, s1) := by
  induction tasks generalizing s with
  | nil => exact ⟨[], s, rfl⟩
  | cons p rest ih =>
    obtain ⟨k, t⟩ := p
    have hd := Do_fullLoad w t (h (k, t) (List.mem_cons_self _ _)).1
      (h (k, t) (List.mem_cons_self _ _)).2
    obtain ⟨done, s1, hr⟩ :=
      ih (OnTaskCompleted (doneTask w t) s) (fun q hq => h q (List.mem_cons_of_mem _ hq))
    exact ⟨(k, doneTask w t) :: done, s1, by simp [runTasks, hd, hr]⟩

theorem runTasks_pendingCount (w : World) (groupId : Nat)
    (tasks done : List (MwmId × ReadTransitTask)) (s s1 : TransitReadManager)
    (h : runTasks w tasks s = .ok (done, s1)) (hid : ∀ p ∈ tasks, p.2.m_id = groupId) :
    (pendingCount s1 groupId + tasks.length) % sizeMod = pendingCount s groupId % sizeMod ∧
    (tasks ≠ [] → pendingCount s1 groupId < sizeMod) := by
  induction tasks generalizing s done with
  | nil =>
    simp only [runTasks, Except.ok.injEq, Prod.mk.injEq] at h
    obtain ⟨h1, h2⟩ := h
    subst h1 h2
    simp
  | cons p rest ih =>
    obtain ⟨k, t⟩ := p
    simp only [runTasks] at h
    cases hd : t.Do w with
    | error f => simp [hd] at h
    | ok t1 =>
      simp only [hd] at h
      cases hr : runTasks w rest (OnTaskCompleted t1 s) with
      | error f => simp [hr] at h
      | ok res =>
        obtain ⟨doneRest, s2⟩ := res
        simp only [hr, Except.ok.injEq, Prod.mk.injEq] at h
        obtain ⟨h1, h2⟩ := h
        subst h1 h2
        have hid1 : t1.m_id = groupId := by
          rw [(Do_fields w t t1 hd).1]
          exact hid (k, t) (List.mem_cons_self _ _)
        obtain ⟨b1, b2⟩ := ih _ _ hr (fun q hq => hid q (List.mem_cons_of_mem _ hq))
        have hc := OnTaskCompleted_pendingCount t1 s
        rw [hid1] at hc
        rw [hc] at b1
        have hlt : pendingCount (OnTaskCompleted t1 s) groupId < sizeMod := by
          rw [hc]
          simp only [sizeSub, sizeMod]
          omega
        constructor
        · simp only [List.length_cons]
          simp only [sizeSub, sizeMod] at b1 ⊢
          omega
        · intro _
          by_cases hrest : rest = []
          · subst hrest
            simp only [runTasks, Except.ok.injEq, Prod.mk.injEq] at hr
            rw [← hr.2]
            exact hlt
          · exact b2 hrest

end TransitReader

namespace TransitReader

open TransitReadManager

theorem mapKeys_mapSet_present {β : Type} (k : Nat) (v : β) (m : List (Nat × β))
    (hm : MapOrdered m) (hk : k ∈ mapKeys m) : mapKeys (mapSet k v m) = mapKeys m := by
  induction m with
  | nil => simp [mapKeys] at hk
  | cons p rest ih =>
    obtain ⟨k1, v1⟩ := p
    have hm2 : (∀ j ∈ mapKeys rest, k1 < j) ∧ MapOrdered rest := by
      simpa [MapOrdered, mapKeys] using hm
    unfold mapSet
    by_cases h0 : k = k1
    · subst h0
      simp [mapKeys]
    · have hin : k ∈ mapKeys rest := by
        simp only [mapKeys, List.map_cons, List.mem_cons] at hk
        rcases hk with hk | hk
        · exact absurd hk h0
        · exact hk
      have h1 : ¬ k < k1 := Nat.lt_asymm (hm2.1 k hin)
      simp only [h1, h0, if_false, mapKeys, List.map_cons]
      have := ih hm2.2 hin
      simp only [mapKeys] at this
      rw [this]

theorem collectResults_ordered (done : List (MwmId × ReadTransitTask))
    (acc : TransitDisplayInfos) (r : Bool) (hacc : MapOrdered acc) :
    MapOrdered (collectResults done (acc, r)).1 := by
  induction done generalizing acc r with
  | nil => exact hacc
  | cons p rest ih =>
    obtain ⟨k, t⟩ := p
    unfold collectResults
    cases hs : t.GetSuccess with
    | false => simpa [hs] using ih acc false hacc
    | true => simpa [hs] using ih _ r (mapOrdered_mapSet k t.GetTransitInfo acc hacc)

theorem collectResults_keys (done : List (MwmId × ReadTransitTask))
    (acc : TransitDisplayInfos) (r : Bool) (hacc : MapOrdered acc)
    (hdone : ∀ p ∈ done, p.1 ∈ mapKeys acc) :
    mapKeys (collectResults done (acc, r)).1 = mapKeys acc := by
  induction done generalizing acc r with
  | nil => rfl
  | cons p rest ih =>
    obtain ⟨k, t⟩ := p
    have hk : k ∈ mapKeys acc := hdone (k, t) (List.mem_cons_self _ _)
    have hrest : ∀ q ∈ rest, q.1 ∈ mapKeys acc :=
      fun q hq => hdone q (List.mem_cons_of_mem _ hq)
    unfold collectResults
    cases hs : t.GetSuccess with
    | false => simpa [hs] using ih acc false hacc hrest
    | true =>
      have hkeys := mapKeys_mapSet_present k t.GetTransitInfo acc hacc hk
      have := ih (mapSet k t.GetTransitInfo acc) r (mapOrdered_mapSet k _ acc hacc)
        (fun q hq => by rw [hkeys]; exact hrest q hq)
      simpa [hs, hkeys] using this

theorem collectResults_find (done : List (MwmId × ReadTransitTask))
    (acc : TransitDisplayInfos) (r : Bool) (hdone : MapOrdered done) (k : MwmId) :
    mapFind k (collectResults done (acc, r)).1 =
      match mapFind k done with
      | some t => if t.GetSuccess then some t.GetTransitInfo else mapFind k acc
      | none => mapFind k acc := by
  induction done generalizing acc r with
  | nil => rfl
  | cons p rest ih =>
    obtain ⟨hlt, hrest⟩ := mapOrdered_tail p rest hdone
    obtain ⟨k1, t⟩ := p
    by_cases hk : k1 = k
    · subst hk
      have hnone : mapFind k1 rest = none :=
        mapFind_none_of_lt k1 rest (fun j hj => by
          simp only [mapKeys, List.mem_map] at hj
          obtain ⟨q, hq, rfl⟩ := hj
          exact hlt q hq)
      unfold collectResults
      cases hs : t.GetSuccess with
      | false =>
        simp only [hs, Bool.not_false, if_true, mapFind]
        rw [ih acc false hrest, hnone]
        simp
      | true =>
        simp only [hs, Bool.not_true, mapFind, if_true, Bool.false_eq_true, if_false]
        rw [ih _ r hrest, hnone]
        exact mapFind_mapSet_self k1 _ _
    · have hne : k ≠ k1 := fun e => hk e.symm
      unfold collectResults
      cases hs : t.GetSuccess with
      | false =>
        simp only [hs, Bool.not_false, if_true, mapFind, hk, if_false]
        exact ih acc false hrest
      | true =>
        simp only [hs, Bool.not_true, mapFind, hk, if_false, Bool.false_eq_true]
        rw [ih _ r hrest, mapFind_mapSet_ne k k1 _ _ hne]

theorem mapFind_map_values {α β : Type} (f : Nat → α → β) (k : Nat) (m : List (Nat × α)) :
    mapFind k (m.map (fun p => (p.1, f p.1 p.2))) = (mapFind k m).map (f k) := by
  induction m with
  | nil => rfl
  | cons p rest ih =>
    obtain ⟨k1, v1⟩ := p
    by_cases hk : k1 = k
    · subst hk
      simp [mapFind]
    · simp only [List.map_cons, mapFind, hk, if_false]
      exact ih

theorem mapKeys_map_values {α β : Type} (f : Nat → α → β) (m : List (Nat × α)) :
    mapKeys (m.map (fun p => (p.1, f p.1 p.2))) = mapKeys m := by
  simp [mapKeys, List.map_map, Function.comp_def]

end TransitReader

namespace TransitReader

open TransitReadManager

/-! ## The group of a call of `GetTransitDisplayInfo` -/

theorem foldl_Init_tasks (groupId : Nat) (infos : TransitDisplayInfos)
    (acc : List (MwmId × ReadTransitTask))
    (hacc : ∀ t ∈ acc, t.2.GetId = groupId ∧ t.2.m_mwmId = t.1) :
    ∀ t ∈ infos.foldl
        (fun tasks (mwmTransitPair : MwmId × Option TransitDisplayInfo) =>
          mapSet mwmTransitPair.1
            (ReadTransitTask.Init {} groupId mwmTransitPair.1 mwmTransitPair.2) tasks)
        acc,
      t.2.GetId = groupId ∧ t.2.m_mwmId = t.1 := by
  induction infos generalizing acc with
  | nil => exact hacc
  | cons p rest ih =>
    simp only [List.foldl_cons]
    apply ih
    intro t ht
    rcases mem_mapSet t p.1 _ acc ht with h | h
    · rw [h]
      cases p.2 <;> exact ⟨rfl, rfl⟩
    · exact hacc t h

/-- The tasks that `GetTransitDisplayInfo` builds carry the id of the group
and the region they are stored under. -/
theorem registerGroup_tasks (infos : TransitDisplayInfos) (s : TransitReadManager) :
    ∀ t ∈ (registerGroup infos s).transitTasks,
      t.2.GetId = (registerGroup infos s).groupId ∧ t.2.m_mwmId = t.1 :=
  foldl_Init_tasks _ infos [] (by simp)

theorem foldl_PushBack (tasks : List (MwmId × ReadTransitTask)) (s : TransitReadManager) :
    tasks.foldl (fun acc task => PushBack task.2 acc) s =
      { s with
          m_pushedTasks := s.m_pushedTasks ++ tasks.map (fun t => (t.2.GetId, t.2.m_mwmId)) } := by
  induction tasks generalizing s with
  | nil => simp
  | cons t rest ih =>
    simp only [List.foldl_cons]
    rw [ih]
    simp [PushBack]

/-- The state in which the tasks of a call run: the group is registered and
every task is pushed, each push recorded with the id of the group. -/
theorem pushed_state (infos : TransitDisplayInfos) (s : TransitReadManager) :
    (registerGroup infos s).transitTasks.foldl (fun acc task => PushBack task.2 acc)
        (registerGroup infos s).registered =
      { (registerGroup infos s).registered with
          m_pushedTasks :=
            s.m_pushedTasks ++
              (registerGroup infos s).transitTasks.map
                (fun t => ((registerGroup infos s).groupId, t.1)) } := by
  rw [foldl_PushBack]
  have hmap : (registerGroup infos s).transitTasks.map (fun t => (t.2.GetId, t.2.m_mwmId)) =
      (registerGroup infos s).transitTasks.map
        (fun t => ((registerGroup infos s).groupId, t.1)) := by
    apply List.map_congr_left
    intro t ht
    obtain ⟨h1, h2⟩ := registerGroup_tasks infos s t ht
    rw [h1, h2]
  rw [hmap]
  rfl

/-- The method `GetTransitDisplayInfo`, with the group written out. -/
theorem GetTransitDisplayInfo_unfold (w : World) (transitDisplayInfos : TransitDisplayInfos)
    (s : TransitReadManager) :
    GetTransitDisplayInfo w transitDisplayInfos s =
      (let groupId := (s.m_nextTasksGroupId + 1) % sizeMod
      let s1 := { s with m_nextTasksGroupId := groupId }
      let transitTasks : List (MwmId × ReadTransitTask) :=
        transitDisplayInfos.foldl
          (fun tasks mwmTransitPair =>
            mapSet mwmTransitPair.1
              (ReadTransitTask.Init {} groupId mwmTransitPair.1 mwmTransitPair.2) tasks)
          []
      let moved : TransitDisplayInfos := transitDisplayInfos.map (fun p => (p.1, none))
      let s2 := { s1 with m_tasksGroups := mapSet groupId transitTasks.length s1.m_tasksGroups }
      let s3 := { s2 with
                    m_pushedTasks :=
                      s2.m_pushedTasks ++ transitTasks.map (fun t => (groupId, t.1)) }
      match runTasks w transitTasks s3 with
      | .error f => .error f
      | .ok (doneTasks, s4) =>
        if (mapFind groupId s4.m_tasksGroups).getD 0 = 0 then
          let s5 := { s4 with m_tasksGroups := mapErase groupId s4.m_tasksGroups }
          let out := collectResults doneTasks (moved, true)
          .ok (out.1, out.2, s5)
        else .error Fault.waitsForever) := by
  unfold GetTransitDisplayInfo
  simp only [pushed_state]
  simp only [registerGroup, groupIsDone, eraseGroup, decide_eq_true_eq]
  try rfl

/-- What `GetTransitDisplayInfo` returns for a request map: one pushed task
per requested region, the outcome of each region's task under its key, and a
manager whose cache members are untouched. -/
theorem GetTransitDisplayInfo_spec (w : World) (infos out : TransitDisplayInfos) (r : Bool)
    (s s1 : TransitReadManager) (groupId : Nat)
    (hg : (s.m_nextTasksGroupId + 1) % sizeMod = groupId) (hinfos : MapOrdered infos)
    (h : GetTransitDisplayInfo w infos s = .ok (out, r, s1)) :
    (MapOrdered out ∧ mapKeys out = mapKeys infos ∧
      ∀ k, mapFind k out = (mapFind k infos).map (taskOutcome w groupId k)) ∧
    (s1.m_pushedTasks = s.m_pushedTasks ++ infos.map (fun p => (groupId, p.1)) ∧
      s1.m_nextTasksGroupId = groupId) ∧
    s1.m_isSchemeMode = s.m_isSchemeMode ∧
    s1.m_currentModelView = s.m_currentModelView ∧
    s1.m_lastVisibleMwms = s.m_lastVisibleMwms ∧
    s1.m_lastActiveMwms = s.m_lastActiveMwms ∧
    s1.m_mwmCache = s.m_mwmCache ∧
    s1.m_cacheSize = s.m_cacheSize ∧
    s1.m_drapeCalls = s.m_drapeCalls := by
  rw [GetTransitDisplayInfo_unfold] at h
  rw [hg] at h
  have hfold := foldl_mapSet_ordered
    (fun p : MwmId × Option TransitDisplayInfo => ReadTransitTask.Init {} groupId p.1 p.2)
    infos [] hinfos (by simp [mapKeys])
  simp only [List.nil_append] at hfold
  simp only [hfold] at h
  generalize htasks :
    infos.map (fun p => (p.1, ReadTransitTask.Init {} groupId p.1 p.2)) = tasks at h
  cases hr : runTasks w tasks
      { s with
          m_nextTasksGroupId := groupId,
          m_tasksGroups := mapSet groupId tasks.length s.m_tasksGroups,
          m_pushedTasks := s.m_pushedTasks ++ tasks.map (fun t => (groupId, t.1)) } with
  | error f => simp [hr] at h
  | ok res =>
    obtain ⟨done, s4⟩ := res
    simp only [hr] at h
    split at h
    · simp only [Except.ok.injEq, Prod.mk.injEq] at h
      obtain ⟨h1, -, h3⟩ := h
      obtain ⟨a0, a1, a2, a3, a4, a5, a6, a7, a8, a9⟩ := runTasks_spec w tasks done _ s4 hr
      have hmoved : MapOrdered (infos.map (fun p => (p.1, (none : Option TransitDisplayInfo)))) := by
        have := mapKeys_map_values (fun _ (_ : Option TransitDisplayInfo) =>
          (none : Option TransitDisplayInfo)) infos
        unfold MapOrdered
        rw [this]
        exact hinfos
      have hdonekeys : mapKeys done = mapKeys infos := by
        rw [a0, ← htasks]
        simp [mapKeys, List.map_map, Function.comp_def]
      have hdoneord : MapOrdered done := by
        unfold MapOrdered
        rw [hdonekeys]
        exact hinfos
      have hdonefind : ∀ k, mapFind k done =
          (mapFind k infos).map
            (fun v => doneTask w (ReadTransitTask.Init {} groupId k v)) := by
        intro k
        rw [a0, ← htasks, List.map_map]
        exact mapFind_map_values
          (fun k v => doneTask w (ReadTransitTask.Init {} groupId k v)) k infos
      refine ⟨⟨?_, ?_, ?_⟩, ⟨?_, ?_⟩, ?_, ?_, ?_, ?_, ?_, ?_, ?_⟩
      · rw [← h1]
        exact collectResults_ordered done _ true hmoved
      · rw [← h1, collectResults_keys done _ true hmoved]
        · exact mapKeys_map_values (fun _ (_ : Option TransitDisplayInfo) =>
            (none : Option TransitDisplayInfo)) infos
        · intro p hp
          rw [mapKeys_map_values (fun _ (_ : Option TransitDisplayInfo) =>
            (none : Option TransitDisplayInfo)) infos, ← hdonekeys]
          simp only [mapKeys, List.mem_map]
          exact ⟨p, hp, rfl⟩
      · intro k
        rw [← h1, collectResults_find done _ true hdoneord k, hdonefind k]
        have hm := mapFind_map_values (fun _ (_ : Option TransitDisplayInfo) =>
          (none : Option TransitDisplayInfo)) k infos
        simp only at hm
        rw [hm]
        cases mapFind k infos with
        | none => rfl
        | some v =>
          simp only [Option.map_some', taskOutcome]
          split <;> rfl
      · rw [← h3]
        simp only
        rw [a8, ← htasks]
        simp [List.map_map, Function.comp_def]
      · rw [← h3]
        exact a9
      · rw [← h3]; exact a1
      · rw [← h3]; exact a2
      · rw [← h3]; exact a3
      · rw [← h3]; exact a4
      · rw [← h3]; exact a5
      · rw [← h3]; exact a6
      · rw [← h3]; exact a7
    · simp at h

theorem Init_null (task : ReadTransitTask) (groupId : Nat) (k : MwmId) :
    (ReadTransitTask.Init task groupId k none).m_loadSubset = false ∧
    (ReadTransitTask.Init task groupId k none).m_id = groupId ∧
    (ReadTransitTask.Init task groupId k none).m_mwmId = k ∧
    (ReadTransitTask.Init task groupId k none).m_transitInfo = some {} :=
  ⟨rfl, rfl, rfl, rfl⟩

theorem Init_id (task : ReadTransitTask) (groupId : Nat) (k : MwmId)
    (v : Option TransitDisplayInfo) : (ReadTransitTask.Init task groupId k v).m_id = groupId := by
  cases v <;> rfl

/-- A call of `GetTransitDisplayInfo` whose requests carry no prior dataset
returns: no task hits the integrity check and the wait ends. -/
theorem GetTransitDisplayInfo_returns (w : World) (infos : TransitDisplayInfos)
    (s : TransitReadManager) (hinfos : MapOrdered infos) (hnull : ∀ p ∈ infos, p.2 = none) :
    ∃ out r s1, GetTransitDisplayInfo w infos s = .ok (out, r, s1) := by
  rw [GetTransitDisplayInfo_unfold]
  generalize (s.m_nextTasksGroupId + 1) % sizeMod = groupId
  have hfold := foldl_mapSet_ordered
    (fun p : MwmId × Option TransitDisplayInfo => ReadTransitTask.Init {} groupId p.1 p.2)
    infos [] hinfos (by simp [mapKeys])
  simp only [List.nil_append] at hfold
  simp only [hfold]
  generalize htasks :
    infos.map (fun p => (p.1, ReadTransitTask.Init {} groupId p.1 p.2)) = tasks
  have hfull : ∀ p ∈ tasks,
      p.2.m_loadSubset = false ∧ ∃ info, p.2.m_transitInfo = some info := by
    intro p hp
    rw [← htasks] at hp
    obtain ⟨q, hq, rfl⟩ := List.mem_map.mp hp
    simp only
    rw [hnull q hq]
    exact ⟨rfl, _, rfl⟩
  have hid : ∀ p ∈ tasks, p.2.m_id = groupId := by
    intro p hp
    rw [← htasks] at hp
    obtain ⟨q, _, rfl⟩ := List.mem_map.mp hp
    exact Init_id {} groupId q.1 q.2
  obtain ⟨done, s4, hr⟩ := runTasks_fullLoad w tasks
    { s with
        m_nextTasksGroupId := groupId,
        m_tasksGroups := mapSet groupId tasks.length s.m_tasksGroups,
        m_pushedTasks := s.m_pushedTasks ++ tasks.map (fun t => (groupId, t.1)) } hfull
  obtain ⟨c1, c2⟩ := runTasks_pendingCount w groupId tasks done _ s4 hr hid
  have hstart : pendingCount
      { s with
          m_nextTasksGroupId := groupId,
          m_tasksGroups := mapSet groupId tasks.length s.m_tasksGroups,
          m_pushedTasks := s.m_pushedTasks ++ tasks.map (fun t => (groupId, t.1)) } groupId =
      tasks.length := getD_mapFind_mapSet groupId _ s.m_tasksGroups
  rw [hstart] at c1
  have hzero : pendingCount s4 groupId = 0 := by
    by_cases he : tasks = []
    · subst he
      simp only [runTasks, Except.ok.injEq, Prod.mk.injEq] at hr
      rw [← hr.2, hstart]
      rfl
    · have := c2 he
      simp only [sizeMod] at c1 this
      omega
  simp only [hr]
  unfold pendingCount at hzero
  simp only [hzero, if_true]
  exact ⟨_, _, _, rfl⟩

end TransitReader

namespace TransitReader

open TransitReadManager

/-! ## `UpdateViewport` -/

theorem UpdateViewport_disabled (w : World) (screen : ScreenBase) (s : TransitReadManager)
    (h : s.m_isSchemeMode = false) :
    UpdateViewport w screen s = .ok { s with m_currentModelView := (screen, true) } := by
  simp [UpdateViewport, h]

theorem UpdateViewport_low_zoom (w : World) (screen : ScreenBase) (s : TransitReadManager)
    (h : w.GetZoomLevel screen.m_scale < kMinSchemeZoomLevel) :
    UpdateViewport w screen s = .ok { s with m_currentModelView := (screen, true) } := by
  unfold UpdateViewport
  cases s.m_isSchemeMode <;> simp [h]

theorem UpdateViewport_unchanged (w : World) (screen : ScreenBase) (s : TransitReadManager)
    (h : s.m_lastVisibleMwms = w.getMwmsByRectFn screen.m_clipRect) :
    UpdateViewport w screen s = .ok { s with m_currentModelView := (screen, true) } := by
  unfold UpdateViewport
  cases s.m_isSchemeMode
  · simp
  · by_cases hz : w.GetZoomLevel screen.m_scale < kMinSchemeZoomLevel
    · simp [hz]
    · simp [hz, h]

theorem UpdateViewport_pass (w : World) (screen : ScreenBase) (s : TransitReadManager)
    (hmode : s.m_isSchemeMode = true)
    (hzoom : ¬ w.GetZoomLevel screen.m_scale < kMinSchemeZoomLevel)
    (hchg : s.m_lastVisibleMwms ≠ w.getMwmsByRectFn screen.m_clipRect) :
    UpdateViewport w screen s =
      match GetTransitDisplayInfo w (markedRequests w screen s).1 (markedRequests w screen s).2 with
      | .error f => .error f
      | .ok (displayInfos, _, s2) =>
        .ok (finishUpdate (w.getMwmsByRectFn screen.m_clipRect) displayInfos s2) := by
  unfold UpdateViewport
  simp only [hmode, hzoom, hchg, Bool.not_true, Bool.false_eq_true, if_false]
  unfold markedRequests
  simp only [hmode]
  split
  · rfl
  · simp only [finishUpdate]
    split <;> rfl

theorem foldl_markVisible_requests (w : World) (t : TimePoint) (mwms : List MwmId)
    (acc : TransitDisplayInfos × TransitReadManager)
    (h : MapOrdered acc.1 ∧ ∀ p ∈ acc.1, p.2 = none) :
    MapOrdered (mwms.foldl (markVisible w t) acc).1 ∧
      ∀ p ∈ (mwms.foldl (markVisible w t) acc).1, p.2 = none := by
  induction mwms generalizing acc with
  | nil => exact h
  | cons k rest ih =>
    simp only [List.foldl_cons]
    apply ih
    cases ha : w.IsAlive k with
    | false => rw [markVisible_dead w t acc k ha]; exact h
    | true =>
      cases hf : mapFind k acc.2.m_mwmCache with
      | none =>
        rw [markVisible_new w t acc k ha hf]
        refine ⟨mapOrdered_mapSet k _ _ h.1, ?_⟩
        intro p hp
        rcases mem_mapSet p k none acc.1 hp with h1 | h1
        · rw [h1]
        · exact h.2 p h1
      | some e => rw [markVisible_old w t acc k ha e hf]; exact h

theorem markedRequests_requests (w : World) (screen : ScreenBase) (s : TransitReadManager) :
    MapOrdered (markedRequests w screen s).1 ∧ ∀ p ∈ (markedRequests w screen s).1, p.2 = none :=
  foldl_markVisible_requests w _ _ _ ⟨by simp [MapOrdered, mapKeys], by simp⟩

theorem markedRequests_inv (w : World) (screen : ScreenBase) (s : TransitReadManager)
    (h : CacheInv s) : MarkInv (markedRequests w screen s) :=
  foldl_markVisible_inv w _ _ _ ⟨h, by simp [MapOrdered, mapKeys], by simp, by simp [mapKeys]⟩

theorem markedRequests_keys (w : World) (screen : ScreenBase) (s : TransitReadManager)
    (k : MwmId) :
    k ∈ mapKeys (markedRequests w screen s).1 ↔
      k ∈ w.getMwmsByRectFn screen.m_clipRect ∧ w.IsAlive k = true ∧
        mapFind k s.m_mwmCache = none := by
  unfold markedRequests
  rw [foldl_markVisible_keys]
  simp [mapKeys]

/-- A call of `UpdateViewport` returns, whatever the state and the
collaborators. -/
theorem UpdateViewport_returns (w : World) (screen : ScreenBase) (s : TransitReadManager) :
    ∃ s1, UpdateViewport w screen s = .ok s1 := by
  cases hmode : s.m_isSchemeMode with
  | false => exact ⟨_, UpdateViewport_disabled w screen s hmode⟩
  | true =>
    by_cases hzoom : w.GetZoomLevel screen.m_scale < kMinSchemeZoomLevel
    · exact ⟨_, UpdateViewport_low_zoom w screen s hzoom⟩
    · by_cases hchg : s.m_lastVisibleMwms = w.getMwmsByRectFn screen.m_clipRect
      · exact ⟨_, UpdateViewport_unchanged w screen s hchg⟩
      · obtain ⟨hord, hnull⟩ := markedRequests_requests w screen s
        obtain ⟨out, r, s2, hget⟩ :=
          GetTransitDisplayInfo_returns w _ (markedRequests w screen s).2 hord hnull
        rw [UpdateViewport_pass w screen s hmode hzoom hchg, hget]
        exact ⟨_, rfl⟩

theorem CacheInv_congr (s s1 : TransitReadManager) (hc : s1.m_mwmCache = s.m_mwmCache)
    (hs : s1.m_cacheSize = s.m_cacheSize) (h : CacheInv s) : CacheInv s1 := by
  unfold CacheInv at h ⊢
  rw [hc, hs]
  exact h

theorem ShrinkCacheToAllowableSize_inv (s : TransitReadManager) (h : CacheInv s) :
    CacheInv (ShrinkCacheToAllowableSize s) := by
  unfold ShrinkCacheToAllowableSize
  split
  · obtain ⟨done, rest, -, h2, -⟩ :=
      shrinkLoop_eq_clearAll (collectSeenTimings s.m_lastActiveMwms s.m_mwmCache) s
    rw [h2]
    exact clearAll_inv done s h
  · exact h

theorem finishUpdate_inv (mwms : List MwmId) (displayInfos : TransitDisplayInfos)
    (s2 : TransitReadManager) (hl : MapOrdered displayInfos) (h : CacheInv s2)
    (hp : ∀ p ∈ displayInfos, p.2 ≠ none →
      ∃ e, mapFind p.1 s2.m_mwmCache = some e ∧ e.m_isLoaded = false) :
    CacheInv (finishUpdate mwms displayInfos s2) := by
  unfold finishUpdate
  split
  · exact CacheInv_congr _ _ rfl rfl
      (ShrinkCacheToAllowableSize_inv _ (foldl_recordLoaded_inv displayInfos s2 hl h hp))
  · exact h

theorem UpdateViewport_inv (w : World) (screen : ScreenBase) (s s1 : TransitReadManager)
    (h : CacheInv s) (hu : UpdateViewport w screen s = .ok s1) : CacheInv s1 := by
  have hskip : UpdateViewport w screen s = .ok { s with m_currentModelView := (screen, true) } →
      CacheInv s1 := by
    intro he
    rw [he] at hu
    cases hu
    exact CacheInv_congr s _ rfl rfl h
  cases hmode : s.m_isSchemeMode with
  | false => exact hskip (UpdateViewport_disabled w screen s hmode)
  | true =>
    by_cases hzoom : w.GetZoomLevel screen.m_scale < kMinSchemeZoomLevel
    · exact hskip (UpdateViewport_low_zoom w screen s hzoom)
    · by_cases hchg : s.m_lastVisibleMwms = w.getMwmsByRectFn screen.m_clipRect
      · exact hskip (UpdateViewport_unchanged w screen s hchg)
      · rw [UpdateViewport_pass w screen s hmode hzoom hchg] at hu
        cases hget : GetTransitDisplayInfo w (markedRequests w screen s).1
            (markedRequests w screen s).2 with
        | error f => simp [hget] at hu
        | ok res =>
          obtain ⟨out, r, s2⟩ := res
          simp only [hget, Except.ok.injEq] at hu
          obtain ⟨hminv, hmord, -, hmreq⟩ := markedRequests_inv w screen s h
          obtain ⟨⟨hord, hkeys, -⟩, -, -, -, -, -, hcache, hsize, -⟩ :=
            GetTransitDisplayInfo_spec w _ out r _ s2 _ rfl hmord hget
          rw [← hu]
          apply finishUpdate_inv _ out s2 hord (CacheInv_congr _ _ hcache hsize hminv)
          intro p hp _
          rw [hcache]
          apply hmreq
          rw [← hkeys]
          simp only [mapKeys, List.mem_map]
          exact ⟨p, hp, rfl⟩

theorem Invalidate_inv (w : World) (s s1 : TransitReadManager) (h : CacheInv s)
    (hu : Invalidate w s = .ok s1) : CacheInv s1 := by
  unfold Invalidate at hu
  cases hmode : s.m_isSchemeMode with
  | false =>
    simp only [hmode, Bool.not_false, if_true, Except.ok.injEq] at hu
    rw [← hu]
    exact h
  | true =>
    simp only [hmode, Bool.not_true, Bool.false_eq_true, if_false] at hu
    split at hu
    · refine UpdateViewport_inv w _ _ s1 ?_ hu
      exact CacheInv_congr s _ rfl rfl h
    · cases hu
      exact CacheInv_congr s _ rfl rfl h

theorem CacheInv_empty (s : TransitReadManager) (hc : s.m_mwmCache = [])
    (hs : s.m_cacheSize = 0) : CacheInv s := by
  unfold CacheInv
  rw [hc, hs]
  refine ⟨by simp [MapOrdered, mapKeys], ?_, ?_⟩
  · intro k e hk
    simp [mapFind] at hk
  · simp [loadedSum]

theorem EnableTransitSchemeMode_inv (w : World) (enable : Bool) (s s1 : TransitReadManager)
    (h : CacheInv s) (hu : EnableTransitSchemeMode w enable s = .ok s1) : CacheInv s1 := by
  unfold EnableTransitSchemeMode at hu
  split at hu
  · cases hu
    exact h
  · cases enable with
    | false =>
      simp only [Bool.not_false, if_true, Except.ok.injEq] at hu
      rw [← hu]
      exact CacheInv_empty _ rfl rfl
    | true =>
      simp only [Bool.not_true, Bool.false_eq_true, if_false] at hu
      refine Invalidate_inv w _ s1 ?_ hu
      exact CacheInv_congr s _ rfl rfl h

theorem Reachable_inv (s : TransitReadManager) (h : Reachable s) : CacheInv s := by
  induction h with
  | init => exact CacheInv_empty _ rfl rfl
  | updateViewport w screen s s1 _ hu ih => exact UpdateViewport_inv w screen s s1 ih hu
  | clearCache mwmId s _ ih => exact ClearCache_inv mwmId s ih
  | onMwmDeregistered mwmId s _ ih => exact ClearCache_inv mwmId s ih
  | enableTransitSchemeMode w enable s s1 _ hu ih =>
    exact EnableTransitSchemeMode_inv w enable s s1 ih hu
  | invalidate w s s1 _ hu ih => exact Invalidate_inv w s s1 ih hu

end TransitReader

namespace TransitReader

open TransitReadManager

theorem enabledManager_eq :
    EnableTransitSchemeMode (exampleWorld [] [] 0) true constructed = .ok enabledManager := by
  rfl

theorem afterFirstUpdate_eq :
    UpdateViewport (exampleWorld [1, 2] [2] 5) {} enabledManager = .ok afterFirstUpdate := by
  rfl

theorem afterFirstUpdate_reachable : Reachable afterFirstUpdate :=
  Reachable.updateViewport _ _ _ _
    (Reachable.enableTransitSchemeMode _ _ _ _ Reachable.init enabledManager_eq)
    afterFirstUpdate_eq

/-- C1: in every state reached from the constructed manager through
`UpdateViewport`, `ClearCache`, `OnMwmDeregistered`, `EnableTransitSchemeMode`
and `Invalidate`, `m_cacheSize` is the `size_t` value of the sum of
`m_dataSize` over the entries with `m_isLoaded`, and it is that sum itself
whenever the sum fits in a `size_t`. -/
theorem cacheSize_eq_loadedSum (s : TransitReadManager) (h : Reachable s) :
    s.m_cacheSize = loadedSum s.m_mwmCache % sizeMod ∧
    (loadedSum s.m_mwmCache < sizeMod → s.m_cacheSize = loadedSum s.m_mwmCache) := by
  obtain ⟨-, -, hsum⟩ := Reachable_inv s h
  refine ⟨hsum, fun hlt => ?_⟩
  rw [hsum]
  exact Nat.mod_eq_of_lt hlt

theorem cacheSize_eq_loadedSum_witness :
    Reachable afterFirstUpdate ∧ loadedSum afterFirstUpdate.m_mwmCache = 144 ∧
    afterFirstUpdate.m_cacheSize = loadedSum afterFirstUpdate.m_mwmCache % sizeMod ∧
    afterFirstUpdate.m_cacheSize = loadedSum afterFirstUpdate.m_mwmCache :=
  ⟨afterFirstUpdate_reachable, by decide,
    (cacheSize_eq_loadedSum afterFirstUpdate afterFirstUpdate_reachable).1,
    (cacheSize_eq_loadedSum afterFirstUpdate afterFirstUpdate_reachable).2 (by decide)⟩

end TransitReader

namespace TransitReader

open TransitReadManager

/-! ## What a call leaves untouched -/

theorem ClearCache_frame (k : MwmId) (s : TransitReadManager) :
    (ClearCache k s).m_isSchemeMode = s.m_isSchemeMode ∧
    (ClearCache k s).m_currentModelView = s.m_currentModelView ∧
    (ClearCache k s).m_lastVisibleMwms = s.m_lastVisibleMwms ∧
    (ClearCache k s).m_lastActiveMwms = s.m_lastActiveMwms ∧
    (ClearCache k s).m_pushedTasks = s.m_pushedTasks ∧
    (ClearCache k s).m_nextTasksGroupId = s.m_nextTasksGroupId ∧
    (ClearCache k s).m_tasksGroups = s.m_tasksGroups := by
  unfold ClearCache
  cases mapFind k s.m_mwmCache <;> simp

theorem clearAll_frame (l : List (TimePoint × MwmId)) (s : TransitReadManager) :
    (clearAll l s).m_isSchemeMode = s.m_isSchemeMode ∧
    (clearAll l s).m_currentModelView = s.m_currentModelView ∧
    (clearAll l s).m_lastVisibleMwms = s.m_lastVisibleMwms ∧
    (clearAll l s).m_lastActiveMwms = s.m_lastActiveMwms ∧
    (clearAll l s).m_pushedTasks = s.m_pushedTasks ∧
    (clearAll l s).m_nextTasksGroupId = s.m_nextTasksGroupId ∧
    (clearAll l s).m_tasksGroups = s.m_tasksGroups := by
  induction l generalizing s with
  | nil => simp [clearAll]
  | cons t l ih =>
    rw [clearAll_cons]
    obtain ⟨a1, a2, a3, a4, a5, a6, a7⟩ := ih (ClearCache t.2 s)
    obtain ⟨b1, b2, b3, b4, b5, b6, b7⟩ := ClearCache_frame t.2 s
    exact ⟨a1.trans b1, a2.trans b2, a3.trans b3, a4.trans b4, a5.trans b5, a6.trans b6,
      a7.trans b7⟩

theorem ShrinkCacheToAllowableSize_frame (s : TransitReadManager) :
    (ShrinkCacheToAllowableSize s).m_isSchemeMode = s.m_isSchemeMode ∧
    (ShrinkCacheToAllowableSize s).m_currentModelView = s.m_currentModelView ∧
    (ShrinkCacheToAllowableSize s).m_lastVisibleMwms = s.m_lastVisibleMwms ∧
    (ShrinkCacheToAllowableSize s).m_lastActiveMwms = s.m_lastActiveMwms ∧
    (ShrinkCacheToAllowableSize s).m_pushedTasks = s.m_pushedTasks ∧
    (ShrinkCacheToAllowableSize s).m_nextTasksGroupId = s.m_nextTasksGroupId ∧
    (ShrinkCacheToAllowableSize s).m_tasksGroups = s.m_tasksGroups := by
  unfold ShrinkCacheToAllowableSize
  split
  · obtain ⟨done, rest, -, h2, -⟩ :=
      shrinkLoop_eq_clearAll (collectSeenTimings s.m_lastActiveMwms s.m_mwmCache) s
    rw [h2]
    exact clearAll_frame done s
  · simp

theorem finishUpdate_frame (mwms : List MwmId) (displayInfos : TransitDisplayInfos)
    (s2 : TransitReadManager) :
    (finishUpdate mwms displayInfos s2).m_isSchemeMode = s2.m_isSchemeMode ∧
    (finishUpdate mwms displayInfos s2).m_currentModelView = s2.m_currentModelView ∧
    (finishUpdate mwms displayInfos s2).m_lastVisibleMwms = s2.m_lastVisibleMwms ∧
    (finishUpdate mwms displayInfos s2).m_lastActiveMwms = s2.m_lastActiveMwms ∧
    (finishUpdate mwms displayInfos s2).m_pushedTasks = s2.m_pushedTasks ∧
    (finishUpdate mwms displayInfos s2).m_nextTasksGroupId = s2.m_nextTasksGroupId ∧
    (finishUpdate mwms displayInfos s2).m_tasksGroups = s2.m_tasksGroups := by
  unfold finishUpdate
  split
  · obtain ⟨a1, a2, a3, a4, a5, a6, a7⟩ :=
      ShrinkCacheToAllowableSize_frame (displayInfos.foldl recordLoaded s2)
    obtain ⟨b1, b2, b3, b4, -, b6, b7, b8⟩ := foldl_recordLoaded_frame displayInfos s2
    exact ⟨a1.trans b1, a2.trans b2, a3.trans b3, a4.trans b4, a5.trans b6, a6.trans b7,
      a7.trans b8⟩
  · simp

theorem markedRequests_frame (w : World) (screen : ScreenBase) (s : TransitReadManager) :
    (markedRequests w screen s).2.m_isSchemeMode = s.m_isSchemeMode ∧
    (markedRequests w screen s).2.m_currentModelView = (screen, true) ∧
    (markedRequests w screen s).2.m_lastVisibleMwms = w.getMwmsByRectFn screen.m_clipRect ∧
    (markedRequests w screen s).2.m_cacheSize = s.m_cacheSize ∧
    (markedRequests w screen s).2.m_drapeCalls = s.m_drapeCalls ∧
    (markedRequests w screen s).2.m_pushedTasks = s.m_pushedTasks ∧
    (markedRequests w screen s).2.m_nextTasksGroupId = s.m_nextTasksGroupId ∧
    (markedRequests w screen s).2.m_tasksGroups = s.m_tasksGroups := by
  unfold markedRequests
  exact foldl_markVisible_frame w _ _ _

/-- After a call of `UpdateViewport` in scheme mode at a sufficient zoom, the
stored visible set is the one the spatial index gave for the screen. -/
theorem UpdateViewport_stores_visible (w : World) (screen : ScreenBase)
    (s s1 : TransitReadManager) (hmode : s.m_isSchemeMode = true)
    (hzoom : ¬ w.GetZoomLevel screen.m_scale < kMinSchemeZoomLevel)
    (hu : UpdateViewport w screen s = .ok s1) :
    s1.m_lastVisibleMwms = w.getMwmsByRectFn screen.m_clipRect ∧ s1.m_isSchemeMode = true := by
  by_cases hchg : s.m_lastVisibleMwms = w.getMwmsByRectFn screen.m_clipRect
  · rw [UpdateViewport_unchanged w screen s hchg] at hu
    cases hu
    exact ⟨hchg, hmode⟩
  · rw [UpdateViewport_pass w screen s hmode hzoom hchg] at hu
    cases hget : GetTransitDisplayInfo w (markedRequests w screen s).1
        (markedRequests w screen s).2 with
    | error f => simp [hget] at hu
    | ok res =>
      obtain ⟨out, r, s2⟩ := res
      simp only [hget, Except.ok.injEq] at hu
      obtain ⟨hord, -⟩ := markedRequests_requests w screen s
      obtain ⟨-, -, g1, -, g3, -⟩ :=
        GetTransitDisplayInfo_spec w _ out r _ s2 _ rfl hord hget
      obtain ⟨f1, -, f3, -⟩ := finishUpdate_frame (w.getMwmsByRectFn screen.m_clipRect) out s2
      obtain ⟨m1, -, m3, -⟩ := markedRequests_frame w screen s
      rw [← hu]
      exact ⟨f3.trans (g3.trans m3), f1.trans (g1.trans (m1.trans hmode))⟩

/-- C5: when two consecutive calls of `UpdateViewport` in scheme mode get the
same visible set from the spatial index, the second call returns the state it
was given with only `m_currentModelView` replaced: it pushes no task, makes no
call on the drape engine and leaves the cache map, `m_cacheSize`,
`m_lastVisibleMwms` and `m_lastActiveMwms` as they were. -/
theorem UpdateViewport_same_visible_set (w1 w2 : World) (screen1 screen2 : ScreenBase)
    (s s1 : TransitReadManager) (hmode : s.m_isSchemeMode = true)
    (hzoom : ¬ w1.GetZoomLevel screen1.m_scale < kMinSchemeZoomLevel)
    (hsame : w2.getMwmsByRectFn screen2.m_clipRect = w1.getMwmsByRectFn screen1.m_clipRect)
    (hfirst : UpdateViewport w1 screen1 s = .ok s1) :
    UpdateViewport w2 screen2 s1 = .ok { s1 with m_currentModelView := (screen2, true) } ∧
    ∀ s2, UpdateViewport w2 screen2 s1 = .ok s2 →
      s2.m_pushedTasks = s1.m_pushedTasks ∧ s2.m_drapeCalls = s1.m_drapeCalls ∧
      s2.m_mwmCache = s1.m_mwmCache ∧ s2.m_cacheSize = s1.m_cacheSize ∧
      s2.m_lastVisibleMwms = s1.m_lastVisibleMwms ∧
      s2.m_lastActiveMwms = s1.m_lastActiveMwms := by
  obtain ⟨hvis, -⟩ := UpdateViewport_stores_visible w1 screen1 s s1 hmode hzoom hfirst
  have hcall := UpdateViewport_unchanged w2 screen2 s1 (hvis.trans hsame.symm)
  refine ⟨hcall, ?_⟩
  intro s2 h2
  rw [hcall] at h2
  cases h2
  exact ⟨rfl, rfl, rfl, rfl, rfl, rfl⟩

theorem UpdateViewport_same_visible_set_witness :
    enabledManager.m_isSchemeMode = true ∧
    UpdateViewport (exampleWorld [1, 2] [2] 5) {} enabledManager = .ok afterFirstUpdate ∧
    (UpdateViewport (exampleWorld [1, 2] [] 8) { m_scale := 3, m_clipRect := 4 }
        afterFirstUpdate =
      .ok { afterFirstUpdate with m_currentModelView := ({ m_scale := 3, m_clipRect := 4 }, true) } ∧
    ∀ s2, UpdateViewport (exampleWorld [1, 2] [] 8) { m_scale := 3, m_clipRect := 4 }
        afterFirstUpdate = .ok s2 →
      s2.m_pushedTasks = afterFirstUpdate.m_pushedTasks ∧
      s2.m_drapeCalls = afterFirstUpdate.m_drapeCalls ∧
      s2.m_mwmCache = afterFirstUpdate.m_mwmCache ∧
      s2.m_cacheSize = afterFirstUpdate.m_cacheSize ∧
      s2.m_lastVisibleMwms = afterFirstUpdate.m_lastVisibleMwms ∧
      s2.m_lastActiveMwms = afterFirstUpdate.m_lastActiveMwms) :=
  ⟨rfl, afterFirstUpdate_eq,
    UpdateViewport_same_visible_set (exampleWorld [1, 2] [2] 5) (exampleWorld [1, 2] [] 8) {}
      { m_scale := 3, m_clipRect := 4 } enabledManager afterFirstUpdate rfl (by decide) rfl
      afterFirstUpdate_eq⟩

/-- C6: when the scheme mode is off, or the zoom level of the screen is below
`kMinSchemeZoomLevel = 10`, `UpdateViewport` returns the state it was given with
only `m_currentModelView` set to the screen: no task is pushed, and the cache
map, `m_cacheSize`, `m_lastVisibleMwms` and `m_lastActiveMwms` are unchanged. -/
theorem UpdateViewport_disabled_or_low_zoom (w : World) (screen : ScreenBase)
    (s : TransitReadManager)
    (hskip : s.m_isSchemeMode = false ∨ w.GetZoomLevel screen.m_scale < 10) :
    UpdateViewport w screen s = .ok { s with m_currentModelView := (screen, true) } ∧
    ∀ s1, UpdateViewport w screen s = .ok s1 →
      s1.m_pushedTasks = s.m_pushedTasks ∧ s1.m_drapeCalls = s.m_drapeCalls ∧
      s1.m_mwmCache = s.m_mwmCache ∧ s1.m_cacheSize = s.m_cacheSize ∧
      s1.m_lastVisibleMwms = s.m_lastVisibleMwms ∧ s1.m_lastActiveMwms = s.m_lastActiveMwms ∧
      s1.m_currentModelView = (screen, true) := by
  have hcall : UpdateViewport w screen s = .ok { s with m_currentModelView := (screen, true) } := by
    rcases hskip with h | h
    · exact UpdateViewport_disabled w screen s h
    · exact UpdateViewport_low_zoom w screen s h
  refine ⟨hcall, ?_⟩
  intro s1 h1
  rw [hcall] at h1
  cases h1
  exact ⟨rfl, rfl, rfl, rfl, rfl, rfl, rfl⟩

theorem UpdateViewport_disabled_or_low_zoom_witness :
    (afterFirstUpdate.m_isSchemeMode = false ∨
      (lowZoomWorld [7] [] 9).GetZoomLevel ({ m_scale := 3, m_clipRect := 4 } : ScreenBase).m_scale
        < 10) ∧
    UpdateViewport (lowZoomWorld [7] [] 9) { m_scale := 3, m_clipRect := 4 } afterFirstUpdate =
      .ok { afterFirstUpdate with m_currentModelView := ({ m_scale := 3, m_clipRect := 4 }, true) } :=
  ⟨Or.inr (by decide),
    (UpdateViewport_disabled_or_low_zoom (lowZoomWorld [7] [] 9)
      { m_scale := 3, m_clipRect := 4 } afterFirstUpdate (Or.inr (by decide))).1⟩

end TransitReader

namespace TransitReader

open TransitReadManager

/-! ## The requests and the results of an update -/

theorem mapOrdered_ext {β : Type} (a b : List (Nat × β)) (ha : MapOrdered a)
    (hkeys : mapKeys a = mapKeys b) (hfind : ∀ k, mapFind k a = mapFind k b) : a = b := by
  induction a generalizing b with
  | nil =>
    cases b with
    | nil => rfl
    | cons q rest => simp [mapKeys] at hkeys
  | cons p resta ih =>
    cases b with
    | nil => simp [mapKeys] at hkeys
    | cons q restb =>
      obtain ⟨k1, v1⟩ := p
      obtain ⟨k2, v2⟩ := q
      simp only [mapKeys, List.map_cons, List.cons.injEq] at hkeys
      obtain ⟨hk, hrest⟩ := hkeys
      subst hk
      have hb : MapOrdered ((k1, v2) :: restb) := by
        unfold MapOrdered at ha ⊢
        simp only [mapKeys, List.map_cons] at ha ⊢
        rw [← hrest]
        exact ha
      obtain ⟨halt, haord⟩ := mapOrdered_tail _ _ ha
      obtain ⟨hblt, -⟩ := mapOrdered_tail _ _ hb
      have hv : v1 = v2 := by
        have := hfind k1
        simpa [mapFind] using this
      subst hv
      have htail : resta = restb := by
        apply ih restb haord hrest
        intro k
        by_cases hkk : k1 = k
        · subst hkk
          rw [mapFind_none_of_lt k1 resta, mapFind_none_of_lt k1 restb]
          · intro j hj
            simp only [mapKeys, List.mem_map] at hj
            obtain ⟨q, hq, rfl⟩ := hj
            exact hblt q hq
          · intro j hj
            simp only [mapKeys, List.mem_map] at hj
            obtain ⟨q, hq, rfl⟩ := hj
            exact halt q hq
        · have := hfind k
          simpa only [mapFind, hkk, if_false] using this
      rw [htail]

/-- The map returned by `GetTransitDisplayInfo`: under each requested region,
the outcome of its task. -/
theorem GetTransitDisplayInfo_out (w : World) (infos out : TransitDisplayInfos) (r : Bool)
    (s s1 : TransitReadManager) (groupId : Nat)
    (hg : (s.m_nextTasksGroupId + 1) % sizeMod = groupId) (hinfos : MapOrdered infos)
    (h : GetTransitDisplayInfo w infos s = .ok (out, r, s1)) :
    out = infos.map (fun p => (p.1, taskOutcome w groupId p.1 p.2)) := by
  obtain ⟨⟨hord, hkeys, hfind⟩, -⟩ :=
    GetTransitDisplayInfo_spec w infos out r s s1 groupId hg hinfos h
  apply mapOrdered_ext out _ hord
  · rw [hkeys]
    exact (mapKeys_map_values (fun k v => taskOutcome w groupId k v) infos).symm
  · intro k
    rw [hfind k]
    exact (mapFind_map_values (fun k v => taskOutcome w groupId k v) k infos).symm

theorem mem_setInsert (j k : Nat) (l : List Nat) : j ∈ setInsert k l ↔ j = k ∨ j ∈ l := by
  induction l with
  | nil => simp [setInsert]
  | cons k1 rest ih =>
    unfold setInsert
    by_cases h1 : k < k1
    · simp [h1]
    · by_cases h2 : k = k1
      · subst h2
        simp
      · simp only [h1, h2, if_false, List.mem_cons, ih]
        tauto

/-- The active set built by the first loop of `UpdateViewport`: the alive
regions of the visible set. -/
theorem foldl_markVisible_active (w : World) (t : TimePoint) (mwms : List MwmId)
    (acc : TransitDisplayInfos × TransitReadManager) (k : MwmId) :
    k ∈ (mwms.foldl (markVisible w t) acc).2.m_lastActiveMwms ↔
      k ∈ acc.2.m_lastActiveMwms ∨ (k ∈ mwms ∧ w.IsAlive k = true) := by
  induction mwms generalizing acc with
  | nil => simp
  | cons r rest ih =>
    simp only [List.foldl_cons]
    rw [ih]
    cases ha : w.IsAlive r with
    | false =>
      rw [markVisible_dead w t acc r ha]
      constructor
      · rintro (h | ⟨h1, h2⟩)
        · exact Or.inl h
        · exact Or.inr ⟨List.mem_cons_of_mem _ h1, h2⟩
      · rintro (h | ⟨h1, h2⟩)
        · exact Or.inl h
        · rcases List.mem_cons.mp h1 with h1 | h1
          · rw [h1, ha] at h2
            exact absurd h2 (by simp)
          · exact Or.inr ⟨h1, h2⟩
    | true =>
      have hact : (markVisible w t acc r).2.m_lastActiveMwms =
          setInsert r acc.2.m_lastActiveMwms := by
        cases hf : mapFind r acc.2.m_mwmCache with
        | none => rw [markVisible_new w t acc r ha hf]
        | some e => rw [markVisible_old w t acc r ha e hf]
      rw [hact, mem_setInsert]
      constructor
      · rintro ((h | h) | ⟨h1, h2⟩)
        · right
          rw [h]
          exact ⟨List.mem_cons_self _ _, ha⟩
        · exact Or.inl h
        · exact Or.inr ⟨List.mem_cons_of_mem _ h1, h2⟩
      · rintro (h | ⟨h1, h2⟩)
        · exact Or.inl (Or.inr h)
        · rcases List.mem_cons.mp h1 with h1 | h1
          · exact Or.inl (Or.inl h1)
          · exact Or.inr ⟨h1, h2⟩

theorem markedRequests_active (w : World) (screen : ScreenBase) (s : TransitReadManager)
    (k : MwmId) :
    k ∈ (markedRequests w screen s).2.m_lastActiveMwms ↔
      k ∈ w.getMwmsByRectFn screen.m_clipRect ∧ w.IsAlive k = true := by
  unfold markedRequests
  rw [foldl_markVisible_active]
  simp

/-- The entry of a requested region after the first loop of `UpdateViewport`:
created at the current time, not loaded, of size 0. -/
theorem foldl_markVisible_new_entry (w : World) (t : TimePoint) (mwms : List MwmId)
    (acc : TransitDisplayInfos × TransitReadManager)
    (h : ∀ k ∈ mapKeys acc.1, mapFind k acc.2.m_mwmCache = some { m_lastActiveTime := t }) :
    ∀ k ∈ mapKeys (mwms.foldl (markVisible w t) acc).1,
      mapFind k (mwms.foldl (markVisible w t) acc).2.m_mwmCache =
        some { m_lastActiveTime := t } := by
  induction mwms generalizing acc with
  | nil => exact h
  | cons r rest ih =>
    simp only [List.foldl_cons]
    apply ih
    cases ha : w.IsAlive r with
    | false => rw [markVisible_dead w t acc r ha]; exact h
    | true =>
      cases hf : mapFind r acc.2.m_mwmCache with
      | none =>
        rw [markVisible_new w t acc r ha hf]
        intro k hk
        simp only
        by_cases hkr : k = r
        · rw [hkr]
          exact mapFind_mapSet_self r _ _
        · rw [mapFind_mapSet_ne k r _ _ hkr]
          rcases (mem_mapKeys_mapSet k r _ _).mp hk with h1 | h1
          · exact absurd h1 hkr
          · exact h k h1
      | some e =>
        rw [markVisible_old w t acc r ha e hf]
        intro k hk
        simp only at hk ⊢
        by_cases hkr : k = r
        · rw [hkr, mapFind_mapSet_self]
          have := h r (hkr ▸ hk)
          rw [hf] at this
          rw [Option.some.inj this]
        · rw [mapFind_mapSet_ne k r _ _ hkr]
          exact h k hk

theorem markedRequests_new_entry (w : World) (screen : ScreenBase) (s : TransitReadManager)
    (k : MwmId) (hk : k ∈ mapKeys (markedRequests w screen s).1) :
    mapFind k (markedRequests w screen s).2.m_mwmCache =
      some { m_lastActiveTime := w.steadyClockNow } :=
  foldl_markVisible_new_entry w _ _ _ (by simp [mapKeys]) k hk

theorem foldl_markVisible_ordered (w : World) (t : TimePoint) (mwms : List MwmId)
    (acc : TransitDisplayInfos × TransitReadManager) (h : MapOrdered acc.2.m_mwmCache) :
    MapOrdered (mwms.foldl (markVisible w t) acc).2.m_mwmCache := by
  induction mwms generalizing acc with
  | nil => exact h
  | cons r rest ih =>
    simp only [List.foldl_cons]
    apply ih
    cases ha : w.IsAlive r with
    | false => rw [markVisible_dead w t acc r ha]; exact h
    | true =>
      cases hf : mapFind r acc.2.m_mwmCache with
      | none =>
        rw [markVisible_new w t acc r ha hf]
        exact mapOrdered_mapSet r _ _ h
      | some e =>
        rw [markVisible_old w t acc r ha e hf]
        exact mapOrdered_mapSet r _ _ h

/-- The anatomy of a call of `UpdateViewport` that passes the three early
returns: the requests of the first loop are given to
`GetTransitDisplayInfo`, which returns the outcome of each task, and the rest
of the call is `finishUpdate`. -/
theorem UpdateViewport_pass_returns (w : World) (screen : ScreenBase) (s : TransitReadManager)
    (hmode : s.m_isSchemeMode = true)
    (hzoom : ¬ w.GetZoomLevel screen.m_scale < kMinSchemeZoomLevel)
    (hchg : s.m_lastVisibleMwms ≠ w.getMwmsByRectFn screen.m_clipRect) (groupId : Nat)
    (hg : (s.m_nextTasksGroupId + 1) % sizeMod = groupId) :
    ∃ r s2,
      GetTransitDisplayInfo w (markedRequests w screen s).1 (markedRequests w screen s).2 =
        .ok ((markedRequests w screen s).1.map (fun p => (p.1, taskOutcome w groupId p.1 none)),
          r, s2) ∧
      UpdateViewport w screen s =
        .ok (finishUpdate (w.getMwmsByRectFn screen.m_clipRect)
          ((markedRequests w screen s).1.map (fun p => (p.1, taskOutcome w groupId p.1 none)))
          s2) := by
  obtain ⟨hord, hnull⟩ := markedRequests_requests w screen s
  obtain ⟨out, r, s2, hget⟩ :=
    GetTransitDisplayInfo_returns w _ (markedRequests w screen s).2 hord hnull
  have hg2 : ((markedRequests w screen s).2.m_nextTasksGroupId + 1) % sizeMod = groupId := by
    rw [(markedRequests_frame w screen s).2.2.2.2.2.2.1]
    exact hg
  have hout := GetTransitDisplayInfo_out w _ out r _ s2 groupId hg2 hord hget
  have hmap : (markedRequests w screen s).1.map (fun p => (p.1, taskOutcome w groupId p.1 p.2)) =
      (markedRequests w screen s).1.map (fun p => (p.1, taskOutcome w groupId p.1 none)) := by
    apply List.map_congr_left
    intro p hp
    rw [hnull p hp]
  rw [hmap] at hout
  subst hout
  refine ⟨r, s2, hget, ?_⟩
  rw [UpdateViewport_pass w screen s hmode hzoom hchg, hget]

end TransitReader

namespace TransitReader

open TransitReadManager

theorem ShrinkCacheToAllowableSize_find_active (s : TransitReadManager) (k : MwmId)
    (hk : k ∈ s.m_lastActiveMwms) :
    mapFind k (ShrinkCacheToAllowableSize s).m_mwmCache = mapFind k s.m_mwmCache := by
  unfold ShrinkCacheToAllowableSize
  split
  · obtain ⟨done, rest, h1, h2, -⟩ :=
      shrinkLoop_eq_clearAll (collectSeenTimings s.m_lastActiveMwms s.m_mwmCache) s
    rw [h2]
    apply clearAll_find_of_not_mem
    intro t ht
    have hmem : (t, k) ∈ collectSeenTimings s.m_lastActiveMwms s.m_mwmCache := by
      rw [h1]
      exact List.mem_append_left _ ht
    obtain ⟨e, -, -, hna, -⟩ := (mem_collectSeenTimings _ _ _).mp hmem
    exact hna hk
  · rfl

theorem ClearCache_drapeCalls (k : MwmId) (s : TransitReadManager) :
    ∃ ks : List MwmId,
      (ClearCache k s).m_drapeCalls = s.m_drapeCalls ++ ks.map DrapeCall.ClearTransitSchemeCache := by
  unfold ClearCache
  cases mapFind k s.m_mwmCache with
  | none => exact ⟨[], by simp⟩
  | some e => exact ⟨[k], by simp⟩

theorem clearAll_drapeCalls (l : List (TimePoint × MwmId)) (s : TransitReadManager) :
    ∃ ks : List MwmId,
      (clearAll l s).m_drapeCalls = s.m_drapeCalls ++ ks.map DrapeCall.ClearTransitSchemeCache := by
  induction l generalizing s with
  | nil => exact ⟨[], by simp [clearAll]⟩
  | cons t l ih =>
    rw [clearAll_cons]
    obtain ⟨ks1, h1⟩ := ClearCache_drapeCalls t.2 s
    obtain ⟨ks2, h2⟩ := ih (ClearCache t.2 s)
    exact ⟨ks1 ++ ks2, by rw [h2, h1]; simp⟩

theorem ShrinkCacheToAllowableSize_drapeCalls (s : TransitReadManager) :
    ∃ ks : List MwmId,
      (ShrinkCacheToAllowableSize s).m_drapeCalls =
        s.m_drapeCalls ++ ks.map DrapeCall.ClearTransitSchemeCache := by
  unfold ShrinkCacheToAllowableSize
  split
  · obtain ⟨done, rest, -, h2, -⟩ :=
      shrinkLoop_eq_clearAll (collectSeenTimings s.m_lastActiveMwms s.m_mwmCache) s
    rw [h2]
    exact clearAll_drapeCalls done s
  · exact ⟨[], by simp⟩

theorem recordLoaded_keeps_entries (s : TransitReadManager)
    (p : MwmId × Option TransitDisplayInfo) (j : MwmId)
    (h : ∃ e, mapFind j s.m_mwmCache = some e) :
    ∃ e, mapFind j (recordLoaded s p).m_mwmCache = some e := by
  by_cases hj : j = p.1
  · obtain ⟨k, v⟩ := p
    simp only at hj
    subst hj
    cases v with
    | none => exact h
    | some info =>
      obtain ⟨e, he⟩ := h
      exact ⟨_, recordLoaded_find_self s j info e he⟩
  · rw [recordLoaded_find_ne s p j hj]
    exact h

/-- The total after the second loop of `UpdateViewport`: the cost of each
dataset is added, a null entry adds nothing. -/
theorem foldl_recordLoaded_size (l : TransitDisplayInfos) (s : TransitReadManager)
    (h : ∀ p ∈ l, ∃ e, mapFind p.1 s.m_mwmCache = some e) :
    (l.foldl recordLoaded s).m_cacheSize =
      l.foldl
        (fun total p =>
          match p.2 with
          | none => total
          | some info => sizeAdd total (CalculateCacheSize info))
        s.m_cacheSize := by
  induction l generalizing s with
  | nil => rfl
  | cons p rest ih =>
    simp only [List.foldl_cons]
    rw [ih]
    · congr 1
      obtain ⟨k, v⟩ := p
      cases v with
      | none => rfl
      | some info =>
        obtain ⟨e, he⟩ := h (k, some info) (List.mem_cons_self _ _)
        simp only at he
        simp only [recordLoaded, he]
    · intro q hq
      exact recordLoaded_keeps_entries s p q.1 (h q (List.mem_cons_of_mem _ hq))

/-- The anatomy of a call of `UpdateViewport` that passes the three early
returns, with what `GetTransitDisplayInfo` leaves of the manager. -/
theorem UpdateViewport_anatomy (w : World) (screen : ScreenBase) (s : TransitReadManager)
    (hmode : s.m_isSchemeMode = true)
    (hzoom : ¬ w.GetZoomLevel screen.m_scale < kMinSchemeZoomLevel)
    (hchg : s.m_lastVisibleMwms ≠ w.getMwmsByRectFn screen.m_clipRect) (groupId : Nat)
    (hg : (s.m_nextTasksGroupId + 1) % sizeMod = groupId) :
    ∃ s2,
      UpdateViewport w screen s =
        .ok (finishUpdate (w.getMwmsByRectFn screen.m_clipRect)
          ((markedRequests w screen s).1.map (fun p => (p.1, taskOutcome w groupId p.1 none)))
          s2) ∧
      s2.m_pushedTasks =
        s.m_pushedTasks ++ (mapKeys (markedRequests w screen s).1).map (fun k => (groupId, k)) ∧
      s2.m_lastActiveMwms = (markedRequests w screen s).2.m_lastActiveMwms ∧
      s2.m_mwmCache = (markedRequests w screen s).2.m_mwmCache ∧
      s2.m_cacheSize = s.m_cacheSize ∧
      s2.m_drapeCalls = s.m_drapeCalls := by
  obtain ⟨r, s2, hget, hu⟩ := UpdateViewport_pass_returns w screen s hmode hzoom hchg groupId hg
  obtain ⟨hord, -⟩ := markedRequests_requests w screen s
  obtain ⟨-, -, -, m4, m5, m6, m7, -⟩ := markedRequests_frame w screen s
  have hg2 : ((markedRequests w screen s).2.m_nextTasksGroupId + 1) % sizeMod = groupId := by
    rw [m7]
    exact hg
  obtain ⟨-, ⟨g1, -⟩, -, -, -, g5, g6, g7, g8⟩ :=
    GetTransitDisplayInfo_spec w _ _ r _ s2 groupId hg2 hord hget
  refine ⟨s2, hu, ?_, g5, g6, g7.trans m4, g8.trans m5⟩
  rw [g1, m6]
  simp [mapKeys, List.map_map, Function.comp_def]

end TransitReader

namespace TransitReader

open TransitReadManager

/-! ## Requests, rendering calls and load results of `UpdateViewport` -/

theorem afterSecondUpdate_eq :
    UpdateViewport (exampleWorld [2, 3] [] 9) { m_clipRect := 1 } afterFirstUpdate =
      .ok afterSecondUpdate := by
  rfl

theorem afterFailedUpdate_eq :
    UpdateViewport (exampleWorld [1] [1] 5) {} enabledManager = .ok afterFailedUpdate := by
  rfl

/-- C7, as stated, fails: region 2 has a cache entry that is not loaded (its
first load failed), it is in the active set of the second update, and the
second update pushes a task for region 3 only. -/
theorem UpdateViewport_skips_unloaded_entry :
    UpdateViewport (exampleWorld [1, 2] [2] 5) {} enabledManager = .ok afterFirstUpdate ∧
    UpdateViewport (exampleWorld [2, 3] [] 9) { m_clipRect := 1 } afterFirstUpdate =
      .ok afterSecondUpdate ∧
    mapFind 2 afterFirstUpdate.m_mwmCache =
      some { m_isLoaded := false, m_dataSize := 0, m_lastActiveTime := 5 } ∧
    2 ∈ afterSecondUpdate.m_lastActiveMwms ∧
    afterSecondUpdate.m_pushedTasks = afterFirstUpdate.m_pushedTasks ++ [(2, 3)] ∧
    ¬ (∀ k ∈ afterSecondUpdate.m_lastActiveMwms,
        (mapFind k afterFirstUpdate.m_mwmCache = none ∨
          ∃ e, mapFind k afterFirstUpdate.m_mwmCache = some e ∧ e.m_isLoaded = false) →
        ∃ groupId, (groupId, k) ∈ [((2 : Nat), (3 : MwmId))]) := by
  refine ⟨afterFirstUpdate_eq, afterSecondUpdate_eq, by decide, by decide, by decide, ?_⟩
  intro h
  obtain ⟨g, hg⟩ := h 2 (by decide) (Or.inr ⟨_, rfl, rfl⟩)
  simp at hg

/-- C7, amended: a call of `UpdateViewport` that passes the three early returns
pushes one task, with the new group id, for each region of the active set that
had no cache entry when the call started, and for no other region: a region
with an entry is not requested, loaded or not. -/
theorem UpdateViewport_requests (w : World) (screen : ScreenBase) (s : TransitReadManager)
    (hmode : s.m_isSchemeMode = true)
    (hzoom : ¬ w.GetZoomLevel screen.m_scale < kMinSchemeZoomLevel)
    (hchg : s.m_lastVisibleMwms ≠ w.getMwmsByRectFn screen.m_clipRect) :
    ∃ (s1 : TransitReadManager) (requested : List MwmId),
      UpdateViewport w screen s = .ok s1 ∧
      s1.m_pushedTasks =
        s.m_pushedTasks ++ requested.map (fun k => ((s.m_nextTasksGroupId + 1) % sizeMod, k)) ∧
      requested.Pairwise (fun a b => a < b) ∧
      ∀ k, k ∈ requested ↔ k ∈ s1.m_lastActiveMwms ∧ mapFind k s.m_mwmCache = none := by
  obtain ⟨s2, hu, hpush, hact, -, -, -⟩ :=
    UpdateViewport_anatomy w screen s hmode hzoom hchg _ rfl
  obtain ⟨-, -, -, f4, f5, -⟩ := finishUpdate_frame (w.getMwmsByRectFn screen.m_clipRect)
    ((markedRequests w screen s).1.map
      (fun p => (p.1, taskOutcome w ((s.m_nextTasksGroupId + 1) % sizeMod) p.1 none))) s2
  refine ⟨_, mapKeys (markedRequests w screen s).1, hu, f5.trans hpush,
    (markedRequests_requests w screen s).1, ?_⟩
  intro k
  rw [f4, hact, markedRequests_keys, markedRequests_active]
  tauto

theorem UpdateViewport_requests_witness :
    afterFirstUpdate.m_isSchemeMode = true ∧
    ∃ (s1 : TransitReadManager) (requested : List MwmId),
      UpdateViewport (exampleWorld [2, 3] [] 9) { m_clipRect := 1 } afterFirstUpdate = .ok s1 ∧
      s1.m_pushedTasks =
        afterFirstUpdate.m_pushedTasks ++
          requested.map (fun k => ((afterFirstUpdate.m_nextTasksGroupId + 1) % sizeMod, k)) ∧
      requested.Pairwise (fun a b => a < b) ∧
      ∀ k, k ∈ requested ↔
        k ∈ s1.m_lastActiveMwms ∧ mapFind k afterFirstUpdate.m_mwmCache = none :=
  ⟨rfl,
    UpdateViewport_requests (exampleWorld [2, 3] [] 9) { m_clipRect := 1 } afterFirstUpdate rfl
      (by decide) (by decide)⟩

/-- C8, as stated, fails: the only requested load fails (the handle of region 1
is not alive when its task runs), no dataset is produced, and the drape engine
is called all the same, with a null dataset for region 1. -/
theorem UpdateViewport_calls_sink_without_dataset :
    UpdateViewport (exampleWorld [1] [1] 5) {} enabledManager = .ok afterFailedUpdate ∧
    ((ReadTransitTask.Init {} 1 1 none).Do (exampleWorld [1] [1] 5)).map
      ReadTransitTask.GetSuccess = .ok false ∧
    afterFailedUpdate.m_pushedTasks = enabledManager.m_pushedTasks ++ [(1, 1)] ∧
    afterFailedUpdate.m_drapeCalls =
      enabledManager.m_drapeCalls ++ [DrapeCall.UpdateTransitScheme [(1, none)] [1]] :=
  ⟨afterFailedUpdate_eq, rfl, rfl, rfl⟩

/-- C8, amended: `UpdateViewport` returns, and it calls `UpdateTransitScheme` on
the drape engine if and only if it pushed at least one load task, whether or not
a task produced a dataset. -/
theorem UpdateViewport_sink_iff_requested (w : World) (screen : ScreenBase)
    (s : TransitReadManager) :
    ∃ s1 calls,
      UpdateViewport w screen s = .ok s1 ∧
      s1.m_drapeCalls = s.m_drapeCalls ++ calls ∧
      ((∃ infos mwms, DrapeCall.UpdateTransitScheme infos mwms ∈ calls) ↔
        s1.m_pushedTasks ≠ s.m_pushedTasks) := by
  have hskip : UpdateViewport w screen s = .ok { s with m_currentModelView := (screen, true) } →
      ∃ s1 calls,
        UpdateViewport w screen s = .ok s1 ∧
        s1.m_drapeCalls = s.m_drapeCalls ++ calls ∧
        ((∃ infos mwms, DrapeCall.UpdateTransitScheme infos mwms ∈ calls) ↔
          s1.m_pushedTasks ≠ s.m_pushedTasks) := by
    intro he
    exact ⟨_, [], he, by simp, by simp⟩
  cases hmode : s.m_isSchemeMode with
  | false => exact hskip (UpdateViewport_disabled w screen s hmode)
  | true =>
    by_cases hzoom : w.GetZoomLevel screen.m_scale < kMinSchemeZoomLevel
    · exact hskip (UpdateViewport_low_zoom w screen s hzoom)
    · by_cases hchg : s.m_lastVisibleMwms = w.getMwmsByRectFn screen.m_clipRect
      · exact hskip (UpdateViewport_unchanged w screen s hchg)
      · obtain ⟨s2, hu, hpush, -, -, -, hcalls⟩ :=
          UpdateViewport_anatomy w screen s hmode hzoom hchg _ rfl
        generalize hout : (markedRequests w screen s).1.map
          (fun p => (p.1, taskOutcome w ((s.m_nextTasksGroupId + 1) % sizeMod) p.1 none)) = out
          at hu
        obtain ⟨-, -, -, -, f5, -⟩ :=
          finishUpdate_frame (w.getMwmsByRectFn screen.m_clipRect) out s2
        by_cases hempty : (markedRequests w screen s).1 = []
        · have hout2 : out = [] := by rw [← hout, hempty]; rfl
          refine ⟨_, [], hu, ?_, ?_⟩
          · simp [finishUpdate, hout2, hcalls]
          · rw [f5, hpush, hempty]
            simp [mapKeys]
        · have hout2 : out ≠ [] := by
            intro h
            apply hempty
            rw [← hout] at h
            exact List.map_eq_nil_iff.mp h
          obtain ⟨ks, hks⟩ := ShrinkCacheToAllowableSize_drapeCalls (out.foldl recordLoaded s2)
          refine ⟨_, ks.map DrapeCall.ClearTransitSchemeCache ++
            [DrapeCall.UpdateTransitScheme out (w.getMwmsByRectFn screen.m_clipRect)], hu, ?_, ?_⟩
          · simp only [finishUpdate, hout2, ne_eq, not_false_eq_true, if_true]
            rw [hks, (foldl_recordLoaded_frame out s2).2.2.2.2.1, hcalls]
            simp
          · constructor
            · intro _
              rw [f5, hpush]
              intro h
              have hlen := congrArg List.length h
              simp only [List.length_append, List.length_map, mapKeys] at hlen
              have : (markedRequests w screen s).1.length = 0 := by omega
              exact hempty (List.length_eq_zero.mp this)
            · intro _
              exact ⟨out, w.getMwmsByRectFn screen.m_clipRect, by simp⟩

end TransitReader

namespace TransitReader

open TransitReadManager

theorem Do_keeps_dataset (w : World) (t done : ReadTransitTask) (h : t.Do w = .ok done)
    (hinfo : ∃ info, t.m_transitInfo = some info) : ∃ info, done.m_transitInfo = some info := by
  obtain ⟨info, hinfo⟩ := hinfo
  unfold ReadTransitTask.Do at h
  split at h
  · cases h; exact ⟨info, hinfo⟩
  · split at h
    · cases h; exact ⟨info, hinfo⟩
    · split at h
      · cases h
      · split at h
        · cases h
        · cases h
          exact ⟨_, rfl⟩

theorem taskOutcome_of_Do (w : World) (groupId : Nat) (k : MwmId)
    (v : Option TransitDisplayInfo) (done : ReadTransitTask)
    (h : (ReadTransitTask.Init {} groupId k v).Do w = .ok done) :
    taskOutcome w groupId k v = if done.GetSuccess then done.GetTransitInfo else none := by
  unfold taskOutcome
  rw [doneTask_of_ok w _ done h]

theorem foldl_totalAfterLoads (w : World) (groupId : Nat)
    (infos : TransitDisplayInfos) (total : Nat) :
    (infos.map (fun p => (p.1, taskOutcome w groupId p.1 none))).foldl
        (fun acc p =>
          match p.2 with
          | none => acc
          | some info => sizeAdd acc (CalculateCacheSize info))
        total =
      totalAfterLoads w groupId (mapKeys infos) total := by
  simp only [totalAfterLoads, mapKeys, List.foldl_map]

/-- C10: in a call of `UpdateViewport` that passes the three early returns,
with `out` the map and `s2` the manager that `GetTransitDisplayInfo` returns:
one task was pushed for each key of `out`; the second loop takes the total from
its value at entry to that value plus the cost of the dataset of each
successful task, in the order of the requests, a failed task adding nothing;
the call ends in the state that `ShrinkCacheToAllowableSize` makes of the state
after the second loop, so its total is the increased total when that is within
the budget, and in any case the sum of the loaded sizes of its cache when that
held at entry. At the end of the call the entry of a region whose task
succeeded is loaded with the cost of its dataset as `m_dataSize`, the entry of
a region whose task failed is not loaded and has size 0. -/
theorem UpdateViewport_load_results (w : World) (screen : ScreenBase) (s : TransitReadManager)
    (hmode : s.m_isSchemeMode = true)
    (hzoom : ¬ w.GetZoomLevel screen.m_scale < kMinSchemeZoomLevel)
    (hchg : s.m_lastVisibleMwms ≠ w.getMwmsByRectFn screen.m_clipRect) :
    ∃ (s1 s2 : TransitReadManager) (out : TransitDisplayInfos) (r : Bool),
      GetTransitDisplayInfo w (markedRequests w screen s).1 (markedRequests w screen s).2 =
        .ok (out, r, s2) ∧
      UpdateViewport w screen s = .ok s1 ∧
      s1.m_pushedTasks =
        s.m_pushedTasks ++
          (mapKeys out).map (fun k => ((s.m_nextTasksGroupId + 1) % sizeMod, k)) ∧
      s2.m_cacheSize = s.m_cacheSize ∧
      (out.foldl recordLoaded s2).m_cacheSize =
        totalAfterLoads w ((s.m_nextTasksGroupId + 1) % sizeMod) (mapKeys out) s.m_cacheSize ∧
      (out = [] → s1 = s2) ∧
      (out ≠ [] →
        s1.m_cacheSize = (ShrinkCacheToAllowableSize (out.foldl recordLoaded s2)).m_cacheSize ∧
        s1.m_mwmCache = (ShrinkCacheToAllowableSize (out.foldl recordLoaded s2)).m_mwmCache) ∧
      (totalAfterLoads w ((s.m_nextTasksGroupId + 1) % sizeMod) (mapKeys out) s.m_cacheSize ≤
          kMaxTransitCacheSizeBytes →
        s1.m_cacheSize =
          totalAfterLoads w ((s.m_nextTasksGroupId + 1) % sizeMod) (mapKeys out)
            s.m_cacheSize) ∧
      (CacheInv s → s1.m_cacheSize = loadedSum s1.m_mwmCache % sizeMod) ∧
      ∀ k ∈ mapKeys out, ∀ done,
        (ReadTransitTask.Init {} ((s.m_nextTasksGroupId + 1) % sizeMod) k none).Do w = .ok done →
        (done.GetSuccess = true →
          ∃ info, done.GetTransitInfo = some info ∧
            mapFind k s1.m_mwmCache =
              some { m_isLoaded := true, m_dataSize := CalculateCacheSize info,
                     m_lastActiveTime := w.steadyClockNow }) ∧
        (done.GetSuccess = false →
          mapFind k s1.m_mwmCache =
            some { m_isLoaded := false, m_dataSize := 0,
                   m_lastActiveTime := w.steadyClockNow }) := by
  generalize hg : (s.m_nextTasksGroupId + 1) % sizeMod = groupId
  obtain ⟨r, s2, hget, hu⟩ := UpdateViewport_pass_returns w screen s hmode hzoom hchg groupId hg
  obtain ⟨hord, -⟩ := markedRequests_requests w screen s
  obtain ⟨-, -, -, m4, -, m6, m7, -⟩ := markedRequests_frame w screen s
  have hg2 : ((markedRequests w screen s).2.m_nextTasksGroupId + 1) % sizeMod = groupId := by
    rw [m7]
    exact hg
  obtain ⟨-, ⟨g1, -⟩, -, -, -, hact, hcache, g7, -⟩ :=
    GetTransitDisplayInfo_spec w _ _ r _ s2 groupId hg2 hord hget
  have hsize : s2.m_cacheSize = s.m_cacheSize := g7.trans m4
  generalize hout : (markedRequests w screen s).1.map
    (fun p => (p.1, taskOutcome w groupId p.1 none)) = out at hu hget
  have hkeys : mapKeys out = mapKeys (markedRequests w screen s).1 := by
    rw [← hout]
    exact mapKeys_map_values (fun k _ => taskOutcome w groupId k none) _
  have hpush : s2.m_pushedTasks =
      s.m_pushedTasks ++ (mapKeys out).map (fun k => (groupId, k)) := by
    rw [g1, m6, hkeys]
    simp [mapKeys, List.map_map, Function.comp_def]
  have hordout : MapOrdered out := by
    unfold MapOrdered
    rw [hkeys]
    exact hord
  have hentry : ∀ k ∈ mapKeys out,
      mapFind k s2.m_mwmCache = some { m_lastActiveTime := w.steadyClockNow } := by
    intro k hk
    rw [hcache]
    exact markedRequests_new_entry w screen s k (hkeys ▸ hk)
  have htotal : (out.foldl recordLoaded s2).m_cacheSize =
      totalAfterLoads w groupId (mapKeys out) s.m_cacheSize := by
    rw [foldl_recordLoaded_size out s2, hsize, hkeys, ← hout]
    · exact foldl_totalAfterLoads w groupId _ _
    · intro p hp
      have : p.1 ∈ mapKeys out := by
        simp only [mapKeys, List.mem_map]
        exact ⟨p, hp, rfl⟩
      exact ⟨_, hentry p.1 this⟩
  obtain ⟨-, -, -, f4, f5, -⟩ := finishUpdate_frame (w.getMwmsByRectFn screen.m_clipRect) out s2
  have hfinish : out ≠ [] →
      (finishUpdate (w.getMwmsByRectFn screen.m_clipRect) out s2).m_cacheSize =
        (ShrinkCacheToAllowableSize (out.foldl recordLoaded s2)).m_cacheSize ∧
      (finishUpdate (w.getMwmsByRectFn screen.m_clipRect) out s2).m_mwmCache =
        (ShrinkCacheToAllowableSize (out.foldl recordLoaded s2)).m_mwmCache := by
    intro hne
    simp only [finishUpdate, hne, ne_eq, not_false_eq_true, if_true]
    exact ⟨trivial, trivial⟩
  refine ⟨_, s2, out, r, hget, hu, f5.trans hpush, hsize, htotal, ?_, hfinish, ?_, ?_, ?_⟩
  · intro hempty
    simp [finishUpdate, hempty]
  · intro hfit
    by_cases hempty : out = []
    · subst hempty
      simp only [finishUpdate, ne_eq, not_true_eq_false, if_false]
      rw [hsize]
      rfl
    · rw [(hfinish hempty).1]
      unfold ShrinkCacheToAllowableSize
      rw [if_neg (by rw [htotal]; exact Nat.not_lt.mpr hfit)]
      exact htotal
  · intro hinv
    exact (UpdateViewport_inv w screen s _ hinv hu).2.2
  · intro k hk done hdo
    have hout2 : out ≠ [] := by
      intro h
      rw [h] at hk
      simp [mapKeys] at hk
    have hk2 : k ∈ mapKeys (markedRequests w screen s).1 := hkeys ▸ hk
    have hactive : k ∈ (out.foldl recordLoaded s2).m_lastActiveMwms := by
      rw [(foldl_recordLoaded_frame out s2).2.2.2.1, hact, markedRequests_active]
      exact ⟨((markedRequests_keys w screen s k).mp hk2).1,
        ((markedRequests_keys w screen s k).mp hk2).2.1⟩
    have hfinal : mapFind k
        (finishUpdate (w.getMwmsByRectFn screen.m_clipRect) out s2).m_mwmCache =
        mapFind k (out.foldl recordLoaded s2).m_mwmCache := by
      rw [(hfinish hout2).2]
      exact ShrinkCacheToAllowableSize_find_active _ k hactive
    have hfindout : mapFind k out = some (taskOutcome w groupId k none) := by
      obtain ⟨v, hv⟩ := mapFind_isSome_of_mem_mapKeys k _ hk2
      rw [← hout, mapFind_map_values (fun k _ => taskOutcome w groupId k none) k, hv]
      rfl
    have hrec := foldl_recordLoaded_find out s2 hordout k
    rw [hfindout, hentry k hk, taskOutcome_of_Do w groupId k none done hdo] at hrec
    rw [hfinal]
    constructor
    · intro hsucc
      obtain ⟨info, hinfo⟩ := Do_keeps_dataset w _ done hdo ⟨{}, rfl⟩
      refine ⟨info, hinfo, ?_⟩
      rw [hrec]
      simp only [hsucc, if_true, ReadTransitTask.GetTransitInfo, hinfo, Option.map_some']
    · intro hfail
      rw [hrec]
      simp only [hfail, Bool.false_eq_true, if_false]

theorem UpdateViewport_load_results_witness :
    enabledManager.m_isSchemeMode = true ∧
    UpdateViewport (exampleWorld [1, 2] [2] 5) {} enabledManager = .ok afterFirstUpdate ∧
    ∃ (s1 s2 : TransitReadManager) (out : TransitDisplayInfos) (r : Bool),
      GetTransitDisplayInfo (exampleWorld [1, 2] [2] 5)
          (markedRequests (exampleWorld [1, 2] [2] 5) {} enabledManager).1
          (markedRequests (exampleWorld [1, 2] [2] 5) {} enabledManager).2 =
        .ok (out, r, s2) ∧
      UpdateViewport (exampleWorld [1, 2] [2] 5) {} enabledManager = .ok s1 ∧
      s1.m_pushedTasks =
        enabledManager.m_pushedTasks ++
          (mapKeys out).map (fun k => ((enabledManager.m_nextTasksGroupId + 1) % sizeMod, k)) ∧
      s2.m_cacheSize = enabledManager.m_cacheSize ∧
      (out.foldl recordLoaded s2).m_cacheSize =
        totalAfterLoads (exampleWorld [1, 2] [2] 5)
          ((enabledManager.m_nextTasksGroupId + 1) % sizeMod) (mapKeys out)
          enabledManager.m_cacheSize ∧
      (out = [] → s1 = s2) ∧
      (out ≠ [] →
        s1.m_cacheSize = (ShrinkCacheToAllowableSize (out.foldl recordLoaded s2)).m_cacheSize ∧
        s1.m_mwmCache = (ShrinkCacheToAllowableSize (out.foldl recordLoaded s2)).m_mwmCache) ∧
      (totalAfterLoads (exampleWorld [1, 2] [2] 5)
          ((enabledManager.m_nextTasksGroupId + 1) % sizeMod) (mapKeys out)
          enabledManager.m_cacheSize ≤ kMaxTransitCacheSizeBytes →
        s1.m_cacheSize =
          totalAfterLoads (exampleWorld [1, 2] [2] 5)
            ((enabledManager.m_nextTasksGroupId + 1) % sizeMod) (mapKeys out)
            enabledManager.m_cacheSize) ∧
      (CacheInv enabledManager → s1.m_cacheSize = loadedSum s1.m_mwmCache % sizeMod) ∧
      ∀ k ∈ mapKeys out, ∀ done,
        (ReadTransitTask.Init {} ((enabledManager.m_nextTasksGroupId + 1) % sizeMod) k none).Do
            (exampleWorld [1, 2] [2] 5) = .ok done →
        (done.GetSuccess = true →
          ∃ info, done.GetTransitInfo = some info ∧
            mapFind k s1.m_mwmCache =
              some { m_isLoaded := true, m_dataSize := CalculateCacheSize info,
                     m_lastActiveTime := (exampleWorld [1, 2] [2] 5).steadyClockNow }) ∧
        (done.GetSuccess = false →
          mapFind k s1.m_mwmCache =
            some { m_isLoaded := false, m_dataSize := 0,
                   m_lastActiveTime := (exampleWorld [1, 2] [2] 5).steadyClockNow }) :=
  ⟨rfl, afterFirstUpdate_eq,
    UpdateViewport_load_results (exampleWorld [1, 2] [2] 5) {} enabledManager rfl (by decide)
      (by decide)⟩

end TransitReader

namespace TransitReader

namespace GroupWait

open TransitReadManager

/-! ## The rendezvous -/

theorem sizeSub_one (p : Nat) (h1 : 1 ≤ p) (h2 : p < sizeMod) : sizeSub p 1 = p - 1 := by
  simp only [sizeSub, sizeMod] at h2 ⊢
  omega

theorem groupIsDone_iff (groupId : Nat) (s : TransitReadManager) :
    groupIsDone groupId s = true ↔ pendingCount s groupId = 0 := by
  simp [groupIsDone, pendingCount]

theorem registerGroup_pendingCount (infos : TransitDisplayInfos) (s : TransitReadManager) :
    pendingCount (registerGroup infos s).registered (registerGroup infos s).groupId =
      (registerGroup infos s).transitTasks.length :=
  getD_mapFind_mapSet _ _ s.m_tasksGroups

theorem start_inv (group : TasksGroup)
    (hid : ∀ t ∈ group.transitTasks, t.2.m_id = group.groupId)
    (hreg : pendingCount group.registered group.groupId = group.transitTasks.length) :
    Inv group.groupId group.transitTasks.length (start group) := by
  refine ⟨?_, ?_, ?_, ?_⟩
  · intro t ht
    simp only [start, List.append_nil, List.mem_map] at ht
    obtain ⟨p, hp, rfl⟩ := ht
    exact hid p hp
  · simp [start]
  · intro _
    exact hreg
  · intro h
    simp [start] at h

theorem step_inv (w : World) (groupId n : Nat) (hn : n < sizeMod) (a : Action) (c c1 : Config)
    (h : Inv groupId n c) (hs : step w groupId a c = some c1) : Inv groupId n c1 := by
  obtain ⟨hid, hsum, hpend, hret⟩ := h
  cases a with
  | push =>
    simp only [step] at hs
    split at hs
    · rename_i hphase
      cases hp : c.toPush with
      | nil => simp [hp] at hs
      | cons t rest =>
        simp only [hp, Option.some.injEq] at hs
        subst hs
        refine ⟨?_, ?_, ?_, ?_⟩
        · intro t1 ht1
          apply hid t1
          simp only [List.mem_append, List.mem_singleton, hp, List.mem_cons] at ht1 ⊢
          tauto
        · simp only [List.length_append, List.length_singleton]
          rw [hp] at hsum
          simp only [List.length_cons] at hsum
          omega
        · exact hpend
        · exact hret
    · simp at hs
  | beginWait =>
    simp only [step] at hs
    split at hs
    · rename_i hphase
      simp only [Option.some.injEq] at hs
      subst hs
      refine ⟨hid, hsum, ?_, ?_⟩
      · intro _
        apply hpend
        rw [hphase.1]
        simp
      · intro h
        simp at h
    · simp at hs
  | take i =>
    simp only [step] at hs
    cases hq : c.queue[i]? with
    | none => simp [hq] at hs
    | some t =>
      simp only [hq, Option.some.injEq] at hs
      subst hs
      have hlt : i < c.queue.length := (List.getElem?_eq_some.mp hq).1
      refine ⟨?_, ?_, hpend, hret⟩
      · intro t1 ht1
        apply hid t1
        simp only [List.mem_append, List.mem_cons] at ht1 ⊢
        rcases ht1 with (h1 | h1) | h1 | h1
        · exact Or.inl (Or.inl h1)
        · exact Or.inl (Or.inr (List.mem_of_mem_eraseIdx h1))
        · rw [h1]
          exact Or.inl (Or.inr (List.getElem?_mem hq))
        · exact Or.inr h1
      · simp only [List.length_cons, List.length_eraseIdx_of_lt hlt]
        omega
  | complete i =>
    simp only [step] at hs
    cases hq : c.running[i]? with
    | none => simp [hq] at hs
    | some t =>
      simp only [hq] at hs
      cases hd : t.Do w with
      | error f => simp [hd] at hs
      | ok done =>
        simp only [hd, Option.some.injEq] at hs
        subst hs
        have hlt : i < c.running.length := (List.getElem?_eq_some.mp hq).1
        have htid : t.m_id = groupId := by
          apply hid t
          simp only [List.mem_append]
          exact Or.inr (List.getElem?_mem hq)
        have hdid : done.m_id = groupId := (Do_fields w t done hd).1.trans htid
        have hphase : c.phase ≠ Phase.returned := by
          intro hr
          have := hret hr
          omega
        refine ⟨?_, ?_, ?_, ?_⟩
        · intro t1 ht1
          apply hid t1
          simp only [List.mem_append] at ht1 ⊢
          rcases ht1 with h1 | h1
          · exact Or.inl h1
          · exact Or.inr (List.mem_of_mem_eraseIdx h1)
        · simp only [List.length_eraseIdx_of_lt hlt]
          omega
        · intro _
          have hc := OnTaskCompleted_pendingCount done c.mgr
          rw [hdid] at hc
          simp only
          rw [hc, hpend hphase, sizeSub_one]
          · omega
          · omega
          · omega
        · intro hr
          exact absurd hr hphase
  | wake =>
    simp only [step] at hs
    split at hs
    · rename_i hw
      simp only [Option.some.injEq] at hs
      subst hs
      have hphase : c.phase ≠ Phase.returned := by
        rw [hw.1]
        simp
      have hp := hpend hphase
      rw [(groupIsDone_iff groupId c.mgr).mp hw.2] at hp
      refine ⟨hid, hsum, ?_, ?_⟩
      · intro h
        simp at h
      · intro _
        simp only
        omega
    · simp at hs

theorem run_inv (w : World) (groupId n : Nat) (hn : n < sizeMod) (actions : List Action)
    (c c1 : Config) (h : Inv groupId n c) (hr : run w groupId actions c = some c1) :
    Inv groupId n c1 := by
  induction actions generalizing c with
  | nil =>
    simp only [run, Option.some.injEq] at hr
    rw [← hr]
    exact h
  | cons a rest ih =>
    simp only [run] at hr
    cases hs : step w groupId a c with
    | none => simp [hs] at hr
    | some c2 =>
      simp only [hs] at hr
      exact ih c2 (step_inv w groupId n hn a c c2 h hs) hr

theorem run_append (w : World) (groupId : Nat) (a b : List Action) (c : Config) :
    run w groupId (a ++ b) c = (run w groupId a c).bind (run w groupId b) := by
  induction a generalizing c with
  | nil => rfl
  | cons x rest ih =>
    simp only [List.cons_append, run]
    cases step w groupId x c with
    | none => rfl
    | some c1 => exact ih c1

theorem run_pushes (w : World) (groupId : Nat) (tasks : List ReadTransitTask) (c : Config)
    (hphase : c.phase = Phase.pushing) (hpush : c.toPush = tasks) :
    run w groupId (List.replicate tasks.length Action.push) c =
      some { c with
               toPush := [],
               queue := c.queue ++ tasks,
               mgr := tasks.foldl (fun acc task => PushBack task acc) c.mgr } := by
  induction tasks generalizing c with
  | nil =>
    cases c
    simp only at hpush
    subst hpush
    simp [run]
  | cons t rest ih =>
    simp only [List.length_cons, List.replicate_succ, run, step, hphase, if_true, hpush]
    rw [ih _ rfl rfl]
    simp

theorem run_workers (w : World) (groupId : Nat) (tasks : List (MwmId × ReadTransitTask))
    (c : Config) (hq : c.queue = tasks.map Prod.snd) (hr : c.running = []) :
    run w groupId (List.replicate tasks.length [Action.take 0, Action.complete 0]).flatten c =
      match runTasks w tasks c.mgr with
      | .ok (_, s4) =>
        some { c with queue := [], mgr := s4, completed := c.completed + tasks.length }
      | .error _ => none := by
  induction tasks generalizing c with
  | nil =>
    cases c
    simp only [List.map_nil] at hq hr
    subst hq hr
    simp [run, runTasks]
  | cons p rest ih =>
    obtain ⟨k, t⟩ := p
    simp only [List.length_cons, List.replicate_succ, List.flatten_cons, List.cons_append,
      List.nil_append, run, step, hq, hr, List.map_cons, List.getElem?_cons_zero,
      List.eraseIdx_cons_zero, runTasks, List.append_eq]
    cases hd : t.Do w with
    | error f => rfl
    | ok done =>
      simp only
      rw [ih _ rfl rfl]
      simp only
      cases runTasks w rest (OnTaskCompleted done c.mgr) with
      | error f => rfl
      | ok res =>
        simp only [Option.some.injEq]
        cases c
        simp only at hq hr
        subst hq hr
        simp only [Config.mk.injEq, and_true, true_and]
        omega

/-- The embedded `GetTransitDisplayInfo` is the interleaving of a pool with
one worker: the configuration it ends in carries the manager the call returns,
and the interleaving is stuck exactly when the call does not return. -/
theorem GetTransitDisplayInfo_sequential (w : World) (infos : TransitDisplayInfos)
    (s : TransitReadManager) :
    run w (registerGroup infos s).groupId
        (sequentialActions (registerGroup infos s).transitTasks.length)
        (start (registerGroup infos s)) =
      match GetTransitDisplayInfo w infos s with
      | .ok (_, _, s1) =>
        some { mgr := s1, toPush := [], queue := [], running := [],
               completed := (registerGroup infos s).transitTasks.length,
               phase := Phase.returned }
      | .error _ => none := by
  generalize hg : registerGroup infos s = group
  have hfold : ∀ (l : List (MwmId × ReadTransitTask)) (m : TransitReadManager),
      (l.map Prod.snd).foldl (fun acc task => PushBack task acc) m =
        l.foldl (fun acc task => PushBack task.2 acc) m := by
    intro l m
    rw [List.foldl_map]
  have hlen : (group.transitTasks.map Prod.snd).length = group.transitTasks.length :=
    List.length_map _ _
  have hp := run_pushes w group.groupId (group.transitTasks.map Prod.snd) (start group) rfl rfl
  rw [hlen] at hp
  unfold sequentialActions GetTransitDisplayInfo
  rw [hg, List.append_assoc, List.append_assoc, run_append, hp]
  simp only [Option.some_bind, start, List.nil_append, hfold, List.singleton_append, run, step,
    and_self, if_true, List.append_eq]
  rw [run_append, run_workers w group.groupId group.transitTasks _ rfl rfl]
  simp only
  cases runTasks w group.transitTasks
      (group.transitTasks.foldl (fun acc task => PushBack task.2 acc) group.registered) with
  | error f => rfl
  | ok res =>
    simp only [Option.some_bind, run, step, true_and, Nat.zero_add]
    cases hdone : groupIsDone group.groupId res.2 with
    | false => simp
    | true => simp

/-- C9: for the group that a call of `GetTransitDisplayInfo` registers, with
`N` its number of tasks. The counter of the group is `N` when the group is
registered, before any task is pushed, and every task carries the id of the
group. Whatever the interleaving of the pushes, of the workers and of the
completions: as long as the wait has not returned the counter is `N` minus the
number of `OnTaskCompleted` calls made, and the wait has returned only in
configurations where `OnTaskCompleted` has run `N` times for the group and no
task of the group is left unpushed, queued or running. The call of
`GetTransitDisplayInfo` itself is the interleaving of a pool with one worker:
it returns the manager of the configuration that this interleaving ends in,
and it does not return when the interleaving is stuck. -/
theorem wait_returns_after_all_completed (w : World) (infos : TransitDisplayInfos)
    (s : TransitReadManager) (hlen : (registerGroup infos s).transitTasks.length < sizeMod) :
    (pendingCount (registerGroup infos s).registered (registerGroup infos s).groupId =
        (registerGroup infos s).transitTasks.length ∧
      (registerGroup infos s).registered.m_pushedTasks = s.m_pushedTasks) ∧
    (∀ t ∈ (registerGroup infos s).transitTasks, t.2.GetId = (registerGroup infos s).groupId) ∧
    (∀ actions c,
      run w (registerGroup infos s).groupId actions (start (registerGroup infos s)) = some c →
      (c.phase ≠ Phase.returned →
        pendingCount c.mgr (registerGroup infos s).groupId =
          (registerGroup infos s).transitTasks.length - c.completed) ∧
      (c.phase = Phase.returned →
        c.completed = (registerGroup infos s).transitTasks.length ∧ c.toPush = [] ∧
          c.queue = [] ∧ c.running = [])) ∧
    run w (registerGroup infos s).groupId
        (sequentialActions (registerGroup infos s).transitTasks.length)
        (start (registerGroup infos s)) =
      match GetTransitDisplayInfo w infos s with
      | .ok (_, _, s1) =>
        some { mgr := s1, toPush := [], queue := [], running := [],
               completed := (registerGroup infos s).transitTasks.length,
               phase := Phase.returned }
      | .error _ => none := by
  have hid := registerGroup_tasks infos s
  refine ⟨⟨registerGroup_pendingCount infos s, rfl⟩, fun t ht => (hid t ht).1, ?_,
    GetTransitDisplayInfo_sequential w infos s⟩
  intro actions c hrun
  obtain ⟨-, hsum, hpend, hdone⟩ :=
    run_inv w _ _ hlen actions _ c
      (start_inv (registerGroup infos s) (fun t ht => (hid t ht).1)
        (registerGroup_pendingCount infos s)) hrun
  refine ⟨hpend, fun hret => ?_⟩
  have hc := hdone hret
  refine ⟨hc, ?_, ?_, ?_⟩
  · apply List.length_eq_zero.mp
    omega
  · apply List.length_eq_zero.mp
    omega
  · apply List.length_eq_zero.mp
    omega

theorem wait_returns_after_all_completed_witness :
    (registerGroup exampleRequest.1 exampleRequest.2).transitTasks.length < sizeMod ∧
    (registerGroup exampleRequest.1 exampleRequest.2).groupId = 7 ∧
    (registerGroup exampleRequest.1 exampleRequest.2).transitTasks.length = 2 ∧
    run (exampleWorld [1, 2] [2] 5) 7
      [Action.push, Action.push, Action.beginWait, Action.take 0, Action.complete 0,
        Action.wake] (start (registerGroup exampleRequest.1 exampleRequest.2)) = none ∧
    (∃ c,
      run (exampleWorld [1, 2] [2] 5) 7
        [Action.push, Action.take 0, Action.push, Action.beginWait, Action.take 0,
          Action.complete 0, Action.complete 0, Action.wake]
        (start (registerGroup exampleRequest.1 exampleRequest.2)) = some c ∧
      c.phase = Phase.returned ∧
      (c.completed = 2 ∧ c.toPush = [] ∧ c.queue = [] ∧ c.running = [])) ∧
    ∃ out r s1,
      GetTransitDisplayInfo (exampleWorld [1, 2] [2] 5) exampleRequest.1 exampleRequest.2 =
        .ok (out, r, s1) ∧
      run (exampleWorld [1, 2] [2] 5) 7 (sequentialActions 2)
        (start (registerGroup exampleRequest.1 exampleRequest.2)) =
        some { mgr := s1, toPush := [], queue := [], running := [], completed := 2,
               phase := Phase.returned } :=
  ⟨by decide, by decide, by decide, by decide,
    ⟨_, rfl, rfl,
      ((wait_returns_after_all_completed (exampleWorld [1, 2] [2] 5) exampleRequest.1
        exampleRequest.2 (by decide)).2.2.1
        [Action.push, Action.take 0, Action.push, Action.beginWait, Action.take 0,
          Action.complete 0, Action.complete 0, Action.wake] _ rfl).2 rfl⟩,
    ⟨_, _, _, rfl,
      (wait_returns_after_all_completed (exampleWorld [1, 2] [2] 5) exampleRequest.1
        exampleRequest.2 (by decide)).2.2.2⟩⟩

end GroupWait

end TransitReader

namespace TransitReader

open TransitReadManager

/-! ## `ClearCache` and the disabled mode -/

theorem sizeSub_exact (a b : Nat) (hb : b ≤ a) (ha : a < sizeMod) : sizeSub a b = a - b := by
  simp only [sizeSub, sizeMod] at ha ⊢
  omega

/-- C11: `ClearCache` (and `OnMwmDeregistered`, which is the same call) on a
region that has an entry subtracts the entry's `m_dataSize` from the total,
removes the entry, leaves every other entry as it is and makes one
`ClearTransitSchemeCache` call for the region; on a region without entry it
returns the manager unchanged. -/
theorem ClearCache_effect (mwmId : MwmId) (s : TransitReadManager)
    (hs : MapOrdered s.m_mwmCache) :
    OnMwmDeregistered mwmId s = ClearCache mwmId s ∧
    (∀ e, mapFind mwmId s.m_mwmCache = some e →
      (ClearCache mwmId s).m_cacheSize = sizeSub s.m_cacheSize e.m_dataSize ∧
      (e.m_dataSize ≤ s.m_cacheSize → s.m_cacheSize < sizeMod →
        (ClearCache mwmId s).m_cacheSize = s.m_cacheSize - e.m_dataSize) ∧
      mapFind mwmId (ClearCache mwmId s).m_mwmCache = none ∧
      (∀ j, j ≠ mwmId →
        mapFind j (ClearCache mwmId s).m_mwmCache = mapFind j s.m_mwmCache) ∧
      (ClearCache mwmId s).m_drapeCalls =
        s.m_drapeCalls ++ [DrapeCall.ClearTransitSchemeCache mwmId]) ∧
    (mapFind mwmId s.m_mwmCache = none → ClearCache mwmId s = s) := by
  refine ⟨rfl, ?_, ClearCache_of_none mwmId s⟩
  intro e he
  have hsize : (ClearCache mwmId s).m_cacheSize = sizeSub s.m_cacheSize e.m_dataSize := by
    simp only [ClearCache, he]
  refine ⟨hsize, ?_, ?_, ?_, ?_⟩
  · intro hle hlt
    rw [hsize]
    exact sizeSub_exact _ _ hle hlt
  · rw [ClearCache_cache]
    exact mapFind_mapErase_self mwmId _ hs
  · intro j hj
    rw [ClearCache_cache]
    exact mapFind_mapErase_ne j mwmId _ hj
  · simp only [ClearCache, he]

theorem ClearCache_effect_witness :
    MapOrdered afterFirstUpdate.m_mwmCache ∧
    mapFind 1 afterFirstUpdate.m_mwmCache =
      some { m_isLoaded := true, m_dataSize := 144, m_lastActiveTime := 5 } ∧
    (ClearCache 1 afterFirstUpdate).m_cacheSize = 0 ∧
    (ClearCache 7 afterFirstUpdate) = afterFirstUpdate ∧
    (OnMwmDeregistered 1 afterFirstUpdate = ClearCache 1 afterFirstUpdate ∧
    (∀ e, mapFind 1 afterFirstUpdate.m_mwmCache = some e →
      (ClearCache 1 afterFirstUpdate).m_cacheSize =
        sizeSub afterFirstUpdate.m_cacheSize e.m_dataSize ∧
      (e.m_dataSize ≤ afterFirstUpdate.m_cacheSize → afterFirstUpdate.m_cacheSize < sizeMod →
        (ClearCache 1 afterFirstUpdate).m_cacheSize =
          afterFirstUpdate.m_cacheSize - e.m_dataSize) ∧
      mapFind 1 (ClearCache 1 afterFirstUpdate).m_mwmCache = none ∧
      (∀ j, j ≠ 1 →
        mapFind j (ClearCache 1 afterFirstUpdate).m_mwmCache =
          mapFind j afterFirstUpdate.m_mwmCache) ∧
      (ClearCache 1 afterFirstUpdate).m_drapeCalls =
        afterFirstUpdate.m_drapeCalls ++ [DrapeCall.ClearTransitSchemeCache 1]) ∧
    (mapFind 1 afterFirstUpdate.m_mwmCache = none →
      ClearCache 1 afterFirstUpdate = afterFirstUpdate)) :=
  ⟨by decide, by decide, by decide, by decide,
    ClearCache_effect 1 afterFirstUpdate (by decide)⟩

theorem UpdateViewport_mode (w : World) (screen : ScreenBase) (s s1 : TransitReadManager)
    (hu : UpdateViewport w screen s = .ok s1) : s1.m_isSchemeMode = s.m_isSchemeMode := by
  have hskip : UpdateViewport w screen s = .ok { s with m_currentModelView := (screen, true) } →
      s1.m_isSchemeMode = s.m_isSchemeMode := by
    intro he
    rw [he] at hu
    cases hu
    rfl
  cases hmode : s.m_isSchemeMode with
  | false => rw [← hmode]; exact hskip (UpdateViewport_disabled w screen s hmode)
  | true =>
    by_cases hzoom : w.GetZoomLevel screen.m_scale < kMinSchemeZoomLevel
    · rw [← hmode]; exact hskip (UpdateViewport_low_zoom w screen s hzoom)
    · exact (UpdateViewport_stores_visible w screen s s1 hmode hzoom hu).2

theorem Invalidate_disabled (w : World) (s : TransitReadManager)
    (h : s.m_isSchemeMode = false) : Invalidate w s = .ok s := by
  simp [Invalidate, h]

theorem Invalidate_enabled (w : World) (s : TransitReadManager)
    (h : s.m_isSchemeMode = true) :
    Invalidate w s =
      if s.m_currentModelView.2 then
        UpdateViewport w s.m_currentModelView.1 { s with m_lastVisibleMwms := [] }
      else .ok { s with m_lastVisibleMwms := [] } := by
  simp [Invalidate, h]

theorem Invalidate_mode (w : World) (s s1 : TransitReadManager)
    (hu : Invalidate w s = .ok s1) : s1.m_isSchemeMode = s.m_isSchemeMode := by
  cases hmode : s.m_isSchemeMode with
  | false =>
    rw [Invalidate_disabled w s hmode] at hu
    cases hu
    exact hmode
  | true =>
    rw [Invalidate_enabled w s hmode] at hu
    split at hu
    · exact (UpdateViewport_mode w _ _ s1 hu).trans hmode
    · cases hu
      exact hmode

theorem EnableTransitSchemeMode_same (w : World) (enable : Bool) (s : TransitReadManager)
    (h : s.m_isSchemeMode = enable) : EnableTransitSchemeMode w enable s = .ok s := by
  simp [EnableTransitSchemeMode, h]

theorem EnableTransitSchemeMode_off (w : World) (s : TransitReadManager)
    (h : s.m_isSchemeMode = true) :
    EnableTransitSchemeMode w false s =
      .ok { s with
              m_isSchemeMode := false, m_lastVisibleMwms := [], m_lastActiveMwms := [],
              m_mwmCache := [], m_cacheSize := 0 } := by
  simp [EnableTransitSchemeMode, h]

theorem EnableTransitSchemeMode_on (w : World) (s : TransitReadManager)
    (h : s.m_isSchemeMode = false) :
    EnableTransitSchemeMode w true s = Invalidate w { s with m_isSchemeMode := true } := by
  simp [EnableTransitSchemeMode, h]

/-- The cache of a manager whose scheme mode is off is empty and its total
is 0. -/
theorem Reachable_disabled_empty (s : TransitReadManager) (h : Reachable s)
    (hoff : s.m_isSchemeMode = false) : s.m_mwmCache = [] ∧ s.m_cacheSize = 0 := by
  induction h with
  | init => exact ⟨rfl, rfl⟩
  | updateViewport w screen s s1 _ hu ih =>
    have hm : s.m_isSchemeMode = false := (UpdateViewport_mode w screen s s1 hu).symm.trans hoff
    rw [UpdateViewport_disabled w screen s hm] at hu
    cases hu
    exact ih hm
  | clearCache mwmId s _ ih =>
    have hm : s.m_isSchemeMode = false := (ClearCache_frame mwmId s).1.symm.trans hoff
    obtain ⟨hc, hz⟩ := ih hm
    have : ClearCache mwmId s = s := ClearCache_of_none mwmId s (by rw [hc]; rfl)
    rw [this]
    exact ⟨hc, hz⟩
  | onMwmDeregistered mwmId s _ ih =>
    have hm : s.m_isSchemeMode = false := (ClearCache_frame mwmId s).1.symm.trans hoff
    obtain ⟨hc, hz⟩ := ih hm
    have : OnMwmDeregistered mwmId s = s := ClearCache_of_none mwmId s (by rw [hc]; rfl)
    rw [this]
    exact ⟨hc, hz⟩
  | enableTransitSchemeMode w enable s s1 _ hu ih =>
    by_cases hsame : s.m_isSchemeMode = enable
    · rw [EnableTransitSchemeMode_same w enable s hsame] at hu
      cases hu
      exact ih hoff
    · cases enable with
      | false =>
        have hm : s.m_isSchemeMode = true := by
          cases hv : s.m_isSchemeMode with
          | false => exact absurd hv hsame
          | true => rfl
        rw [EnableTransitSchemeMode_off w s hm] at hu
        cases hu
        exact ⟨rfl, rfl⟩
      | true =>
        have hm : s.m_isSchemeMode = false := by
          cases hv : s.m_isSchemeMode with
          | false => rfl
          | true => exact absurd hv hsame
        rw [EnableTransitSchemeMode_on w s hm] at hu
        have := Invalidate_mode w _ s1 hu
        rw [hoff] at this
        exact absurd this (by simp)
  | invalidate w s s1 _ hu ih =>
    have hm : s.m_isSchemeMode = false := (Invalidate_mode w s s1 hu).symm.trans hoff
    rw [Invalidate_disabled w s hm] at hu
    cases hu
    exact ih hm

end TransitReader

namespace TransitReader

open TransitReadManager

/-! ## The entries after an update -/

/-- The entry of a region after the first loop of `UpdateViewport`: an alive
region of the visible set has its entry with the current time, created if it
had none; the entry of any other region is as before. -/
theorem foldl_markVisible_find (w : World) (t : TimePoint) (mwms : List MwmId)
    (acc : TransitDisplayInfos × TransitReadManager) (k : MwmId) :
    mapFind k (mwms.foldl (markVisible w t) acc).2.m_mwmCache =
      if k ∈ mwms ∧ w.IsAlive k = true then
        some (match mapFind k acc.2.m_mwmCache with
              | none => { m_lastActiveTime := t }
              | some e => { e with m_lastActiveTime := t })
      else mapFind k acc.2.m_mwmCache := by
  induction mwms generalizing acc with
  | nil => simp
  | cons r rest ih =>
    simp only [List.foldl_cons]
    rw [ih]
    cases ha : w.IsAlive r with
    | false =>
      rw [markVisible_dead w t acc r ha]
      by_cases hk : k = r
      · subst hk
        simp [ha]
      · simp [hk]
    | true =>
      cases hf : mapFind r acc.2.m_mwmCache with
      | none =>
        rw [markVisible_new w t acc r ha hf]
        by_cases hk : k = r
        · subst hk
          simp only [mapFind_mapSet_self, hf, ha, List.mem_cons, true_or, and_self, if_true]
          split <;> rfl
        · simp only [mapFind_mapSet_ne k r _ _ hk, List.mem_cons, hk, false_or]
      | some e =>
        rw [markVisible_old w t acc r ha e hf]
        by_cases hk : k = r
        · subst hk
          simp only [mapFind_mapSet_self, hf, ha, List.mem_cons, true_or, and_self, if_true]
          split <;> rfl
        · simp only [mapFind_mapSet_ne k r _ _ hk, List.mem_cons, hk, false_or]

theorem markedRequests_find (w : World) (screen : ScreenBase) (s : TransitReadManager)
    (k : MwmId) :
    mapFind k (markedRequests w screen s).2.m_mwmCache =
      if k ∈ w.getMwmsByRectFn screen.m_clipRect ∧ w.IsAlive k = true then
        some (match mapFind k s.m_mwmCache with
              | none => { m_lastActiveTime := w.steadyClockNow }
              | some e => { e with m_lastActiveTime := w.steadyClockNow })
      else mapFind k s.m_mwmCache := by
  unfold markedRequests
  exact foldl_markVisible_find w _ _ _ k

theorem mapFind_mapErase_none {β : Type} (j k : Nat) (m : List (Nat × β))
    (h : mapFind j m = none) : mapFind j (mapErase k m) = none := by
  induction m with
  | nil => rfl
  | cons p rest ih =>
    obtain ⟨k1, v1⟩ := p
    by_cases hj : k1 = j
    · simp [mapFind, hj] at h
    · simp only [mapFind, hj, if_false] at h
      unfold mapErase
      by_cases hk : k1 = k
      · simp only [hk, if_true]
        exact h
      · simp only [hk, if_false, mapFind, hj]
        exact ih h

theorem clearAll_find_none (l : List (TimePoint × MwmId)) (s : TransitReadManager) (j : MwmId)
    (h : mapFind j s.m_mwmCache = none) : mapFind j (clearAll l s).m_mwmCache = none := by
  induction l generalizing s with
  | nil => exact h
  | cons t l ih =>
    rw [clearAll_cons]
    apply ih
    rw [ClearCache_cache]
    exact mapFind_mapErase_none j t.2 _ h

theorem ShrinkCacheToAllowableSize_find_none (s : TransitReadManager) (j : MwmId)
    (h : mapFind j s.m_mwmCache = none) :
    mapFind j (ShrinkCacheToAllowableSize s).m_mwmCache = none := by
  unfold ShrinkCacheToAllowableSize
  split
  · obtain ⟨done, rest, -, h2, -⟩ :=
      shrinkLoop_eq_clearAll (collectSeenTimings s.m_lastActiveMwms s.m_mwmCache) s
    rw [h2]
    exact clearAll_find_none done s j h
  · exact h

/-- An entry found after `ShrinkCacheToAllowableSize` was there before, the
same. -/
theorem ShrinkCacheToAllowableSize_find_some (s : TransitReadManager)
    (hs : MapOrdered s.m_mwmCache) (j : MwmId) (e : CacheEntry)
    (h : mapFind j (ShrinkCacheToAllowableSize s).m_mwmCache = some e) :
    mapFind j s.m_mwmCache = some e := by
  unfold ShrinkCacheToAllowableSize at h
  split at h
  · obtain ⟨done, rest, -, h2, -⟩ :=
      shrinkLoop_eq_clearAll (collectSeenTimings s.m_lastActiveMwms s.m_mwmCache) s
    rw [h2] at h
    by_cases hin : ∃ t, (t, j) ∈ done
    · rw [clearAll_find_of_mem done s hs j hin] at h
      exact absurd h (by simp)
    · rw [clearAll_find_of_not_mem done s j (fun t ht => hin ⟨t, ht⟩)] at h
      exact h
  · exact h

/-- The cache at the end of a call of `UpdateViewport` that passes the three
early returns: with `out` the map returned by `GetTransitDisplayInfo`, the
entry of a region is the one left by the first loop, marked loaded with the
cost of its dataset when `out` holds one, unless it was evicted. -/
theorem finishUpdate_find (mwms : List MwmId) (out : TransitDisplayInfos)
    (s2 : TransitReadManager) (hout : MapOrdered out) (k : MwmId) :
    (k ∈ s2.m_lastActiveMwms →
      mapFind k (finishUpdate mwms out s2).m_mwmCache =
        match mapFind k out with
        | some (some info) =>
          (mapFind k s2.m_mwmCache).map
            (fun e => { e with m_isLoaded := true, m_dataSize := CalculateCacheSize info })
        | _ => mapFind k s2.m_mwmCache) ∧
    (mapFind k s2.m_mwmCache = none → mapFind k (finishUpdate mwms out s2).m_mwmCache = none) := by
  unfold finishUpdate
  split
  · constructor
    · intro hk
      have hact : k ∈ (out.foldl recordLoaded s2).m_lastActiveMwms := by
        rw [(foldl_recordLoaded_frame out s2).2.2.2.1]
        exact hk
      simp only
      rw [ShrinkCacheToAllowableSize_find_active _ k hact]
      exact foldl_recordLoaded_find out s2 hout k
    · intro hnone
      simp only
      apply ShrinkCacheToAllowableSize_find_none
      rw [foldl_recordLoaded_find out s2 hout k, hnone]
      split <;> rfl
  · rename_i hempty
    have : out = [] := by
      by_contra hne
      exact hempty hne
    subst this
    exact ⟨fun _ => rfl, fun h => h⟩

end TransitReader

namespace TransitReader

open TransitReadManager

theorem mapFind_none_of_not_mem {β : Type} (k : Nat) (m : List (Nat × β))
    (h : k ∉ mapKeys m) : mapFind k m = none := by
  cases hf : mapFind k m with
  | none => rfl
  | some v => exact absurd (mem_mapKeys_of_mapFind k v m hf) h

/-- The entries at the end of a call of `UpdateViewport` that passes the three
early returns: the entry of an active region has the current time, and it is
the earlier entry with only the time replaced when the region had one; a
region that is not alive and had no entry has none. -/
theorem UpdateViewport_final_entries (w : World) (screen : ScreenBase) (s : TransitReadManager)
    (hmode : s.m_isSchemeMode = true)
    (hzoom : ¬ w.GetZoomLevel screen.m_scale < kMinSchemeZoomLevel)
    (hchg : s.m_lastVisibleMwms ≠ w.getMwmsByRectFn screen.m_clipRect) :
    ∃ s1, UpdateViewport w screen s = .ok s1 ∧
      s1.m_lastVisibleMwms = w.getMwmsByRectFn screen.m_clipRect ∧
      (∀ k, k ∈ s1.m_lastActiveMwms ↔
        k ∈ w.getMwmsByRectFn screen.m_clipRect ∧ w.IsAlive k = true) ∧
      (∀ k ∈ s1.m_lastActiveMwms, ∃ e1, mapFind k s1.m_mwmCache = some e1 ∧
        e1.m_lastActiveTime = w.steadyClockNow ∧
        ∀ e, mapFind k s.m_mwmCache = some e →
          e1 = { e with m_lastActiveTime := w.steadyClockNow }) ∧
      (∀ k, ¬ (k ∈ w.getMwmsByRectFn screen.m_clipRect ∧ w.IsAlive k = true) →
        mapFind k s.m_mwmCache = none → mapFind k s1.m_mwmCache = none) := by
  generalize hg : (s.m_nextTasksGroupId + 1) % sizeMod = groupId
  obtain ⟨s2, hu, -, hact, hcache, -, -⟩ :=
    UpdateViewport_anatomy w screen s hmode hzoom hchg groupId hg
  obtain ⟨hord, -⟩ := markedRequests_requests w screen s
  generalize hout : (markedRequests w screen s).1.map
    (fun p => (p.1, taskOutcome w groupId p.1 none)) = out at hu
  have hkeys : mapKeys out = mapKeys (markedRequests w screen s).1 := by
    rw [← hout]
    exact mapKeys_map_values (fun k _ => taskOutcome w groupId k none) _
  have hordout : MapOrdered out := by
    unfold MapOrdered
    rw [hkeys]
    exact hord
  obtain ⟨-, -, -, f4, -⟩ := finishUpdate_frame (w.getMwmsByRectFn screen.m_clipRect) out s2
  have hactive : ∀ k, k ∈ (finishUpdate (w.getMwmsByRectFn screen.m_clipRect) out s2).m_lastActiveMwms ↔
      k ∈ w.getMwmsByRectFn screen.m_clipRect ∧ w.IsAlive k = true := by
    intro k
    rw [f4, hact]
    exact markedRequests_active w screen s k
  refine ⟨_, hu, (UpdateViewport_stores_visible w screen s _ hmode hzoom hu).1, hactive, ?_, ?_⟩
  · intro k hk
    have hk2 := (hactive k).mp hk
    have hk3 : k ∈ s2.m_lastActiveMwms := by
      rw [hact]
      exact (markedRequests_active w screen s k).mpr hk2
    have hfin := (finishUpdate_find (w.getMwmsByRectFn screen.m_clipRect) out s2 hordout k).1 hk3
    have hmark := markedRequests_find w screen s k
    rw [if_pos hk2] at hmark
    rw [hcache, hmark] at hfin
    cases hf : mapFind k s.m_mwmCache with
    | some e =>
      have hnotreq : k ∉ mapKeys out := by
        rw [hkeys, markedRequests_keys, hf]
        intro h
        exact absurd h.2.2 (by simp)
      rw [mapFind_none_of_not_mem k out hnotreq, hf] at hfin
      refine ⟨_, hfin, rfl, ?_⟩
      intro e0 he0
      rw [← Option.some.inj he0]
    | none =>
      rw [hf] at hfin
      cases hres : mapFind k out with
      | none =>
        rw [hres] at hfin
        exact ⟨_, hfin, rfl, fun e0 he0 => by simp at he0⟩
      | some v =>
        cases v with
        | none =>
          rw [hres] at hfin
          exact ⟨_, hfin, rfl, fun e0 he0 => by simp at he0⟩
        | some info =>
          rw [hres] at hfin
          exact ⟨_, hfin, rfl, fun e0 he0 => by simp at he0⟩
  · intro k hk hnone
    apply (finishUpdate_find (w.getMwmsByRectFn screen.m_clipRect) out s2 hordout k).2
    rw [hcache, markedRequests_find w screen s k, if_neg hk]
    exact hnone

/-- C13: in a call of `UpdateViewport` that passes the three early returns,
after the first loop `m_lastActiveMwms` holds exactly the alive regions of the
new visible set, each of them has an entry with the current time (a new entry,
not loaded and of size 0, when it had none, its earlier entry with only
`m_lastActiveTime` replaced otherwise) and the entry of every other region is
as before; at the end of the call the active set is the same, every active
region has an entry with the current time, an active region that had an entry
keeps its `m_isLoaded` and `m_dataSize`, and a region that is not alive and had
no entry has none. -/
theorem UpdateViewport_marks_active (w : World) (screen : ScreenBase) (s : TransitReadManager)
    (hmode : s.m_isSchemeMode = true)
    (hzoom : ¬ w.GetZoomLevel screen.m_scale < kMinSchemeZoomLevel)
    (hchg : s.m_lastVisibleMwms ≠ w.getMwmsByRectFn screen.m_clipRect) :
    ((∀ k, k ∈ (markedRequests w screen s).2.m_lastActiveMwms ↔
        k ∈ w.getMwmsByRectFn screen.m_clipRect ∧ w.IsAlive k = true) ∧
      (∀ k, k ∈ w.getMwmsByRectFn screen.m_clipRect → w.IsAlive k = true →
        mapFind k (markedRequests w screen s).2.m_mwmCache =
          some (match mapFind k s.m_mwmCache with
                | none =>
                  { m_isLoaded := false, m_dataSize := 0,
                    m_lastActiveTime := w.steadyClockNow }
                | some e => { e with m_lastActiveTime := w.steadyClockNow })) ∧
      (∀ k, ¬ (k ∈ w.getMwmsByRectFn screen.m_clipRect ∧ w.IsAlive k = true) →
        mapFind k (markedRequests w screen s).2.m_mwmCache = mapFind k s.m_mwmCache)) ∧
    ∃ s1, UpdateViewport w screen s = .ok s1 ∧
      s1.m_lastVisibleMwms = w.getMwmsByRectFn screen.m_clipRect ∧
      (∀ k, k ∈ s1.m_lastActiveMwms ↔
        k ∈ w.getMwmsByRectFn screen.m_clipRect ∧ w.IsAlive k = true) ∧
      (∀ k ∈ s1.m_lastActiveMwms, ∃ e1, mapFind k s1.m_mwmCache = some e1 ∧
        e1.m_lastActiveTime = w.steadyClockNow ∧
        ∀ e, mapFind k s.m_mwmCache = some e →
          e1.m_isLoaded = e.m_isLoaded ∧ e1.m_dataSize = e.m_dataSize) ∧
      (∀ k, w.IsAlive k = false → mapFind k s.m_mwmCache = none →
        mapFind k s1.m_mwmCache = none) := by
  refine ⟨⟨markedRequests_active w screen s, ?_, ?_⟩, ?_⟩
  · intro k hk ha
    rw [markedRequests_find w screen s k, if_pos ⟨hk, ha⟩]
  · intro k hk
    rw [markedRequests_find w screen s k, if_neg hk]
  · obtain ⟨s1, hu, hvis, hact, hentries, hdead⟩ :=
      UpdateViewport_final_entries w screen s hmode hzoom hchg
    refine ⟨s1, hu, hvis, hact, ?_, ?_⟩
    · intro k hk
      obtain ⟨e1, h1, h2, h3⟩ := hentries k hk
      refine ⟨e1, h1, h2, ?_⟩
      intro e he
      rw [h3 e he]
      exact ⟨rfl, rfl⟩
    · intro k hk hnone
      apply hdead k _ hnone
      intro h
      rw [hk] at h
      exact absurd h.2 (by simp)

theorem UpdateViewport_marks_active_witness :
    afterFirstUpdate.m_isSchemeMode = true ∧
    UpdateViewport (exampleWorld [2, 3] [] 9) { m_clipRect := 1 } afterFirstUpdate =
      .ok afterSecondUpdate ∧
    ∃ s1, UpdateViewport (exampleWorld [2, 3] [] 9) { m_clipRect := 1 } afterFirstUpdate = .ok s1 ∧
      s1.m_lastVisibleMwms = [2, 3] ∧
      (∀ k, k ∈ s1.m_lastActiveMwms ↔
        k ∈ [2, 3] ∧ (exampleWorld [2, 3] [] 9).IsAlive k = true) ∧
      (∀ k ∈ s1.m_lastActiveMwms, ∃ e1, mapFind k s1.m_mwmCache = some e1 ∧
        e1.m_lastActiveTime = 9 ∧
        ∀ e, mapFind k afterFirstUpdate.m_mwmCache = some e →
          e1.m_isLoaded = e.m_isLoaded ∧ e1.m_dataSize = e.m_dataSize) ∧
      (∀ k, (exampleWorld [2, 3] [] 9).IsAlive k = false →
        mapFind k afterFirstUpdate.m_mwmCache = none → mapFind k s1.m_mwmCache = none) :=
  ⟨rfl, afterSecondUpdate_eq,
    (UpdateViewport_marks_active (exampleWorld [2, 3] [] 9) { m_clipRect := 1 } afterFirstUpdate
      rfl (by decide) (by decide)).2⟩

/-- Every entry of the cache after `UpdateViewport` on a manager whose cache
was empty has the current time: it was created by this call. -/
theorem UpdateViewport_fresh_entries (w : World) (screen : ScreenBase)
    (s s1 : TransitReadManager) (hempty : s.m_mwmCache = [])
    (hu : UpdateViewport w screen s = .ok s1) (k : MwmId) (e : CacheEntry)
    (hk : mapFind k s1.m_mwmCache = some e) : e.m_lastActiveTime = w.steadyClockNow := by
  have hskip : UpdateViewport w screen s = .ok { s with m_currentModelView := (screen, true) } →
      e.m_lastActiveTime = w.steadyClockNow := by
    intro he
    rw [he] at hu
    cases hu
    simp only [hempty, mapFind] at hk
    exact absurd hk (by simp)
  cases hmode : s.m_isSchemeMode with
  | false => exact hskip (UpdateViewport_disabled w screen s hmode)
  | true =>
    by_cases hzoom : w.GetZoomLevel screen.m_scale < kMinSchemeZoomLevel
    · exact hskip (UpdateViewport_low_zoom w screen s hzoom)
    · by_cases hchg : s.m_lastVisibleMwms = w.getMwmsByRectFn screen.m_clipRect
      · exact hskip (UpdateViewport_unchanged w screen s hchg)
      · obtain ⟨s1b, hub, -, hact, hentries, hdead⟩ :=
          UpdateViewport_final_entries w screen s hmode hzoom hchg
        rw [hu] at hub
        cases hub
        by_cases hin : k ∈ w.getMwmsByRectFn screen.m_clipRect ∧ w.IsAlive k = true
        · obtain ⟨e1, h1, h2, -⟩ := hentries k ((hact k).mpr hin)
          rw [hk] at h1
          rw [Option.some.inj h1]
          exact h2
        · have := hdead k hin (by rw [hempty]; rfl)
          rw [hk] at this
          exact absurd this (by simp)

end TransitReader

namespace TransitReader

open TransitReadManager

theorem afterDisable_eq :
    EnableTransitSchemeMode (exampleWorld [] [] 0) false afterFirstUpdate = .ok afterDisable := by
  rfl

theorem afterDisable_reachable : Reachable afterDisable :=
  Reachable.enableTransitSchemeMode _ _ _ _ afterFirstUpdate_reachable afterDisable_eq

/-- Every entry of the cache after `EnableTransitSchemeMode(true)` on a manager
whose scheme mode is off and whose cache is empty was created by this call. -/
theorem EnableTransitSchemeMode_fresh_entries (w : World) (s s1 : TransitReadManager)
    (hoff : s.m_isSchemeMode = false) (hempty : s.m_mwmCache = [])
    (hu : EnableTransitSchemeMode w true s = .ok s1) (k : MwmId) (e : CacheEntry)
    (hk : mapFind k s1.m_mwmCache = some e) : e.m_lastActiveTime = w.steadyClockNow := by
  rw [EnableTransitSchemeMode_on w s hoff, Invalidate_enabled w _ rfl] at hu
  split at hu
  · exact UpdateViewport_fresh_entries w _ _ s1 (by exact hempty) hu k e hk
  · cases hu
    simp only [hempty, mapFind] at hk
    exact absurd hk (by simp)

/-- C12: `EnableTransitSchemeMode(false)` on a manager in scheme mode returns
the manager with the mode off, `m_lastVisibleMwms`, `m_lastActiveMwms` and
`m_mwmCache` empty and `m_cacheSize` 0; in every reachable state whose scheme
mode is off the cache is empty and the total is 0, so every entry found after
the mode is enabled again was created by the enabling call. -/
theorem disabled_mode_cache_empty (w : World) (s : TransitReadManager) (h : Reachable s) :
    (s.m_isSchemeMode = true →
      EnableTransitSchemeMode w false s =
        .ok { s with
                m_isSchemeMode := false, m_lastVisibleMwms := [], m_lastActiveMwms := [],
                m_mwmCache := [], m_cacheSize := 0 }) ∧
    (s.m_isSchemeMode = false →
      s.m_mwmCache = [] ∧ s.m_cacheSize = 0 ∧
      ∀ s1, EnableTransitSchemeMode w true s = .ok s1 →
        ∀ k e, mapFind k s1.m_mwmCache = some e → e.m_lastActiveTime = w.steadyClockNow) := by
  refine ⟨EnableTransitSchemeMode_off w s, ?_⟩
  intro hoff
  obtain ⟨hc, hz⟩ := Reachable_disabled_empty s h hoff
  exact ⟨hc, hz, fun s1 hu k e hk => EnableTransitSchemeMode_fresh_entries w s s1 hoff hc hu k e hk⟩

theorem disabled_mode_cache_empty_witness :
    Reachable afterFirstUpdate ∧ Reachable afterDisable ∧
    afterFirstUpdate.m_mwmCache ≠ [] ∧
    EnableTransitSchemeMode (exampleWorld [1] [] 20) false afterFirstUpdate = .ok afterDisable ∧
    (afterDisable.m_mwmCache = [] ∧ afterDisable.m_cacheSize = 0 ∧
      ∀ s1, EnableTransitSchemeMode (exampleWorld [1] [] 20) true afterDisable = .ok s1 →
        ∀ k e, mapFind k s1.m_mwmCache = some e →
          e.m_lastActiveTime = (exampleWorld [1] [] 20).steadyClockNow) :=
  ⟨afterFirstUpdate_reachable, afterDisable_reachable, by decide,
    (disabled_mode_cache_empty (exampleWorld [1] [] 20) afterFirstUpdate
      afterFirstUpdate_reachable).1 rfl,
    (disabled_mode_cache_empty (exampleWorld [1] [] 20) afterDisable afterDisable_reachable).2
      rfl⟩

end TransitReader

namespace TransitReader

open TransitReadManager

/-! ## `ReadTransitTask::Do` and `CalculateCacheSize` -/

/-- C14: `Do` on a region whose handle is not alive returns (no `CHECK` is
raised) with `m_success` false and every other member of the task, its dataset
included, as it was, whatever `m_loadSubset` is; the result does not depend on
the container of the region. -/
theorem Do_handle_not_alive (w : World) (task : ReadTransitTask)
    (h : w.handleIsAlive task.m_mwmId = false) :
    task.Do w = .ok { task with m_success := false } ∧
    (∀ done, task.Do w = .ok done →
      done.GetSuccess = false ∧ done.GetTransitInfo = task.m_transitInfo) ∧
    (∀ w2 : World, w2.handleIsAlive task.m_mwmId = false → task.Do w2 = task.Do w) := by
  have hdo := Do_not_alive w task h
  refine ⟨hdo, ?_, ?_⟩
  · intro done hd
    rw [hdo] at hd
    cases hd
    exact ⟨rfl, rfl⟩
  · intro w2 h2
    rw [hdo, Do_not_alive w2 task h2]

theorem Do_handle_not_alive_witness :
    (exampleWorld [1, 2] [2] 5).handleIsAlive
      (ReadTransitTask.Init {} 7 2 (some { m_shapes := [(4, [(0, 0)])] })).m_mwmId = false ∧
    (ReadTransitTask.Init {} 7 2 (some { m_shapes := [(4, [(0, 0)])] })).Do
        (exampleWorld [1, 2] [2] 5) =
      .ok { m_id := 7, m_mwmId := 2, m_loadSubset := true,
            m_transitInfo := some { m_shapes := [(4, [(0, 0)])] }, m_success := false } ∧
    (ReadTransitTask.Init {} 7 2 none).Do (exampleWorld [1, 2] [2] 5) =
      .ok { m_id := 7, m_mwmId := 2, m_loadSubset := false,
            m_transitInfo := some {}, m_success := false } :=
  ⟨rfl,
    (Do_handle_not_alive (exampleWorld [1, 2] [2] 5)
      (ReadTransitTask.Init {} 7 2 (some { m_shapes := [(4, [(0, 0)])] })) rfl).1,
    rfl⟩

/-- C15: `Do` on a region whose handle is alive and whose container has no
transit section: after `Init` without a prior dataset it returns with
`m_success` true and the empty dataset `Init` created; after `Init` with a
prior dataset it stops at the `CHECK` and returns nothing. -/
theorem Do_section_missing (w : World) (task : ReadTransitTask) (id : Nat) (mwmId : MwmId)
    (ha : w.handleIsAlive mwmId = true) (he : w.transitSectionExists mwmId = false) :
    (task.Init id mwmId none).Do w =
      .ok { m_id := id, m_mwmId := mwmId, m_loadSubset := false, m_transitInfo := some {},
            m_success := true } ∧
    ∀ prior, (task.Init id mwmId (some prior)).Do w = .error Fault.checkFailed := by
  constructor
  · rw [Do_fullLoad_no_section w _ ha rfl he]
    rfl
  · intro prior
    simp [ReadTransitTask.Do, ReadTransitTask.Init, ha, he]

theorem Do_section_missing_witness :
    (noSectionWorld [1] [] 3).handleIsAlive 1 = true ∧
    (noSectionWorld [1] [] 3).transitSectionExists 1 = false ∧
    ((ReadTransitTask.Init {} 7 1 none).Do (noSectionWorld [1] [] 3) =
      .ok { m_id := 7, m_mwmId := 1, m_loadSubset := false, m_transitInfo := some {},
            m_success := true } ∧
    ∀ prior, (ReadTransitTask.Init {} 7 1 (some prior)).Do (noSectionWorld [1] [] 3) =
      .error Fault.checkFailed) :=
  ⟨rfl, rfl, Do_section_missing (noSectionWorld [1] [] 3) {} 7 1 rfl rfl⟩

theorem CalculateCacheSize_foldl (shapes : List (Nat × List (Int × Int))) (acc : Nat) :
    (shapes.foldl
        (fun cacheSize shape => sizeAdd cacheSize (sizeMul shape.2.length kSegmentSize)) acc)
          % sizeMod =
      (acc + 72 * (shapes.map (fun shape => shape.2.length)).sum) % sizeMod ∧
    (acc < sizeMod →
      shapes.foldl
        (fun cacheSize shape => sizeAdd cacheSize (sizeMul shape.2.length kSegmentSize)) acc
          < sizeMod) := by
  induction shapes generalizing acc with
  | nil => simp
  | cons shape rest ih =>
    simp only [List.foldl_cons, List.map_cons, List.sum_cons]
    obtain ⟨h1, h2⟩ := ih (sizeAdd acc (sizeMul shape.2.length kSegmentSize))
    constructor
    · rw [h1]
      generalize (rest.map (fun shape => shape.2.length)).sum = total
      generalize shape.2.length = n
      simp only [sizeAdd, sizeMul, sizeMod, kSegmentSize]
      omega
    · intro _
      apply h2
      generalize shape.2.length = n
      simp only [sizeAdd, sizeMul, sizeMod, kSegmentSize]
      omega

/-- C17: `CalculateCacheSize` returns, as a `size_t`, 72 times the number of
polyline points of all the shapes of the dataset, and 0 for a dataset without
shapes. -/
theorem CalculateCacheSize_eq (transitInfo : TransitDisplayInfo) :
    CalculateCacheSize transitInfo =
      (72 * (transitInfo.m_shapes.map (fun shape => shape.2.length)).sum) % sizeMod ∧
    CalculateCacheSize { m_shapes := [] } = 0 := by
  obtain ⟨h1, h2⟩ := CalculateCacheSize_foldl transitInfo.m_shapes 0
  refine ⟨?_, rfl⟩
  unfold CalculateCacheSize
  rw [Nat.zero_add] at h1
  rw [← h1]
  exact (Nat.mod_eq_of_lt (h2 (by decide))).symm

end TransitReader

namespace TransitReader

open TransitReadManager

/-! ## The result of `GetTransitDisplayInfo` and the group ids -/

theorem runTasks_returns (w : World) (tasks : List (MwmId × ReadTransitTask))
    (s : TransitReadManager) (h : ∀ p ∈ tasks, ∃ done, p.2.Do w = .ok done) :
    ∃ done s1, runTasks w tasks s = .ok (done, s1) := by
  induction tasks generalizing s with
  | nil => exact ⟨[], s, rfl⟩
  | cons p rest ih =>
    obtain ⟨k, t⟩ := p
    obtain ⟨d, hd⟩ := h (k, t) (List.mem_cons_self _ _)
    simp only at hd
    obtain ⟨done, s1, hr⟩ :=
      ih (OnTaskCompleted d s) (fun q hq => h q (List.mem_cons_of_mem _ hq))
    exact ⟨(k, d) :: done, s1, by simp [runTasks, hd, hr]⟩

theorem all_map_eq {α β : Type} (f : α → β) (p : β → Bool) (l : List α) :
    (l.map f).all p = l.all (fun a => p (f a)) := by
  induction l with
  | nil => rfl
  | cons a rest ih => simp only [List.map_cons, List.all_cons, ih]

theorem collectResults_result (done : List (MwmId × ReadTransitTask))
    (acc : TransitDisplayInfos) (r : Bool) :
    (collectResults done (acc, r)).2 = (r && done.all (fun p => p.2.GetSuccess)) := by
  induction done generalizing acc r with
  | nil => simp [collectResults]
  | cons p rest ih =>
    obtain ⟨k, t⟩ := p
    unfold collectResults
    cases hs : t.GetSuccess with
    | false => simp [hs, ih]
    | true => simp [hs, ih]

/-- The counter after `GetTransitDisplayInfo`: the group id of the call. -/
theorem GetTransitDisplayInfo_counter (w : World) (infos out : TransitDisplayInfos) (r : Bool)
    (s s1 : TransitReadManager) (h : GetTransitDisplayInfo w infos s = .ok (out, r, s1)) :
    s1.m_nextTasksGroupId = (s.m_nextTasksGroupId + 1) % sizeMod := by
  rw [GetTransitDisplayInfo_unfold] at h
  generalize (s.m_nextTasksGroupId + 1) % sizeMod = groupId at h ⊢
  simp only at h
  split at h
  · cases h
  · rename_i doneTasks s4 hr
    split at h
    · simp only [Except.ok.injEq, Prod.mk.injEq] at h
      obtain ⟨-, -, h3⟩ := h
      have := (runTasks_spec w _ doneTasks _ s4 hr).2.2.2.2.2.2.2.2.2
      rw [← h3]
      exact this
    · cases h

/-- What `GetTransitDisplayInfo` returns when no task stops at the `CHECK`:
the call returns, and its boolean tells whether every task succeeded. -/
theorem GetTransitDisplayInfo_returns_result (w : World) (infos : TransitDisplayInfos)
    (s : TransitReadManager) (groupId : Nat)
    (hg : (s.m_nextTasksGroupId + 1) % sizeMod = groupId) (hinfos : MapOrdered infos)
    (hcheck : ∀ p ∈ infos, ∃ done, (ReadTransitTask.Init {} groupId p.1 p.2).Do w = .ok done) :
    ∃ out s1,
      GetTransitDisplayInfo w infos s =
        .ok (out,
          infos.all (fun p => (doneTask w (ReadTransitTask.Init {} groupId p.1 p.2)).GetSuccess),
          s1) := by
  rw [GetTransitDisplayInfo_unfold]
  rw [hg]
  have hfold := foldl_mapSet_ordered
    (fun p : MwmId × Option TransitDisplayInfo => ReadTransitTask.Init {} groupId p.1 p.2)
    infos [] hinfos (by simp [mapKeys])
  simp only [List.nil_append] at hfold
  simp only [hfold]
  generalize htasks :
    infos.map (fun p => (p.1, ReadTransitTask.Init {} groupId p.1 p.2)) = tasks
  have hok : ∀ p ∈ tasks, ∃ done, p.2.Do w = .ok done := by
    intro p hp
    rw [← htasks] at hp
    obtain ⟨q, hq, rfl⟩ := List.mem_map.mp hp
    exact hcheck q hq
  have hid : ∀ p ∈ tasks, p.2.m_id = groupId := by
    intro p hp
    rw [← htasks] at hp
    obtain ⟨q, _, rfl⟩ := List.mem_map.mp hp
    exact Init_id {} groupId q.1 q.2
  obtain ⟨done, s4, hr⟩ := runTasks_returns w tasks
    { s with
        m_nextTasksGroupId := groupId,
        m_tasksGroups := mapSet groupId tasks.length s.m_tasksGroups,
        m_pushedTasks := s.m_pushedTasks ++ tasks.map (fun t => (groupId, t.1)) } hok
  obtain ⟨c1, c2⟩ := runTasks_pendingCount w groupId tasks done _ s4 hr hid
  have hstart : pendingCount
      { s with
          m_nextTasksGroupId := groupId,
          m_tasksGroups := mapSet groupId tasks.length s.m_tasksGroups,
          m_pushedTasks := s.m_pushedTasks ++ tasks.map (fun t => (groupId, t.1)) } groupId =
      tasks.length := getD_mapFind_mapSet groupId _ s.m_tasksGroups
  rw [hstart] at c1
  have hzero : pendingCount s4 groupId = 0 := by
    by_cases he : tasks = []
    · subst he
      simp only [runTasks, Except.ok.injEq, Prod.mk.injEq] at hr
      rw [← hr.2, hstart]
      rfl
    · have := c2 he
      simp only [sizeMod] at c1 this
      omega
  have hdone := (runTasks_spec w tasks done _ s4 hr).1
  simp only [hr]
  unfold pendingCount at hzero
  simp only [hzero, if_true]
  have hres : (collectResults done
      (infos.map (fun p => (p.1, (none : Option TransitDisplayInfo))), true)).2 =
      infos.all
        (fun p => (doneTask w (ReadTransitTask.Init {} groupId p.1 p.2)).GetSuccess) := by
    rw [collectResults_result, hdone, ← htasks, List.map_map, all_map_eq]
    rfl
  rw [hres]
  exact ⟨_, _, rfl⟩

end TransitReader

namespace TransitReader

open TransitReadManager

theorem Init_dataset (task : ReadTransitTask) (groupId : Nat) (k : MwmId)
    (v : Option TransitDisplayInfo) :
    ∃ info, (ReadTransitTask.Init task groupId k v).m_transitInfo = some info := by
  cases v with
  | none => exact ⟨{}, rfl⟩
  | some prior => exact ⟨prior, rfl⟩

/-- C16: when no task of the group stops at the `CHECK`, `GetTransitDisplayInfo`
returns, whatever tasks succeed or fail; it returns `true` if and only if every
task succeeded; the returned map has the requested regions as keys and holds,
under each of them, the dataset of the task when the task succeeded and a null
pointer when it failed. -/
theorem GetTransitDisplayInfo_result (w : World) (infos : TransitDisplayInfos)
    (s : TransitReadManager) (hinfos : MapOrdered infos)
    (hcheck : ∀ p ∈ infos, ∃ done,
      (ReadTransitTask.Init {} ((s.m_nextTasksGroupId + 1) % sizeMod) p.1 p.2).Do w = .ok done) :
    ∃ out r s1, GetTransitDisplayInfo w infos s = .ok (out, r, s1) ∧
      (r = true ↔ ∀ p ∈ infos, ∀ done,
        (ReadTransitTask.Init {} ((s.m_nextTasksGroupId + 1) % sizeMod) p.1 p.2).Do w = .ok done →
          done.GetSuccess = true) ∧
      mapKeys out = mapKeys infos ∧
      ∀ p ∈ infos, ∀ done,
        (ReadTransitTask.Init {} ((s.m_nextTasksGroupId + 1) % sizeMod) p.1 p.2).Do w = .ok done →
          (done.GetSuccess = true →
            ∃ info, done.GetTransitInfo = some info ∧ mapFind p.1 out = some (some info)) ∧
          (done.GetSuccess = false → mapFind p.1 out = some none) := by
  generalize hg : (s.m_nextTasksGroupId + 1) % sizeMod = groupId at hcheck ⊢
  obtain ⟨out, s1, hget⟩ := GetTransitDisplayInfo_returns_result w infos s groupId hg hinfos hcheck
  obtain ⟨⟨-, hkeys, hfind⟩, -⟩ :=
    GetTransitDisplayInfo_spec w infos out _ s s1 groupId hg hinfos hget
  refine ⟨out, _, s1, hget, ?_, hkeys, ?_⟩
  · rw [List.all_eq_true]
    constructor
    · intro h p hp done hd
      have := h p hp
      rw [doneTask_of_ok w _ done hd] at this
      exact this
    · intro h p hp
      obtain ⟨done, hd⟩ := hcheck p hp
      rw [doneTask_of_ok w _ done hd]
      exact h p hp done hd
  · intro p hp done hd
    have hp2 : mapFind p.1 infos = some p.2 := mapFind_of_mem p.1 p.2 infos hinfos hp
    have hout := hfind p.1
    rw [hp2, Option.map_some', taskOutcome_of_Do w groupId p.1 p.2 done hd] at hout
    constructor
    · intro hs
      obtain ⟨info, hinfo⟩ := Do_keeps_dataset w _ done hd (Init_dataset {} groupId p.1 p.2)
      refine ⟨info, hinfo, ?_⟩
      rw [hout]
      simp only [hs, if_true, ReadTransitTask.GetTransitInfo, hinfo]
    · intro hs
      rw [hout]
      simp only [hs, Bool.false_eq_true, if_false]

theorem GetTransitDisplayInfo_result_witness :
    MapOrdered ([(1, none), (2, some { m_shapes := [] })] : TransitDisplayInfos) ∧
    ∃ out r s1,
      GetTransitDisplayInfo (exampleWorld [1, 2] [2] 5) [(1, none), (2, some { m_shapes := [] })]
        enabledManager = .ok (out, r, s1) ∧
      (r = true ↔ ∀ p ∈ ([(1, none), (2, some { m_shapes := [] })] : TransitDisplayInfos),
        ∀ done,
          (ReadTransitTask.Init {} ((enabledManager.m_nextTasksGroupId + 1) % sizeMod) p.1 p.2).Do
              (exampleWorld [1, 2] [2] 5) = .ok done →
            done.GetSuccess = true) ∧
      mapKeys out = mapKeys ([(1, none), (2, some { m_shapes := [] })] : TransitDisplayInfos) ∧
      ∀ p ∈ ([(1, none), (2, some { m_shapes := [] })] : TransitDisplayInfos), ∀ done,
        (ReadTransitTask.Init {} ((enabledManager.m_nextTasksGroupId + 1) % sizeMod) p.1 p.2).Do
            (exampleWorld [1, 2] [2] 5) = .ok done →
          (done.GetSuccess = true →
            ∃ info, done.GetTransitInfo = some info ∧ mapFind p.1 out = some (some info)) ∧
          (done.GetSuccess = false → mapFind p.1 out = some none) :=
  ⟨by decide,
    GetTransitDisplayInfo_result (exampleWorld [1, 2] [2] 5)
      [(1, none), (2, some { m_shapes := [] })] enabledManager (by decide)
      (by
        intro p hp
        simp only [List.mem_cons, List.mem_singleton, List.not_mem_nil, or_false] at hp
        rcases hp with rfl | rfl
        · exact ⟨_, rfl⟩
        · exact ⟨_, rfl⟩)⟩

end TransitReader

namespace TransitReader

open TransitReadManager

theorem registerGroup_groupId (infos : TransitDisplayInfos) (s : TransitReadManager) :
    (registerGroup infos s).groupId = (s.m_nextTasksGroupId + 1) % sizeMod ∧
    (registerGroup infos s).registered.m_nextTasksGroupId = (registerGroup infos s).groupId ∧
    (registerGroup infos s).registered.m_tasksGroups =
      mapSet (registerGroup infos s).groupId (registerGroup infos s).transitTasks.length
        s.m_tasksGroups :=
  ⟨rfl, rfl, rfl⟩

/-- The pushes of a call of `GetTransitDisplayInfo` that returns, as the pool
received them: one per task of the group, with the id the task carries. -/
theorem GetTransitDisplayInfo_pushes (w : World) (infos out : TransitDisplayInfos) (r : Bool)
    (s s1 : TransitReadManager) (h : GetTransitDisplayInfo w infos s = .ok (out, r, s1)) :
    s1.m_pushedTasks =
      s.m_pushedTasks ++
        (registerGroup infos s).transitTasks.map (fun t => (t.2.GetId, t.2.m_mwmId)) := by
  unfold GetTransitDisplayInfo at h
  simp only at h
  split at h
  · cases h
  · rename_i doneTasks s4 hr
    split at h
    · simp only [Except.ok.injEq, Prod.mk.injEq] at h
      obtain ⟨-, -, h3⟩ := h
      have hp := (runTasks_spec w _ doneTasks _ s4 hr).2.2.2.2.2.2.2.2.1
      rw [foldl_PushBack] at hp
      rw [← h3]
      exact hp
    · cases h

theorem GroupHistory_counter (first s : TransitReadManager) (ids : List Nat)
    (h : GroupHistory first s ids) :
    (first.m_nextTasksGroupId + ids.length < sizeMod →
      s.m_nextTasksGroupId = first.m_nextTasksGroupId + ids.length) ∧
    (first.m_nextTasksGroupId + ids.length < sizeMod →
      ids.Pairwise (fun later earlier => earlier < later) ∧
      ∀ g ∈ ids, first.m_nextTasksGroupId < g ∧ g ≤ first.m_nextTasksGroupId + ids.length) := by
  induction h with
  | start =>
    refine ⟨fun _ => rfl, fun _ => ⟨List.Pairwise.nil, ?_⟩⟩
    intro g hg
    simp at hg
  | call w infos out r s s1 ids _ hcall ih =>
    obtain ⟨ih1, ih2⟩ := ih
    have hcount := GetTransitDisplayInfo_counter w infos out r s s1 hcall
    constructor
    · intro hw
      simp only [List.length_cons] at hw ⊢
      have hs := ih1 (by omega)
      rw [hcount, hs]
      simp only [sizeMod] at hw ⊢
      omega
    · intro hw
      simp only [List.length_cons] at hw
      have hs := ih1 (by omega)
      obtain ⟨hp, hb⟩ := ih2 (by omega)
      have hid : (registerGroup infos s).groupId =
          first.m_nextTasksGroupId + ids.length + 1 := by
        rw [(registerGroup_groupId infos s).1, hs]
        simp only [sizeMod] at hw ⊢
        omega
      rw [hid]
      constructor
      · rw [List.pairwise_cons]
        refine ⟨?_, hp⟩
        intro g hg
        have := (hb g hg).2
        omega
      · intro g hg
        simp only [List.length_cons]
        rcases List.mem_cons.mp hg with hg | hg
        · omega
        · have := hb g hg
          omega
  | other s s1 ids _ hsame ih =>
    obtain ⟨ih1, ih2⟩ := ih
    exact ⟨fun hw => hsame.trans (ih1 hw), ih2⟩

/-- C18: the group id of a call of `GetTransitDisplayInfo` is the incremented
counter: the call stores it as the new counter, gives it to every task it
builds, registers the group under it, and every push the pool receives from
the call carries it. As long as the 64-bit counter does not wrap around, the
ids of the calls made on a manager are strictly increasing, and the id of the
next call is one more than the counter, greater than the id of every earlier
call. -/
theorem group_ids_increasing (first s : TransitReadManager) (ids : List Nat)
    (h : GroupHistory first s ids)
    (hwrap : first.m_nextTasksGroupId + ids.length < sizeMod) :
    s.m_nextTasksGroupId = first.m_nextTasksGroupId + ids.length ∧
    ids.Pairwise (fun later earlier => earlier < later) ∧
    (∀ g ∈ ids, first.m_nextTasksGroupId < g ∧ g ≤ s.m_nextTasksGroupId) ∧
    ∀ (w : World) (infos out : TransitDisplayInfos) (r : Bool) (s1 : TransitReadManager),
      GetTransitDisplayInfo w infos s = .ok (out, r, s1) →
      (registerGroup infos s).groupId = (s.m_nextTasksGroupId + 1) % sizeMod ∧
      s1.m_nextTasksGroupId = (registerGroup infos s).groupId ∧
      (∀ t ∈ (registerGroup infos s).transitTasks,
        t.2.GetId = (registerGroup infos s).groupId) ∧
      pendingCount (registerGroup infos s).registered (registerGroup infos s).groupId =
        (registerGroup infos s).transitTasks.length ∧
      (∃ pushes, s1.m_pushedTasks = s.m_pushedTasks ++ pushes ∧
        pushes.length = (registerGroup infos s).transitTasks.length ∧
        ∀ p ∈ pushes, p.1 = (registerGroup infos s).groupId) ∧
      (s.m_nextTasksGroupId + 1 < sizeMod →
        (registerGroup infos s).groupId = s.m_nextTasksGroupId + 1 ∧
        ∀ g ∈ ids, g < (registerGroup infos s).groupId) := by
  obtain ⟨h1, h2⟩ := GroupHistory_counter first s ids h
  have hs := h1 hwrap
  obtain ⟨hp, hb⟩ := h2 hwrap
  refine ⟨hs, hp, ?_, ?_⟩
  · intro g hg
    rw [hs]
    exact hb g hg
  · intro w infos out r s1 hcall
    have hcount := GetTransitDisplayInfo_counter w infos out r s s1 hcall
    have htasks := registerGroup_tasks infos s
    refine ⟨rfl, hcount, fun t ht => (htasks t ht).1, getD_mapFind_mapSet _ _ s.m_tasksGroups,
      ⟨_, GetTransitDisplayInfo_pushes w infos out r s s1 hcall, List.length_map _ _, ?_⟩, ?_⟩
    · intro p hp
      obtain ⟨t, ht, rfl⟩ := List.mem_map.mp hp
      exact (htasks t ht).1
    · intro hnext
      have hval : (registerGroup infos s).groupId = s.m_nextTasksGroupId + 1 := by
        rw [(registerGroup_groupId infos s).1]
        simp only [sizeMod] at hnext ⊢
        omega
      refine ⟨hval, ?_⟩
      intro g hg
      have := (hb g hg).2
      omega

theorem group_ids_increasing_witness :
    ∃ s, GroupHistory enabledManager s [2, 1] ∧
      enabledManager.m_nextTasksGroupId + ([2, 1] : List Nat).length < sizeMod ∧
      s.m_nextTasksGroupId = 2 ∧
      ([2, 1] : List Nat).Pairwise (fun later earlier => earlier < later) ∧
      s.m_pushedTasks = [(1, 1), (2, 1), (2, 3)] := by
  have h1 : GroupHistory enabledManager _ [1] :=
    GroupHistory.call (exampleWorld [1] [] 5) [(1, none)] _ _ enabledManager _ []
      GroupHistory.start rfl
  have h2 : GroupHistory enabledManager _ [2, 1] :=
    GroupHistory.call (exampleWorld [1] [1] 6) [(1, none), (3, none)] _ _ _ _ [1] h1 rfl
  have h := group_ids_increasing enabledManager _ [2, 1] h2 (by decide)
  exact ⟨_, h2, by decide, h.1, h.2.1, rfl⟩

end TransitReader

namespace TransitReader

open TransitReadManager

/-- The calls of `GetTransitDisplayInfo` made by `UpdateViewport`: none or
one. -/
theorem UpdateViewport_groupHistory (first s s1 : TransitReadManager) (ids : List Nat)
    (w : World) (screen : ScreenBase) (h : GroupHistory first s ids)
    (hu : UpdateViewport w screen s = .ok s1) :
    GroupHistory first s1 ids ∨
      GroupHistory first s1 ((s.m_nextTasksGroupId + 1) % sizeMod :: ids) := by
  have hskip : UpdateViewport w screen s = .ok { s with m_currentModelView := (screen, true) } →
      GroupHistory first s1 ids := by
    intro he
    rw [he] at hu
    cases hu
    exact GroupHistory.other s _ ids h rfl
  cases hmode : s.m_isSchemeMode with
  | false => exact Or.inl (hskip (UpdateViewport_disabled w screen s hmode))
  | true =>
    by_cases hzoom : w.GetZoomLevel screen.m_scale < kMinSchemeZoomLevel
    · exact Or.inl (hskip (UpdateViewport_low_zoom w screen s hzoom))
    · by_cases hchg : s.m_lastVisibleMwms = w.getMwmsByRectFn screen.m_clipRect
      · exact Or.inl (hskip (UpdateViewport_unchanged w screen s hchg))
      · right
        obtain ⟨r, s2, hget, hu2⟩ :=
          UpdateViewport_pass_returns w screen s hmode hzoom hchg _ rfl
        rw [hu] at hu2
        cases hu2
        have hcount := (markedRequests_frame w screen s).2.2.2.2.2.2.1
        have h1 : GroupHistory first (markedRequests w screen s).2 ids :=
          GroupHistory.other s _ ids h hcount
        have h2 := GroupHistory.call w _ _ r _ s2 ids h1 hget
        rw [(registerGroup_groupId _ _).1, hcount] at h2
        exact GroupHistory.other s2 _ _ h2 (finishUpdate_frame _ _ s2).2.2.2.2.2.1

/-! ## `Invalidate` -/

/-- C19, as stated, fails: in scheme mode, with a known viewport at zoom 12,
when the spatial index returns no region for the viewport the replay of
`Invalidate` stops at the unchanged-set test (the cleared `m_lastVisibleMwms`
equals the empty visible set): the active set stays `[1, 2]` although no
region is visible. -/
theorem Invalidate_stopped_by_short_circuit :
    afterFirstUpdate.m_isSchemeMode = true ∧ afterFirstUpdate.m_currentModelView.2 = true ∧
    ¬ (exampleWorld [] [] 9).GetZoomLevel afterFirstUpdate.m_currentModelView.1.m_scale
        < kMinSchemeZoomLevel ∧
    Invalidate (exampleWorld [] [] 9) afterFirstUpdate =
      .ok { afterFirstUpdate with m_lastVisibleMwms := [] } ∧
    (∀ s1, Invalidate (exampleWorld [] [] 9) afterFirstUpdate = .ok s1 →
      s1.m_lastActiveMwms = [1, 2]) ∧
    ∀ k, ¬ (k ∈ (exampleWorld [] [] 9).getMwmsByRectFn
      afterFirstUpdate.m_currentModelView.1.m_clipRect) := by
  refine ⟨rfl, rfl, by decide, rfl, ?_, ?_⟩
  · intro s1 h
    have he : Invalidate (exampleWorld [] [] 9) afterFirstUpdate =
        .ok { afterFirstUpdate with m_lastVisibleMwms := [] } := rfl
    rw [he] at h
    cases h
    rfl
  · intro k hk
    simp [exampleWorld] at hk

/-- C19, amended: in scheme mode with a known viewport `Invalidate` is
`UpdateViewport` on the last-known viewport from the state whose
`m_lastVisibleMwms` is cleared; at a sufficient zoom, when the spatial index
returns at least one region the replay is not stopped by the unchanged-set
test (the visible set is stored and the active set rebuilt), and when it
returns none the call only clears `m_lastVisibleMwms`; with the scheme mode
off `Invalidate` changes nothing. -/
theorem Invalidate_replays (w : World) (s : TransitReadManager) :
    (s.m_isSchemeMode = false → Invalidate w s = .ok s) ∧
    (s.m_isSchemeMode = true → s.m_currentModelView.2 = true →
      Invalidate w s =
        UpdateViewport w s.m_currentModelView.1 { s with m_lastVisibleMwms := [] }) ∧
    (s.m_isSchemeMode = true → s.m_currentModelView.2 = true →
      ¬ w.GetZoomLevel s.m_currentModelView.1.m_scale < kMinSchemeZoomLevel →
      w.getMwmsByRectFn s.m_currentModelView.1.m_clipRect ≠ [] →
      ∃ s1, Invalidate w s = .ok s1 ∧
        s1.m_lastVisibleMwms = w.getMwmsByRectFn s.m_currentModelView.1.m_clipRect ∧
        ∀ k, k ∈ s1.m_lastActiveMwms ↔
          k ∈ w.getMwmsByRectFn s.m_currentModelView.1.m_clipRect ∧ w.IsAlive k = true) ∧
    (s.m_isSchemeMode = true → s.m_currentModelView.2 = true →
      ¬ w.GetZoomLevel s.m_currentModelView.1.m_scale < kMinSchemeZoomLevel →
      w.getMwmsByRectFn s.m_currentModelView.1.m_clipRect = [] →
      Invalidate w s = .ok { s with m_lastVisibleMwms := [] }) := by
  have hreplay : s.m_isSchemeMode = true → s.m_currentModelView.2 = true →
      Invalidate w s =
        UpdateViewport w s.m_currentModelView.1 { s with m_lastVisibleMwms := [] } := by
    intro hmode hview
    rw [Invalidate_enabled w s hmode, if_pos hview]
  refine ⟨Invalidate_disabled w s, hreplay, ?_, ?_⟩
  · intro hmode hview hzoom hne
    rw [hreplay hmode hview]
    obtain ⟨s1, hu, hvis, hact, -⟩ :=
      UpdateViewport_final_entries w s.m_currentModelView.1 { s with m_lastVisibleMwms := [] }
        hmode hzoom (fun h => hne h.symm)
    exact ⟨s1, hu, hvis, hact⟩
  · intro hmode hview _ hnone
    rw [hreplay hmode hview,
      UpdateViewport_unchanged w s.m_currentModelView.1 { s with m_lastVisibleMwms := [] }
        hnone.symm]
    rw [← hview]

theorem Invalidate_replays_witness :
    afterFirstUpdate.m_lastVisibleMwms = [1, 2] ∧
    ∃ s1, Invalidate (exampleWorld [1, 2] [] 9) afterFirstUpdate = .ok s1 ∧
      s1.m_lastVisibleMwms = [1, 2] ∧
      ∀ k, k ∈ s1.m_lastActiveMwms ↔
        k ∈ [1, 2] ∧ (exampleWorld [1, 2] [] 9).IsAlive k = true :=
  ⟨rfl,
    (Invalidate_replays (exampleWorld [1, 2] [] 9) afterFirstUpdate).2.2.1 rfl rfl (by decide)
      (by decide)⟩

end TransitReader

namespace GpsTrack

open TransitReader (sizeMod sizeAdd sizeSub)

namespace GpsTrackCollection

/-! ## `Add` of one item -/

theorem sizeSub_sizeAdd_one (n : Nat) (h : n < sizeMod) : sizeSub (sizeAdd n 1) 1 = n := by
  simp only [sizeSub, sizeAdd, sizeMod] at h ⊢
  omega

theorem Add_rejected (item : TItem) (c : GpsTrackCollection) (h : c.backIsLater item = true) :
    Add item c = (kInvalidId, c) := by
  unfold Add
  rw [if_pos h]

theorem Add_accepted (item : TItem) (c : GpsTrackCollection) (h : c.backIsLater item = false)
    (hid : c.m_lastId < sizeMod) :
    Add item c =
      (c.m_lastId, { m_items := c.m_items ++ [item], m_lastId := sizeAdd c.m_lastId 1 }) := by
  unfold Add
  rw [if_neg (by rw [h]; exact Bool.false_ne_true)]
  exact Prod.ext (sizeSub_sizeAdd_one c.m_lastId hid) rfl

theorem backIsLater_iff (item : TItem) (c : GpsTrackCollection) :
    c.backIsLater item = true ↔
      c.m_items ≠ [] ∧
        ∃ back, c.m_items.getLast? = some back ∧
          back.m_timestamp.gt item.m_timestamp = true := by
  unfold backIsLater
  cases hl : c.m_items.getLast? with
  | none =>
    simp
  | some back =>
    have : c.m_items ≠ [] := by
      intro h
      rw [h] at hl
      simp at hl
    simp [this]

theorem addEach_length_le (items : List TItem) (c : GpsTrackCollection) :
    (addEach items c).2.m_items.length ≤ c.m_items.length + items.length := by
  induction items generalizing c with
  | nil => simp [addEach]
  | cons item rest ih =>
    simp only [addEach, List.length_cons]
    have h := ih (Add item c).2
    have hadd : (Add item c).2.m_items.length ≤ c.m_items.length + 1 := by
      unfold Add
      split
      · simp
      · simp
    omega

theorem addEach_ids (items : List TItem) (c : GpsTrackCollection)
    (hid : c.m_lastId + items.length < sizeMod)
    (hall : (addEach items c).2.m_items = c.m_items ++ items) :
    (addEach items c).1 = List.range' c.m_lastId items.length ∧
    (addEach items c).2.m_lastId = c.m_lastId + items.length := by
  induction items generalizing c with
  | nil => simp [addEach]
  | cons item rest ih =>
    simp only [List.length_cons] at hid
    cases hb : c.backIsLater item with
    | true =>
      exfalso
      have hlen := addEach_length_le rest c
      have h2 := congrArg List.length hall
      simp only [addEach, Add_rejected item c hb, List.length_append, List.length_cons] at h2
      omega
    | false =>
      have hacc := Add_accepted item c hb (by omega)
      simp only [addEach, hacc] at hall ⊢
      have hnext : sizeAdd c.m_lastId 1 = c.m_lastId + 1 := by
        simp only [sizeAdd, sizeMod] at hid ⊢
        omega
      rw [hnext] at hall ⊢
      obtain ⟨h1, h2⟩ := ih { m_items := c.m_items ++ [item], m_lastId := c.m_lastId + 1 }
        (by simp only; omega) (by simpa using hall)
      simp only at h1 h2
      rw [h1, h2]
      constructor
      · simp [List.range'_succ]
      · simp only [List.length_cons]
        omega

/-- C20: `Add` of one item. When the collection is not empty and the timestamp
of its last item is greater than the item's, `Add` returns `kInvalidId` and
leaves the collection as it is; otherwise it appends the item, increments the
id counter and returns the counter's previous value. On a fresh collection the
first `Add` returns 0, and calls that all append their item return the
consecutive ids 0, 1, 2, ... -/
theorem Add_item (item : TItem) (c : GpsTrackCollection) (hid : c.m_lastId < sizeMod) :
    ((c.m_items ≠ [] ∧ ∃ back, c.m_items.getLast? = some back ∧
        back.m_timestamp.gt item.m_timestamp = true) →
      Add item c = (kInvalidId, c)) ∧
    (¬ (c.m_items ≠ [] ∧ ∃ back, c.m_items.getLast? = some back ∧
        back.m_timestamp.gt item.m_timestamp = true) →
      Add item c =
        (c.m_lastId,
          { m_items := c.m_items ++ [item], m_lastId := (c.m_lastId + 1) % sizeMod })) ∧
    Add item create = (0, { m_items := [item], m_lastId := 1 }) ∧
    ∀ items : List TItem, items.length < sizeMod →
      (addEach items create).2.m_items = items →
      (addEach items create).1 = List.range items.length := by
  refine ⟨?_, ?_, ?_, ?_⟩
  · intro h
    exact Add_rejected item c ((backIsLater_iff item c).mpr h)
  · intro h
    have hb : c.backIsLater item = false := by
      cases hv : c.backIsLater item with
      | false => rfl
      | true => exact absurd ((backIsLater_iff item c).mp hv) h
    exact Add_accepted item c hb hid
  · have hone : sizeAdd 0 1 = 1 := by decide
    rw [Add_accepted item create rfl (by decide)]
    exact Prod.ext rfl (congrArg (GpsTrackCollection.mk [item]) hone)
  · intro items hlen hall
    have h := (addEach_ids items create (by simpa [create] using hlen)
      (by simpa [create] using hall)).1
    rw [h]
    simp [create, List.range_eq_range']

theorem Add_item_witness :
    ({ m_items := [{ m_timestamp := some 5 }], m_lastId := 4 } : GpsTrackCollection).m_lastId
      < sizeMod ∧
    Add { m_timestamp := some 3 } { m_items := [{ m_timestamp := some 5 }], m_lastId := 4 } =
      (kInvalidId, { m_items := [{ m_timestamp := some 5 }], m_lastId := 4 }) ∧
    Add { m_timestamp := some 5 } { m_items := [{ m_timestamp := some 5 }], m_lastId := 4 } =
      (4, { m_items := [{ m_timestamp := some 5 }, { m_timestamp := some 5 }], m_lastId := 5 }) ∧
    (addEach [{ m_timestamp := some 1 }, { m_timestamp := some 1 }, { m_timestamp := some 7 }]
      create).1 = [0, 1, 2] :=
  ⟨by decide,
    (Add_item { m_timestamp := some 3 }
      { m_items := [{ m_timestamp := some 5 }], m_lastId := 4 } (by decide)).1
      ⟨by decide, _, rfl, rfl⟩,
    (Add_item { m_timestamp := some 5 }
      { m_items := [{ m_timestamp := some 5 }], m_lastId := 4 } (by decide)).2.1
      (by decide),
    (Add_item { m_timestamp := some 0 } create (by decide)).2.2.2
      [{ m_timestamp := some 1 }, { m_timestamp := some 1 }, { m_timestamp := some 7 }]
      (by decide) rfl⟩

end GpsTrackCollection

end GpsTrack

namespace TransitReader

open TransitReadManager

/-! ## The evictions of `ShrinkCacheToAllowableSize`, one by one -/

theorem shrinkLoop_take (l : List (TimePoint × MwmId)) (s : TransitReadManager) :
    ∃ n, n ≤ l.length ∧ shrinkLoop l s = clearAll (l.take n) s ∧
      (∀ i, i < n → (clearAll (l.take i) s).m_cacheSize > kMaxTransitCacheSizeBytes) ∧
      (n < l.length → (clearAll (l.take n) s).m_cacheSize ≤ kMaxTransitCacheSizeBytes) := by
  induction l generalizing s with
  | nil => exact ⟨0, Nat.le_refl _, rfl, fun i hi => absurd hi (Nat.not_lt_zero i),
      fun h => absurd h (Nat.lt_irrefl _)⟩
  | cons t l ih =>
    by_cases h : s.m_cacheSize > kMaxTransitCacheSizeBytes
    · obtain ⟨n, hn, heq, hbefore, hstop⟩ := ih (ClearCache t.2 s)
      refine ⟨n + 1, by simp only [List.length_cons]; omega, ?_, ?_, ?_⟩
      · simp only [shrinkLoop, h, if_true, List.take_succ_cons, clearAll_cons]
        exact heq
      · intro i hi
        cases i with
        | zero => exact h
        | succ j =>
          simp only [List.take_succ_cons, clearAll_cons]
          exact hbefore j (by omega)
      · intro hlt
        simp only [List.take_succ_cons, clearAll_cons]
        exact hstop (by simp only [List.length_cons] at hlt; omega)
    · refine ⟨0, Nat.zero_le _, ?_, fun i hi => absurd hi (Nat.not_lt_zero i), fun _ => ?_⟩
      · simp only [shrinkLoop, h, if_false]
        rfl
      · exact Nat.le_of_not_lt h

/-- C23: `ShrinkCacheToAllowableSize` evicts only while the total is over the
budget. When the total is at most `kMaxTransitCacheSizeBytes` on entry the
manager is returned as it is. In general the call makes its `ClearCache` calls
on the first `n` elements of `seenTimings`, in order; the eviction number `i`
is made in the state left by the `i` evictions before it, a state whose total
is greater than the budget, and when elements of `seenTimings` are left over
the total after the last eviction is at most the budget. -/
theorem ShrinkCacheToAllowableSize_only_over_budget (s : TransitReadManager) :
    (s.m_cacheSize ≤ kMaxTransitCacheSizeBytes → ShrinkCacheToAllowableSize s = s) ∧
    ∃ n, n ≤ (collectSeenTimings s.m_lastActiveMwms s.m_mwmCache).length ∧
      ShrinkCacheToAllowableSize s =
        clearAll ((collectSeenTimings s.m_lastActiveMwms s.m_mwmCache).take n) s ∧
      (∀ i, i < n →
        (clearAll ((collectSeenTimings s.m_lastActiveMwms s.m_mwmCache).take i) s).m_cacheSize >
          kMaxTransitCacheSizeBytes) ∧
      (n < (collectSeenTimings s.m_lastActiveMwms s.m_mwmCache).length →
        (ShrinkCacheToAllowableSize s).m_cacheSize ≤ kMaxTransitCacheSizeBytes) := by
  constructor
  · intro h
    unfold ShrinkCacheToAllowableSize
    rw [if_neg (Nat.not_lt.mpr h)]
  · by_cases hb : s.m_cacheSize > kMaxTransitCacheSizeBytes
    · obtain ⟨n, hn, heq, hbefore, hstop⟩ :=
        shrinkLoop_take (collectSeenTimings s.m_lastActiveMwms s.m_mwmCache) s
      have hs : ShrinkCacheToAllowableSize s =
          shrinkLoop (collectSeenTimings s.m_lastActiveMwms s.m_mwmCache) s := by
        unfold ShrinkCacheToAllowableSize
        rw [if_pos hb]
      refine ⟨n, hn, hs.trans heq, hbefore, fun hlt => ?_⟩
      rw [hs, heq]
      exact hstop hlt
    · have hs : ShrinkCacheToAllowableSize s = s := by
        unfold ShrinkCacheToAllowableSize
        rw [if_neg hb]
      refine ⟨0, Nat.zero_le _, ?_, fun i hi => absurd hi (Nat.not_lt_zero i), fun _ => ?_⟩
      · rw [hs]
        rfl
      · rw [hs]
        exact Nat.le_of_not_lt hb

theorem ShrinkCacheToAllowableSize_only_over_budget_witness :
    (shrinkExample 100).m_cacheSize ≤ kMaxTransitCacheSizeBytes ∧
    ShrinkCacheToAllowableSize (shrinkExample 100) = shrinkExample 100 ∧
    collectSeenTimings (shrinkExample 5000000).m_lastActiveMwms
      (shrinkExample 5000000).m_mwmCache = [(3, 4), (7, 2), (8, 5)] ∧
    ShrinkCacheToAllowableSize (shrinkExample 5000000) =
      clearAll [(3, 4), (7, 2)] (shrinkExample 5000000) ∧
    (clearAll [(3, 4)] (shrinkExample 5000000)).m_cacheSize = 5250000 ∧
    (clearAll [(3, 4), (7, 2)] (shrinkExample 5000000)).m_cacheSize = 5050000 :=
  ⟨by decide,
    (ShrinkCacheToAllowableSize_only_over_budget (shrinkExample 100)).1 (by decide),
    by decide, by decide, by decide, by decide⟩

end TransitReader

namespace TransitReader

open TransitReadManager

/-! ## The arguments of `UpdateTransitScheme` -/

theorem taskOutcome_null_iff (w : World) (groupId : Nat) (k : MwmId) :
    taskOutcome w groupId k none = none ↔
      (doneTask w (ReadTransitTask.Init {} groupId k none)).GetSuccess = false := by
  unfold taskOutcome doneTask ReadTransitTask.Do ReadTransitTask.Init ReadTransitTask.GetSuccess
    ReadTransitTask.GetTransitInfo
  by_cases h1 : w.handleIsAlive k = true
  · by_cases h2 : w.transitSectionExists k = true
    · simp [h1, h2]
    · simp [h1, h2]
  · simp [h1]

theorem afterDeadRegionUpdate_eq :
    UpdateViewport (deadRegionWorld [1, 2, 3] [2] 5) {} enabledManager =
      .ok afterDeadRegionUpdate := rfl

/-- C24, as stated, fails: the update shows regions 1, 2 and 3; region 3 is not
alive and the load of region 2 fails. The map handed to `UpdateTransitScheme`
has an entry (a null dataset) for the failed region 2, and the second argument
is the visible set `[1, 2, 3]`, not the active set `[1, 2]`. -/
theorem UpdateViewport_sink_gets_failed_and_dead_regions :
    UpdateViewport (deadRegionWorld [1, 2, 3] [2] 5) {} enabledManager =
      .ok afterDeadRegionUpdate ∧
    ((ReadTransitTask.Init {} 1 2 none).Do (deadRegionWorld [1, 2, 3] [2] 5)).map
      ReadTransitTask.GetSuccess = .ok false ∧
    (deadRegionWorld [1, 2, 3] [2] 5).IsAlive 3 = false ∧
    afterDeadRegionUpdate.m_lastActiveMwms = [1, 2] ∧
    afterDeadRegionUpdate.m_drapeCalls =
      [DrapeCall.UpdateTransitScheme
        [(1, some { m_shapes := [(1, [(0, 0), (1, 1)])] }), (2, none)] [1, 2, 3]] ∧
    ¬ (∀ infos mwms, DrapeCall.UpdateTransitScheme infos mwms ∈
          afterDeadRegionUpdate.m_drapeCalls →
        mapFind 2 infos = none ∧ mwms = afterDeadRegionUpdate.m_lastActiveMwms) := by
  refine ⟨afterDeadRegionUpdate_eq, rfl, rfl, rfl, rfl, ?_⟩
  intro h
  have h2 := (h [(1, some { m_shapes := [(1, [(0, 0), (1, 1)])] }), (2, none)] [1, 2, 3]
    (by decide)).2
  exact absurd h2 (by decide)

/-- C24, amended: a call of `UpdateViewport` that passes the three early returns
requests the alive visible regions that have no cache entry. When it requests
none the drape engine is not called. Otherwise the last call on the drape
engine is `UpdateTransitScheme`, after the `ClearTransitSchemeCache` calls of
the evictions; its first argument has one entry per requested region, the
dataset of the region's task when the task succeeded and a null pointer when it
failed, and its second argument is the visible set as the spatial index gave
it, while the active set holds the alive regions of that set only. -/
theorem UpdateViewport_sink_arguments (w : World) (screen : ScreenBase) (s : TransitReadManager)
    (hmode : s.m_isSchemeMode = true)
    (hzoom : ¬ w.GetZoomLevel screen.m_scale < kMinSchemeZoomLevel)
    (hchg : s.m_lastVisibleMwms ≠ w.getMwmsByRectFn screen.m_clipRect) :
    ∃ (s1 : TransitReadManager) (requested evicted : List MwmId),
      UpdateViewport w screen s = .ok s1 ∧
      (∀ k, k ∈ requested ↔
        k ∈ w.getMwmsByRectFn screen.m_clipRect ∧ w.IsAlive k = true ∧
          mapFind k s.m_mwmCache = none) ∧
      (requested = [] → s1.m_drapeCalls = s.m_drapeCalls) ∧
      (requested ≠ [] →
        s1.m_drapeCalls =
          s.m_drapeCalls ++ evicted.map DrapeCall.ClearTransitSchemeCache ++
            [DrapeCall.UpdateTransitScheme
              (requested.map
                (fun k => (k, taskOutcome w ((s.m_nextTasksGroupId + 1) % sizeMod) k none)))
              (w.getMwmsByRectFn screen.m_clipRect)]) ∧
      (∀ k, taskOutcome w ((s.m_nextTasksGroupId + 1) % sizeMod) k none = none ↔
        (doneTask w
          (ReadTransitTask.Init {} ((s.m_nextTasksGroupId + 1) % sizeMod) k none)).GetSuccess =
            false) ∧
      s1.m_lastVisibleMwms = w.getMwmsByRectFn screen.m_clipRect ∧
      ∀ k, k ∈ s1.m_lastActiveMwms ↔
        k ∈ w.getMwmsByRectFn screen.m_clipRect ∧ w.IsAlive k = true := by
  obtain ⟨s2, hu, -, hact, -, -, hcalls⟩ :=
    UpdateViewport_anatomy w screen s hmode hzoom hchg _ rfl
  have hreq : ∀ p ∈ (markedRequests w screen s).1, p.2 = none :=
    (markedRequests_requests w screen s).2
  have hmap : (markedRequests w screen s).1.map
      (fun p => (p.1, taskOutcome w ((s.m_nextTasksGroupId + 1) % sizeMod) p.1 none)) =
      (mapKeys (markedRequests w screen s).1).map
        (fun k => (k, taskOutcome w ((s.m_nextTasksGroupId + 1) % sizeMod) k none)) := by
    simp only [mapKeys, List.map_map, Function.comp_def]
  rw [hmap] at hu
  generalize hout : (mapKeys (markedRequests w screen s).1).map
    (fun k => (k, taskOutcome w ((s.m_nextTasksGroupId + 1) % sizeMod) k none)) = out at hu
  obtain ⟨-, -, f3, f4, -⟩ := finishUpdate_frame (w.getMwmsByRectFn screen.m_clipRect) out s2
  have hvis := (UpdateViewport_stores_visible w screen s _ hmode hzoom hu).1
  obtain ⟨ks, hks⟩ := ShrinkCacheToAllowableSize_drapeCalls (out.foldl recordLoaded s2)
  refine ⟨_, mapKeys (markedRequests w screen s).1, ks, hu,
    fun k => markedRequests_keys w screen s k, ?_, ?_,
    fun k => taskOutcome_null_iff w _ k, hvis, ?_⟩
  · intro hempty
    have hout2 : out = [] := by rw [← hout, hempty]; rfl
    simp [finishUpdate, hout2, hcalls]
  · intro hne
    have hout2 : out ≠ [] := by
      intro h
      apply hne
      rw [← hout] at h
      exact List.map_eq_nil_iff.mp h
    simp only [finishUpdate, hout2, ne_eq, not_false_eq_true, if_true]
    rw [hks, (foldl_recordLoaded_frame out s2).2.2.2.2.1, hcalls, hout]
  · intro k
    rw [f4, hact]
    exact markedRequests_active w screen s k

theorem UpdateViewport_sink_arguments_witness :
    enabledManager.m_isSchemeMode = true ∧
    ∃ (s1 : TransitReadManager) (requested evicted : List MwmId),
      UpdateViewport (deadRegionWorld [1, 2, 3] [2] 5) {} enabledManager = .ok s1 ∧
      (∀ k, k ∈ requested ↔
        k ∈ [1, 2, 3] ∧ (deadRegionWorld [1, 2, 3] [2] 5).IsAlive k = true ∧
          mapFind k enabledManager.m_mwmCache = none) ∧
      (requested = [] → s1.m_drapeCalls = enabledManager.m_drapeCalls) ∧
      (requested ≠ [] →
        s1.m_drapeCalls =
          enabledManager.m_drapeCalls ++ evicted.map DrapeCall.ClearTransitSchemeCache ++
            [DrapeCall.UpdateTransitScheme
              (requested.map
                (fun k => (k, taskOutcome (deadRegionWorld [1, 2, 3] [2] 5)
                  ((enabledManager.m_nextTasksGroupId + 1) % sizeMod) k none)))
              [1, 2, 3]]) ∧
      (∀ k, taskOutcome (deadRegionWorld [1, 2, 3] [2] 5)
          ((enabledManager.m_nextTasksGroupId + 1) % sizeMod) k none = none ↔
        (doneTask (deadRegionWorld [1, 2, 3] [2] 5)
          (ReadTransitTask.Init {} ((enabledManager.m_nextTasksGroupId + 1) % sizeMod) k
            none)).GetSuccess = false) ∧
      s1.m_lastVisibleMwms = [1, 2, 3] ∧
      ∀ k, k ∈ s1.m_lastActiveMwms ↔
        k ∈ [1, 2, 3] ∧ (deadRegionWorld [1, 2, 3] [2] 5).IsAlive k = true :=
  ⟨rfl,
    UpdateViewport_sink_arguments (deadRegionWorld [1, 2, 3] [2] 5) {} enabledManager rfl
      (by decide) (by decide)⟩

end TransitReader

namespace TransitReader

open TransitReadManager

/-! ## `OnTaskCompleted` -/

theorem OnTaskCompleted_notifyCount (task : ReadTransitTask) (s : TransitReadManager) :
    (OnTaskCompleted task s).m_notifyCount =
      if sizeSub (pendingCount s task.GetId) 1 = 0 then s.m_notifyCount + 1
      else s.m_notifyCount := by
  simp only [OnTaskCompleted, pendingCount]

/-- C25: `OnTaskCompleted(task)` replaces the pending counter of the task's
group by the counter minus one, as a `size_t` (the number minus one when the
counter is at least 1), leaves the element of every other group in
`m_tasksGroups` as it is, and calls `notify_all` once when the decremented
counter is 0 and not at all otherwise. -/
theorem OnTaskCompleted_counter (task : ReadTransitTask) (s : TransitReadManager) :
    pendingCount (OnTaskCompleted task s) task.GetId =
      sizeSub (pendingCount s task.GetId) 1 ∧
    (1 ≤ pendingCount s task.GetId → pendingCount s task.GetId < sizeMod →
      pendingCount (OnTaskCompleted task s) task.GetId = pendingCount s task.GetId - 1) ∧
    (∀ groupId, groupId ≠ task.GetId →
      mapFind groupId (OnTaskCompleted task s).m_tasksGroups = mapFind groupId s.m_tasksGroups ∧
      pendingCount (OnTaskCompleted task s) groupId = pendingCount s groupId) ∧
    (pendingCount (OnTaskCompleted task s) task.GetId = 0 →
      (OnTaskCompleted task s).m_notifyCount = s.m_notifyCount + 1) ∧
    (pendingCount (OnTaskCompleted task s) task.GetId ≠ 0 →
      (OnTaskCompleted task s).m_notifyCount = s.m_notifyCount) := by
  have hself : pendingCount (OnTaskCompleted task s) task.GetId =
      sizeSub (pendingCount s task.GetId) 1 := OnTaskCompleted_pendingCount task s
  have hother : ∀ groupId, groupId ≠ task.GetId →
      mapFind groupId (OnTaskCompleted task s).m_tasksGroups =
        mapFind groupId s.m_tasksGroups := by
    intro groupId hne
    exact mapFind_mapSet_ne groupId task.GetId _ s.m_tasksGroups hne
  refine ⟨hself, ?_, ?_, ?_, ?_⟩
  · intro h1 h2
    rw [hself]
    exact sizeSub_exact _ 1 h1 h2
  · intro groupId hne
    refine ⟨hother groupId hne, ?_⟩
    unfold pendingCount
    rw [hother groupId hne]
  · intro h0
    rw [hself] at h0
    rw [OnTaskCompleted_notifyCount, if_pos h0]
  · intro h0
    rw [hself] at h0
    rw [OnTaskCompleted_notifyCount, if_neg h0]

theorem OnTaskCompleted_counter_witness :
    pendingCount (OnTaskCompleted { m_id := 7 } { m_tasksGroups := [(5, 1), (7, 2)] }) 7 = 1 ∧
    pendingCount (OnTaskCompleted { m_id := 7 } { m_tasksGroups := [(5, 1), (7, 2)] }) 5 = 1 ∧
    (OnTaskCompleted { m_id := 7 } { m_tasksGroups := [(5, 1), (7, 2)] }).m_notifyCount = 0 ∧
    (OnTaskCompleted { m_id := 7 } { m_tasksGroups := [(5, 1), (7, 1)] }).m_notifyCount = 1 :=
  ⟨(OnTaskCompleted_counter { m_id := 7 } { m_tasksGroups := [(5, 1), (7, 2)] }).2.1
      (by decide) (by decide),
    ((OnTaskCompleted_counter { m_id := 7 } { m_tasksGroups := [(5, 1), (7, 2)] }).2.2.1 5
      (by decide)).2,
    (OnTaskCompleted_counter { m_id := 7 } { m_tasksGroups := [(5, 1), (7, 2)] }).2.2.2.2
      (by decide),
    (OnTaskCompleted_counter { m_id := 7 } { m_tasksGroups := [(5, 1), (7, 1)] }).2.2.2.1
      (by decide)⟩

end TransitReader

namespace GpsTrack

open TransitReader (sizeMod sizeAdd sizeSub)

namespace GpsTrackCollection

/-! ## `Add` of a vector of items -/

theorem eq_of_members (a b : GpsTrackCollection) (h1 : a.m_items = b.m_items)
    (h2 : a.m_lastId = b.m_lastId) : a = b := by
  cases a
  cases b
  simp only at h1 h2
  rw [h1, h2]

theorem backIsLater_congr (a b : GpsTrackCollection) (item : TItem)
    (h : a.m_items = b.m_items) : a.backIsLater item = b.backIsLater item := by
  unfold backIsLater
  rw [h]

theorem Add_items_of_rejected (item : TItem) (c : GpsTrackCollection)
    (h : c.backIsLater item = true) : (Add item c).2 = c := by
  rw [Add_rejected item c h]

theorem Add_members_of_accepted (item : TItem) (c : GpsTrackCollection)
    (h : c.backIsLater item = false) :
    (Add item c).2.m_items = c.m_items ++ [item] ∧
    (Add item c).2.m_lastId = sizeAdd c.m_lastId 1 := by
  unfold Add
  rw [if_neg (by rw [h]; exact Bool.false_ne_true)]
  exact ⟨rfl, rfl⟩

theorem addLoop_items (items : List TItem) (c c1 : GpsTrackCollection) (a : Nat)
    (h : c.m_items = c1.m_items) :
    (addLoop items (c, a)).1.m_items = (addEach items c1).2.m_items := by
  induction items generalizing c c1 a with
  | nil => exact h
  | cons item rest ih =>
    cases hb : c.backIsLater item with
    | true =>
      have hb1 : c1.backIsLater item = true := by rw [← backIsLater_congr c c1 item h, hb]
      simp only [addLoop, hb, if_true, addEach, Add_items_of_rejected item c1 hb1]
      exact ih c c1 a h
    | false =>
      have hb1 : c1.backIsLater item = false := by rw [← backIsLater_congr c c1 item h, hb]
      simp only [addLoop, hb, addEach, Bool.false_eq_true, if_false]
      apply ih
      rw [(Add_members_of_accepted item c1 hb1).1, h]

theorem addLoop_lastId (items : List TItem) (c : GpsTrackCollection) (a : Nat) :
    (addLoop items (c, a)).1.m_lastId = c.m_lastId := by
  induction items generalizing c a with
  | nil => rfl
  | cons item rest ih =>
    cases hb : c.backIsLater item with
    | true =>
      simp only [addLoop, hb, if_true]
      exact ih c a
    | false =>
      simp only [addLoop, hb, Bool.false_eq_true, if_false]
      exact ih _ _

theorem addLoop_length (items : List TItem) (c : GpsTrackCollection) (a : Nat) :
    c.m_items.length ≤ (addLoop items (c, a)).1.m_items.length ∧
    (addLoop items (c, a)).1.m_items.length ≤ c.m_items.length + items.length := by
  induction items generalizing c a with
  | nil => simp [addLoop]
  | cons item rest ih =>
    cases hb : c.backIsLater item with
    | true =>
      simp only [addLoop, hb, if_true, List.length_cons]
      have := ih c a
      omega
    | false =>
      simp only [addLoop, hb, Bool.false_eq_true, if_false, List.length_cons]
      have := ih { c with m_items := c.m_items ++ [item] } (sizeAdd a 1)
      simp only [List.length_append, List.length_singleton] at this
      omega

theorem addLoop_added (items : List TItem) (c : GpsTrackCollection) (a : Nat)
    (ha : a < sizeMod) :
    (addLoop items (c, a)).2 =
      (a + ((addLoop items (c, a)).1.m_items.length - c.m_items.length)) % sizeMod := by
  induction items generalizing c a with
  | nil =>
    simp only [addLoop, Nat.sub_self, Nat.add_zero]
    exact (Nat.mod_eq_of_lt ha).symm
  | cons item rest ih =>
    cases hb : c.backIsLater item with
    | true =>
      simp only [addLoop, hb, if_true]
      exact ih c a ha
    | false =>
      simp only [addLoop, hb, Bool.false_eq_true, if_false]
      have hlt : sizeAdd a 1 < sizeMod := Nat.mod_lt _ (by decide)
      have h1 := ih { c with m_items := c.m_items ++ [item] } (sizeAdd a 1) hlt
      have h2 := (addLoop_length rest { c with m_items := c.m_items ++ [item] } (sizeAdd a 1)).1
      simp only [List.length_append, List.length_singleton] at h1 h2
      rw [h1]
      simp only [sizeAdd, sizeMod] at *
      omega

theorem addEach_lastId (items : List TItem) (c : GpsTrackCollection)
    (hid : c.m_lastId < sizeMod) :
    (addEach items c).2.m_lastId =
      (c.m_lastId + ((addEach items c).2.m_items.length - c.m_items.length)) % sizeMod := by
  induction items generalizing c with
  | nil =>
    simp only [addEach, Nat.sub_self, Nat.add_zero]
    exact (Nat.mod_eq_of_lt hid).symm
  | cons item rest ih =>
    cases hb : c.backIsLater item with
    | true =>
      simp only [addEach, Add_items_of_rejected item c hb]
      exact ih c hid
    | false =>
      obtain ⟨m1, m2⟩ := Add_members_of_accepted item c hb
      have hlt : (Add item c).2.m_lastId < sizeMod := by
        rw [m2]
        exact Nat.mod_lt _ (by decide)
      have h1 := ih (Add item c).2 hlt
      have h2 := (addLoop_length rest (Add item c).2 0).1
      rw [addLoop_items rest (Add item c).2 (Add item c).2 0 rfl] at h2
      simp only [addEach]
      rw [h1, m1, m2]
      rw [m1] at h2
      simp only [List.length_append, List.length_singleton] at h2 ⊢
      simp only [sizeAdd, sizeMod] at *
      omega

/-- C28: the batch `Add` and repeated single `Add`s. For every collection and
every vector of items, the collection after `Add(vector)` (its items and its id
counter) is the collection after one `Add(item)` per element, in order; and at
each element the batch loop skips the element exactly when the single `Add`
rejects it. -/
theorem AddItems_eq_addEach (items : List TItem) (c : GpsTrackCollection)
    (hid : c.m_lastId < sizeMod) :
    (AddItems items c).2 = (addEach items c).2 ∧
    ∀ (before : List TItem) (item : TItem) (after : List TItem),
      items = before ++ item :: after →
      (addLoop before (c, 0)).1.m_items = (addEach before c).2.m_items ∧
      (addLoop before (c, 0)).1.backIsLater item = (addEach before c).2.backIsLater item ∧
      ((addEach before c).2.backIsLater item = true ↔
        (Add item (addEach before c).2).1 = kInvalidId ∧
          (Add item (addEach before c).2).2 = (addEach before c).2) := by
  constructor
  · have hitems := addLoop_items items c c 0 rfl
    have hlast := addLoop_lastId items c 0
    have hadded := addLoop_added items c 0 (by decide)
    have heach := addEach_lastId items c hid
    rw [← hitems] at heach
    apply eq_of_members
    · unfold AddItems
      simp only
      split
      · exact hitems
      · exact hitems
    · unfold AddItems
      simp only
      split
      · next h0 =>
        rw [hlast, heach]
        rw [hadded] at h0
        simp only [sizeMod] at *
        omega
      · rw [hlast, heach, hadded]
        simp only [sizeAdd, sizeMod] at *
        omega
  · intro before item after _
    have hitems := addLoop_items before c c 0 rfl
    refine ⟨hitems, backIsLater_congr _ _ item hitems, ?_⟩
    constructor
    · intro hb
      rw [Add_rejected item _ hb]
      exact ⟨rfl, rfl⟩
    · intro hrej
      cases hb : (addEach before c).2.backIsLater item with
      | true => rfl
      | false =>
        exfalso
        have hlen := congrArg (fun x => x.m_items.length) hrej.2
        simp only [(Add_members_of_accepted item _ hb).1, List.length_append,
          List.length_singleton] at hlen
        omega

theorem AddItems_eq_addEach_witness :
    exampleCollection.m_lastId < sizeMod ∧
    (AddItems [{ m_timestamp := some 3 }, { m_timestamp := some 4 }, { m_timestamp := some 9 }]
      exampleCollection).2 =
    (addEach [{ m_timestamp := some 3 }, { m_timestamp := some 4 }, { m_timestamp := some 9 }]
      exampleCollection).2 ∧
    (addEach [{ m_timestamp := some 3 }, { m_timestamp := some 4 }, { m_timestamp := some 9 }]
      exampleCollection).1 = [kInvalidId, 3, 4] :=
  ⟨by decide,
    (AddItems_eq_addEach
      [{ m_timestamp := some 3 }, { m_timestamp := some 4 }, { m_timestamp := some 9 }]
      exampleCollection (by decide)).1,
    by decide⟩

end GpsTrackCollection

end GpsTrack

namespace GpsTrack

open TransitReader (sizeMod sizeAdd sizeSub)

namespace GpsTrackCollection

theorem AddItems_members (items : List TItem) (c : GpsTrackCollection) :
    (AddItems items c).2.m_items = (addLoop items (c, 0)).1.m_items ∧
    c.m_items.length ≤ (AddItems items c).2.m_items.length ∧
    (AddItems items c).2.m_items.length ≤ c.m_items.length + items.length := by
  have h : (AddItems items c).2.m_items = (addLoop items (c, 0)).1.m_items := by
    unfold AddItems
    simp only
    split <;> rfl
  rw [h]
  exact ⟨rfl, addLoop_length items c 0⟩

theorem AddItems_none (items : List TItem) (c : GpsTrackCollection)
    (hlen : items.length < sizeMod) (h : appended c (AddItems items c).2 = 0) :
    AddItems items c = ((kInvalidId, kInvalidId), c) := by
  obtain ⟨m1, m2, -⟩ := AddItems_members items c
  have hadded := addLoop_added items c 0 (by decide)
  unfold appended at h
  rw [m1] at h m2
  have hsame : (addLoop items (c, 0)).1.m_items.length = c.m_items.length := by omega
  have h0 : (addLoop items (c, 0)).2 = 0 := by
    rw [hadded, hsame]
    simp
  have hitems : (addLoop items (c, 0)).1.m_items = c.m_items := by
    clear hadded h0 h m1 m2
    induction items generalizing c with
    | nil => rfl
    | cons item rest ih =>
      cases hb : c.backIsLater item with
      | true =>
        simp only [addLoop, hb, if_true] at hsame ⊢
        exact ih c (by simp only [List.length_cons] at hlen; omega) hsame
      | false =>
        exfalso
        simp only [addLoop, hb, Bool.false_eq_true, if_false] at hsame
        have := (addLoop_length rest { c with m_items := c.m_items ++ [item] } (sizeAdd 0 1)).1
        simp only [List.length_append, List.length_singleton] at this
        omega
  unfold AddItems
  simp only [h0, if_true]
  exact Prod.ext rfl (eq_of_members _ _ hitems (addLoop_lastId items c 0))

theorem AddItems_some (items : List TItem) (c : GpsTrackCollection)
    (hlen : items.length < sizeMod) (h : appended c (AddItems items c).2 ≠ 0) :
    (AddItems items c).1 =
      (c.m_lastId, sizeSub (sizeAdd c.m_lastId (appended c (AddItems items c).2)) 1) ∧
    (AddItems items c).2.m_lastId = sizeAdd c.m_lastId (appended c (AddItems items c).2) := by
  obtain ⟨m1, m2, m3⟩ := AddItems_members items c
  have hadded := addLoop_added items c 0 (by decide)
  unfold appended at h ⊢
  rw [m1] at h m2 m3 ⊢
  have hk : (addLoop items (c, 0)).1.m_items.length - c.m_items.length < sizeMod := by omega
  have hval : (addLoop items (c, 0)).2 =
      (addLoop items (c, 0)).1.m_items.length - c.m_items.length := by
    rw [hadded, Nat.zero_add]
    exact Nat.mod_eq_of_lt hk
  have hne : ¬ (addLoop items (c, 0)).2 = 0 := by
    rw [hval]
    exact h
  unfold AddItems
  simp only [hne, if_false, addLoop_lastId]
  rw [hval]
  exact ⟨rfl, rfl⟩

theorem appended_le (items : List TItem) (c : GpsTrackCollection) :
    appended c (AddItems items c).2 ≤ items.length := by
  obtain ⟨-, m2, m3⟩ := AddItems_members items c
  unfold appended
  omega

theorem range_arith (l k : Nat) (hl : l < sizeMod) (hk : k < sizeMod) (h0 : k ≠ 0) :
    sizeAdd (sizeSub (sizeSub (sizeAdd l k) 1) l) 1 = k ∧
    (l + k < sizeMod → sizeSub (sizeAdd l k) 1 = l + k - 1 ∧ sizeAdd l k = l + k) := by
  simp only [sizeAdd, sizeSub, sizeMod] at *
  omega

/-- C21: `Add` of a vector of at most `2 ^ 64 - 1` items on a collection. When
no item was appended the call returns `(kInvalidId, kInvalidId)` and the
collection is unchanged. When `n > 0` items were appended it returns a pair
`(first, second)` with `first` the id counter before the call and
`second - first + 1 = n` as `size_t` values, and the id counter is advanced by
`n`; the numbers are `second = first + n - 1` and `first + n` when the counter
does not wrap around. With an id counter below `kInvalidId` the returned pair
is `(kInvalidId, kInvalidId)` if and only if no item was appended. -/
theorem AddItems_result (items : List TItem) (c : GpsTrackCollection)
    (hid : c.m_lastId < sizeMod) (hlen : items.length < sizeMod) :
    (appended c (AddItems items c).2 = 0 → AddItems items c = ((kInvalidId, kInvalidId), c)) ∧
    (appended c (AddItems items c).2 ≠ 0 →
      (AddItems items c).1.1 = c.m_lastId ∧
      sizeAdd (sizeSub (AddItems items c).1.2 (AddItems items c).1.1) 1 =
        appended c (AddItems items c).2 ∧
      (AddItems items c).2.m_lastId = sizeAdd c.m_lastId (appended c (AddItems items c).2)) ∧
    (c.m_lastId < kInvalidId →
      ((AddItems items c).1 = (kInvalidId, kInvalidId) ↔ appended c (AddItems items c).2 = 0)) ∧
    (appended c (AddItems items c).2 ≠ 0 →
      c.m_lastId + appended c (AddItems items c).2 < sizeMod →
      (AddItems items c).1 = (c.m_lastId, c.m_lastId + appended c (AddItems items c).2 - 1) ∧
      (AddItems items c).1.2 - (AddItems items c).1.1 + 1 = appended c (AddItems items c).2 ∧
      (AddItems items c).2.m_lastId = c.m_lastId + appended c (AddItems items c).2) := by
  have hle := appended_le items c
  have hk : appended c (AddItems items c).2 < sizeMod := by omega
  refine ⟨AddItems_none items c hlen, ?_, ?_, ?_⟩
  · intro h0
    obtain ⟨h1, h2⟩ := AddItems_some items c hlen h0
    refine ⟨by rw [h1], ?_, h2⟩
    rw [h1]
    exact (range_arith c.m_lastId _ hid hk h0).1
  · intro hinv
    constructor
    · intro hres
      by_contra h0
      obtain ⟨h1, -⟩ := AddItems_some items c hlen h0
      rw [h1] at hres
      have hfirst : c.m_lastId = kInvalidId := congrArg Prod.fst hres
      omega
    · intro h0
      rw [AddItems_none items c hlen h0]
  · intro h0 hwrap
    obtain ⟨h1, h2⟩ := AddItems_some items c hlen h0
    obtain ⟨a1, a2⟩ := (range_arith c.m_lastId _ hid hk h0).2 hwrap
    rw [h1, h2, a1, a2]
    refine ⟨rfl, ?_, rfl⟩
    simp only
    omega

theorem AddItems_result_witness :
    exampleCollection.m_lastId < sizeMod ∧
    AddItems [{ m_timestamp := some 3 }, { m_timestamp := some 4 }, { m_timestamp := some 9 }]
      exampleCollection =
      ((3, 4),
        { m_items := [{ m_timestamp := some 2 }, { m_timestamp := some 4 },
            { m_timestamp := some 4 }, { m_timestamp := some 9 }],
          m_lastId := 5 }) ∧
    AddItems [{ m_timestamp := some 3 }] exampleCollection =
      ((kInvalidId, kInvalidId), exampleCollection) ∧
    ((AddItems [{ m_timestamp := some 3 }, { m_timestamp := some 4 }, { m_timestamp := some 9 }]
        exampleCollection).1 = (kInvalidId, kInvalidId) ↔
      appended exampleCollection
        (AddItems [{ m_timestamp := some 3 }, { m_timestamp := some 4 },
          { m_timestamp := some 9 }] exampleCollection).2 = 0) :=
  ⟨by decide, by decide,
    (AddItems_result [{ m_timestamp := some 3 }] exampleCollection (by decide) (by decide)).1
      (by decide),
    (AddItems_result
      [{ m_timestamp := some 3 }, { m_timestamp := some 4 }, { m_timestamp := some 9 }]
      exampleCollection (by decide) (by decide)).2.2.1 (by decide)⟩

end GpsTrackCollection

end GpsTrack

namespace GpsTrack

open TransitReader (sizeMod sizeAdd sizeSub)

namespace GpsTrackCollection

/-! ## `Clear` -/

theorem Clear_empty (resetIds : Bool) (c : GpsTrackCollection) (h : c.m_items = []) :
    Clear resetIds c =
      ((kInvalidId, kInvalidId),
        { m_items := [], m_lastId := if resetIds then 0 else c.m_lastId }) := by
  cases c with
  | mk items lastId =>
    simp only at h
    subst h
    cases resetIds <;> rfl

theorem Clear_nonempty (resetIds : Bool) (c : GpsTrackCollection) (h : c.m_items ≠ []) :
    Clear resetIds c =
      ((sizeSub c.m_lastId c.m_items.length, sizeSub c.m_lastId 1),
        { m_items := [], m_lastId := if resetIds then 0 else c.m_lastId }) := by
  unfold Clear
  have hne : c.m_items.isEmpty = false := by
    cases hc : c.m_items with
    | nil => exact absurd hc h
    | cons x rest => rfl
  rw [hne]
  cases resetIds <;> rfl

theorem Clear_collection (resetIds : Bool) (c : GpsTrackCollection) :
    (Clear resetIds c).2 = { m_items := [], m_lastId := if resetIds then 0 else c.m_lastId } := by
  by_cases h : c.m_items = []
  · rw [Clear_empty resetIds c h]
  · rw [Clear_nonempty resetIds c h]

theorem Add_to_empty (item : TItem) (lastId : Nat) (hid : lastId < sizeMod) :
    Add item { m_items := [], m_lastId := lastId } =
      (lastId, { m_items := [item], m_lastId := sizeAdd lastId 1 }) :=
  Add_accepted item { m_items := [], m_lastId := lastId } rfl hid

theorem sizeAdd_sizeSub_one (n : Nat) (h : n < sizeMod) : sizeAdd (sizeSub n 1) 1 = n := by
  simp only [sizeSub, sizeAdd, sizeMod] at h ⊢
  omega

theorem emptiedCollection_history : History emptiedCollection [] 1 := by
  have h1 := History.add { m_timestamp := some 5 } create [] 0 History.create
  have h2 := History.clear false _ _ _ h1
  exact h2

/-- C22, as stated, fails: a collection that handed out the id 0 and was
emptied by `Clear(false)` is empty with the id counter 1. `Clear(false)` on it
returns `(kInvalidId, kInvalidId)`, and the next `Add` returns the id 1, which
is not `second + 1` of the returned pair (0 as a `size_t`, `2 ^ 64` as a
number). -/
theorem Clear_empty_next_id_not_second_plus_one :
    History emptiedCollection [] 1 ∧
    (Clear false (Add { m_timestamp := some 5 } create).2).2 = emptiedCollection ∧
    Clear false emptiedCollection = ((kInvalidId, kInvalidId), emptiedCollection) ∧
    (Add { m_timestamp := some 7 } (Clear false emptiedCollection).2).1 = 1 ∧
    sizeAdd (Clear false emptiedCollection).1.2 1 = 0 ∧
    (Clear false emptiedCollection).1.2 + 1 = sizeMod ∧
    (Add { m_timestamp := some 7 } (Clear false emptiedCollection).2).1 ≠
      sizeAdd (Clear false emptiedCollection).1.2 1 := by
  refine ⟨emptiedCollection_history, by decide, by decide, by decide, by decide, by decide,
    by decide⟩

/-- C22, amended: `Clear(resetIds)` on an empty collection returns
`(kInvalidId, kInvalidId)`; on a collection of `n > 0` items it returns
`(lastId - n, lastId - 1)` as `size_t` values (the numbers themselves when
`n ≤ lastId`) and leaves the collection empty. The id counter is 0 afterwards
when `resetIds` is true and unchanged otherwise. The next `Add` appends its
item; it returns 0 when `resetIds` is true and the unchanged id counter when
`resetIds` is false, which is `second + 1` of the returned pair when the
collection was not empty. -/
theorem Clear_result (resetIds : Bool) (c : GpsTrackCollection) (item : TItem)
    (hid : c.m_lastId < sizeMod) :
    (c.m_items = [] → (Clear resetIds c).1 = (kInvalidId, kInvalidId)) ∧
    (c.m_items ≠ [] →
      (Clear resetIds c).1 = (sizeSub c.m_lastId c.m_items.length, sizeSub c.m_lastId 1) ∧
      (c.m_items.length ≤ c.m_lastId →
        (Clear resetIds c).1 = (c.m_lastId - c.m_items.length, c.m_lastId - 1))) ∧
    (Clear resetIds c).2 = { m_items := [], m_lastId := if resetIds then 0 else c.m_lastId } ∧
    Add item (Clear true c).2 = (0, { m_items := [item], m_lastId := 1 }) ∧
    Add item (Clear false c).2 =
      (c.m_lastId, { m_items := [item], m_lastId := sizeAdd c.m_lastId 1 }) ∧
    (c.m_items ≠ [] → (Add item (Clear false c).2).1 = sizeAdd (Clear false c).1.2 1) := by
  have hadd : Add item (Clear false c).2 =
      (c.m_lastId, { m_items := [item], m_lastId := sizeAdd c.m_lastId 1 }) := by
    rw [Clear_collection]
    exact Add_to_empty item c.m_lastId hid
  refine ⟨?_, ?_, Clear_collection resetIds c, ?_, hadd, ?_⟩
  · intro h
    rw [Clear_empty resetIds c h]
  · intro h
    rw [Clear_nonempty resetIds c h]
    refine ⟨rfl, fun hle => ?_⟩
    have hpos : 1 ≤ c.m_items.length := by
      cases hc : c.m_items with
      | nil => exact absurd hc h
      | cons x rest => simp
    rw [TransitReader.sizeSub_exact c.m_lastId c.m_items.length hle hid,
      TransitReader.sizeSub_exact c.m_lastId 1 (by omega) hid]
  · rw [Clear_collection]
    have hone : sizeAdd 0 1 = 1 := by decide
    have h := Add_to_empty item 0 (by decide)
    rw [hone] at h
    exact h
  · intro h
    rw [hadd, Clear_nonempty false c h]
    exact (sizeAdd_sizeSub_one c.m_lastId hid).symm

theorem Clear_result_witness :
    exampleCollection.m_lastId < sizeMod ∧
    (Clear false exampleCollection).1 = (1, 2) ∧
    (Clear true exampleCollection).2 = { m_items := [], m_lastId := 0 } ∧
    (Add { m_timestamp := some 1 } (Clear false exampleCollection).2).1 = 3 :=
  ⟨by decide,
    ((Clear_result false exampleCollection { m_timestamp := some 1 } (by decide)).2.1
      (by decide)).2 (by decide),
    (Clear_result true exampleCollection { m_timestamp := some 1 } (by decide)).2.2.1,
    congrArg Prod.fst
      (Clear_result false exampleCollection { m_timestamp := some 1 } (by decide)).2.2.2.2.1⟩

end GpsTrackCollection

end GpsTrack

namespace GpsTrack

open TransitReader (sizeMod sizeAdd sizeSub)

namespace GpsTrackCollection

/-! ## The ids of the stored items -/

end GpsTrackCollection

end GpsTrack

namespace GpsTrack

open TransitReader (sizeMod sizeAdd sizeSub)

namespace GpsTrackCollection

end GpsTrackCollection

end GpsTrack

namespace GpsTrack

open TransitReader (sizeMod sizeAdd sizeSub)

namespace GpsTrackCollection

/-! ## The order of the timestamps -/

theorem Add_no_decrease (item : TItem) (c : GpsTrackCollection)
    (h : (timestamps c).Chain' (fun a b => a.gt b = false)) :
    (timestamps (Add item c).2).Chain' (fun a b => a.gt b = false) := by
  cases hb : c.backIsLater item with
  | true =>
    rw [Add_items_of_rejected item c hb]
    exact h
  | false =>
    unfold timestamps at h ⊢
    rw [(Add_members_of_accepted item c hb).1, List.map_append, List.chain'_append]
    refine ⟨h, List.chain'_singleton _, ?_⟩
    intro x hx y hy
    simp only [List.map_cons, List.map_nil, List.head?_cons, Option.mem_def,
      Option.some.injEq] at hy
    rw [List.getLast?_map] at hx
    simp only [Option.mem_def, Option.map_eq_some'] at hx
    obtain ⟨back, hback, hx⟩ := hx
    unfold backIsLater at hb
    rw [hback] at hb
    rw [← hx, ← hy]
    exact hb

theorem addEach_no_decrease (items : List TItem) (c : GpsTrackCollection)
    (h : (timestamps c).Chain' (fun a b => a.gt b = false)) :
    (timestamps (addEach items c).2).Chain' (fun a b => a.gt b = false) := by
  induction items generalizing c with
  | nil => exact h
  | cons item rest ih => exact ih (Add item c).2 (Add_no_decrease item c h)

theorem timestamps_AddItems (items : List TItem) (c : GpsTrackCollection) :
    timestamps (AddItems items c).2 = timestamps (addEach items c).2 := by
  unfold timestamps
  rw [(AddItems_members items c).1, addLoop_items items c c 0 rfl]

/-- In every state of a collection no stored timestamp is greater than the
next one; a NaN is greater than nothing and nothing is greater than it. -/
theorem History_no_decrease (c : GpsTrackCollection) (ids : List Nat) (n : Nat)
    (h : History c ids n) : (timestamps c).Chain' (fun a b => a.gt b = false) := by
  induction h with
  | create => exact List.chain'_nil
  | add item c ids n _ ih => exact Add_no_decrease item c ih
  | addItems items c ids n _ _ ih =>
    rw [timestamps_AddItems]
    exact addEach_no_decrease items c ih
  | clear resetIds c ids n _ _ =>
    rw [Clear_collection]
    exact List.chain'_nil
  | removeUntil i c ids n _ _ ih =>
    have hd : timestamps (RemoveUntil i c).2 = (timestamps c).drop i := by
      simp [timestamps, RemoveUntil]
    rw [hd]
    exact ih.drop i

theorem le_of_not_gt (a b : Timestamp) (ha : a ≠ none) (hb : b ≠ none)
    (h : a.gt b = false) : a.le b = true := by
  cases a with
  | none => exact absurd rfl ha
  | some x =>
    cases b with
    | none => exact absurd rfl hb
    | some y =>
      simp only [Timestamp.gt, decide_eq_false_iff_not, not_lt] at h
      simp only [Timestamp.le, decide_eq_true_eq]
      exact h

theorem le_trans_of_values (a b c : Timestamp) (h1 : a.le b = true) (h2 : b.le c = true) :
    a.le c = true := by
  cases a with
  | none => simp [Timestamp.le] at h1
  | some x =>
    cases b with
    | none => simp [Timestamp.le] at h1
    | some y =>
      cases c with
      | none => simp [Timestamp.le] at h2
      | some z =>
        simp only [Timestamp.le, decide_eq_true_eq] at h1 h2 ⊢
        exact le_trans h1 h2

theorem pairwise_le_of_no_nan (l : List Timestamp) (hl : ∀ t ∈ l, t ≠ none)
    (h : l.Chain' (fun a b => a.gt b = false)) : l.Pairwise (fun a b => a.le b = true) := by
  induction l with
  | nil => exact List.Pairwise.nil
  | cons a rest ih =>
    have hrest : rest.Pairwise (fun a b => a.le b = true) :=
      ih (fun t ht => hl t (List.mem_cons_of_mem _ ht)) h.tail
    refine List.Pairwise.cons ?_ hrest
    cases rest with
    | nil => simp
    | cons b rest2 =>
      have hab : a.le b = true :=
        le_of_not_gt a b (hl a (List.mem_cons_self _ _))
          (hl b (List.mem_cons_of_mem _ (List.mem_cons_self _ _))) (List.chain'_cons.mp h).1
      intro t ht
      rcases List.mem_cons.mp ht with ht | ht
      · rw [ht]
        exact hab
      · exact le_trans_of_values a b t hab ((List.pairwise_cons.mp hrest).1 t ht)

/-- As long as no stored timestamp is a NaN, the timestamps of a collection do
not decrease from front to back, the assertion of `GetTimestampRange` holds and
the returned pair is ordered. -/
theorem timestamps_ordered_of_no_nan (c : GpsTrackCollection) (ids : List Nat) (n : Nat)
    (h : History c ids n) (hnan : ∀ t ∈ timestamps c, t ≠ none) :
    (timestamps c).Pairwise (fun a b => a.le b = true) ∧
    timestampRangeAssertion c = true ∧
    (GetTimestampRange c).1.le (GetTimestampRange c).2 = true := by
  have hp := pairwise_le_of_no_nan _ hnan (History_no_decrease c ids n h)
  have hrange : (GetTimestampRange c).1.le (GetTimestampRange c).2 = timestampRangeAssertion c ∨
      c.m_items = [] := by
    unfold GetTimestampRange timestampRangeAssertion
    cases hc : c.m_items with
    | nil => exact Or.inr rfl
    | cons x rest =>
      left
      cases hlast : (x :: rest).getLast? with
      | none => simp at hlast
      | some back => rfl
  have hassert : timestampRangeAssertion c = true := by
    unfold timestampRangeAssertion
    unfold timestamps at hp hnan
    cases hc : c.m_items with
    | nil => rfl
    | cons x rest =>
      rw [hc] at hp hnan
      cases hlast : (x :: rest).getLast? with
      | none => simp at hlast
      | some back =>
        simp only [List.head?_cons]
        have hmem : back ∈ x :: rest := List.mem_of_getLast?_eq_some hlast
        rcases List.mem_cons.mp hmem with hb | hb
        · rw [hb]
          have hx : x.m_timestamp ≠ none := hnan _ (by simp)
          cases hv : x.m_timestamp with
          | none => exact absurd hv hx
          | some v => simp [Timestamp.le]
        · simp only [List.map_cons, List.pairwise_cons, List.mem_map, forall_exists_index,
            and_imp, forall_apply_eq_imp_iff₂] at hp
          exact hp.1 back hb
  refine ⟨hp, hassert, ?_⟩
  rcases hrange with hr | hr
  · rw [hr]
    exact hassert
  · unfold GetTimestampRange
    rw [hr]
    rfl

theorem afterNanItem_history : History afterNanItem [0, 1, 2] 3 := by
  have h1 := History.add { m_timestamp := some 5 } create [] 0 History.create
  have h2 := History.add { m_timestamp := none } _ _ _ h1
  have h3 := History.add { m_timestamp := some 3 } _ _ _ h2
  exact h3

/-- C26 at the failing input: on a fresh collection the three calls `Add` of
items with the timestamps 5, NaN and 3 all append their item (they return the
ids 0, 1 and 2). In the state reached the timestamps decrease from 5 to 3, the
condition asserted by `GetTimestampRange` is false, and the pair it returns is
`(5, 3)`. -/
theorem GetTimestampRange_after_nan_item :
    addEach [{ m_timestamp := some 5 }, { m_timestamp := none }, { m_timestamp := some 3 }]
      create = ([0, 1, 2], afterNanItem) ∧
    History afterNanItem [0, 1, 2] 3 ∧
    timestamps afterNanItem = [some 5, none, some 3] ∧
    timestampRangeAssertion afterNanItem = false ∧
    GetTimestampRange afterNanItem = (some 5, some 3) ∧
    (GetTimestampRange afterNanItem).1.le (GetTimestampRange afterNanItem).2 = false ∧
    ¬ (timestamps afterNanItem).Pairwise (fun a b => a.le b = true) := by
  refine ⟨by decide, afterNanItem_history, rfl, rfl, rfl, rfl, ?_⟩
  intro h
  have h53 := (List.pairwise_cons.mp h).1 (some 3) (by decide)
  exact absurd h53 (by decide)

end GpsTrackCollection

end GpsTrack

namespace GeometryBatcher

open TransitReader (sizeMod sizeAdd sizeSub sizeMul)

/-! ## The index loop of `addTexturedStripStrided` -/

end GeometryBatcher

namespace GeometryBatcher

open TransitReader (sizeMod sizeAdd sizeSub sizeMul)

end GeometryBatcher
